import Mathlib

/-!
# SearchAssets: the concurrent content-search engine

A shallow embedding of `src/SearchEngine.h` / `src/SearchEngine.cpp`, and of
the result view and the pattern transform of `src/SearchAssetsGUI.cpp`.

* Bytes (`char`) and `size_t` values are natural numbers; no arithmetic of the
  engine can wrap for sizes that fit in memory.
* `std::filesystem::path` and `std::string` messages are `String`; file
  contents and previews are byte lists.
* The engine object is `SearchEngine`; the surroundings the code talks to
  (another thread that may call `stop_search()`, the descriptor table and the
  mapped regions of the process) are the remaining fields of `Sys`.
* `std::regex` and the file system are parameters (`RegexLib`, `FileSystem`).
* Callback invocations and `std::async` launches are returned as a log of
  `Event`s, in program order.
* Tasks started with `std::async` are run to completion at the point where
  they are launched (one admissible schedule of the program).  The shared
  progress counter alone is also modelled step by step under arbitrary
  schedules (`run_schedule`).
* The POSIX branch of `search_file` is the one embedded.
-/

namespace SearchAssets

/-! ## Data model -/

abbrev Byte := Nat

abbrev Path := String

/-- Record `SearchResult` of `SearchEngine.h`. -/
structure SearchResult where
  file_path : Path
  line_content : List Byte
  line_number : Nat
deriving DecidableEq, Repr

/-- Exceptions, by the handler that catches them: `std::regex_error` and
`std::filesystem::filesystem_error` (both derive from `std::exception`), any
other `std::exception`, and a thrown value that is not a `std::exception`. -/
inductive Exn where
  | regex_error (what : String)
  | filesystem_error (what : String)
  | std_exception
  | foreign
deriving DecidableEq, Repr

/-- How a call ends: it returns, it leaves by an exception, or the process
stops on an integer division by zero. -/
inductive Outcome where
  | returned
  | threw (e : Exn)
  | fault
deriving DecidableEq, Repr

/-- Observable actions: an invocation of the progress callback, an invocation
of the result callback, the launch of a root task
(`std::async(&SearchEngine::search_directory_worker, ...)`) and the launch of
a batch task over the index range `[i, end_)`. -/
inductive Event where
  | progress (message : String) (current total : Nat)
  | result (r : SearchResult)
  | spawn_root (dir_path : Path)
  | spawn_batch (i end_ : Nat)
deriving DecidableEq, Repr

/-- A `std::function` progress callback: `none` is the empty function object;
a callback answers `none` when it returns and `some e` when it throws `e`. -/
abbrev ProgressCallback := Option (String → Nat → Nat → Option Exn)

/-- A `std::function` result callback, as `ProgressCallback`. -/
abbrev ResultCallback := Option (SearchResult → Option Exn)

/-- The part of `std::regex` the engine uses: construction from a pattern
with `icase` (it fails with the `what()` text of a `std::regex_error`),
`std::regex_search` over a byte range (it may throw a `std::regex_error`),
and the default-constructed regex. -/
structure RegexLib (ρ : Type) where
  compile : String → Except String ρ
  regex_search : ρ → List Byte → Except String Bool
  empty : ρ

/-- What the system calls of `search_file` answer for one path:
`std::filesystem::file_size(path, ec)` (`none` when `ec` is set), `open`,
`fstat`, `mmap`, and the bytes of the mapped range. -/
structure FileData where
  stat_size : Option Nat
  open_ok : Bool
  fstat_ok : Bool
  mmap_ok : Bool
  bytes : List Byte
deriving DecidableEq, Repr

/-- A directory tree as `std::filesystem::recursive_directory_iterator` sees
it; `readable = false` marks a directory that cannot be opened. -/
inductive Node where
  | regular (p : Path)
  | other (p : Path)
  | directory (p : Path) (readable : Bool) (children : List Node)

inductive EntryKind where
  | directory
  | regular
  | other
deriving DecidableEq, Repr

/-- One step of a directory iteration: the entry it yields, or the
`filesystem_error` raised by the constructor or by the increment. -/
inductive IterStep where
  | entry (p : Path) (k : EntryKind)
  | error
deriving DecidableEq, Repr

/-- The file system: `std::filesystem::exists(path)` (it may throw a
`filesystem_error`, whose text is the error value), the tree below a root
path, and the per-file answers. -/
structure FileSystem where
  path_exists : Path → Except String Bool
  root : Path → Node
  file : Path → FileData

/-- The data members of class `SearchEngine`. -/
structure SearchEngine (ρ : Type) where
  results_ : List SearchResult
  searching_ : Bool
  stop_requested_ : Bool
  thread_count_ : Nat
  min_file_size_ : Nat
  max_file_size_ : Nat
  compiled_pattern_ : ρ
deriving DecidableEq, Repr

/-- The engine together with its surroundings.  `pending_stop = some k`: a
second thread calls `stop_search()` so that the next `k` reads of
`stop_requested_` still see the old value and every later read sees `true`;
`none`: nobody calls `stop_search()` during the run.  `fds` are the open
descriptors and `maps` the mapped regions, named by their file.
`processed_files` is the counter of that name in the running
`search_directory_worker`, a local its batch tasks share by reference. -/
structure Sys (ρ : Type) where
  eng : SearchEngine ρ
  pending_stop : Option Nat
  fds : List Path
  maps : List Path
  processed_files : Nat
deriving DecidableEq, Repr

/-- Result of running a piece of the program: how it ended, the state it
left, and the events it produced. -/
structure Step (ρ : Type) where
  out : Outcome
  sys : Sys ρ
  log : List Event
deriving DecidableEq, Repr

/-! ## Control flow -/

/-- Fall through with no event. -/
def ret {ρ : Type} (s : Sys ρ) : Step ρ := ⟨.returned, s, []⟩

/-- Statement sequence `a; k`: `k` runs when `a` completes normally. -/
def Step.and_then {ρ : Type} (a : Step ρ) (k : Sys ρ → Step ρ) : Step ρ :=
  match a.out with
  | .returned => ⟨(k a.sys).out, (k a.sys).sys, a.log ++ (k a.sys).log⟩
  | _ => a

/-- Statement `try { a } catch (...) { ... }`: `handler e` is the body of the
clause that catches `e`, `none` when no clause does. -/
def Step.try_catch {ρ : Type} (a : Step ρ) (handler : Exn → Option (Sys ρ → Step ρ)) : Step ρ :=
  match a.out with
  | .threw e =>
    match handler e with
    | some k => ⟨(k a.sys).out, (k a.sys).sys, a.log ++ (k a.sys).log⟩
    | none => a
  | _ => a

/-- A task started with `std::async(std::launch::async, ...)` and waited for
with `wait()`: the launch is logged, the task runs, and what it throws stays
in its future. -/
def launch {ρ : Type} (ev : Event) (task : Step ρ) : Step ρ :=
  match task.out with
  | .fault => ⟨.fault, task.sys, ev :: task.log⟩
  | _ => ⟨.returned, task.sys, ev :: task.log⟩

/-! ## Small operations of `SearchEngine.h` -/

/-- Constructor: `thread_count_(hardware_concurrency())`, 4 when that is 0;
the other members take their default member initialisers. -/
def SearchEngine.new {ρ : Type} (lib : RegexLib ρ) (hardware_concurrency : Nat) : SearchEngine ρ :=
  { results_ := []
    searching_ := false
    stop_requested_ := false
    thread_count_ := if hardware_concurrency = 0 then 4 else hardware_concurrency
    min_file_size_ := 100
    max_file_size_ := 1024 * 1024
    compiled_pattern_ := lib.empty }

def set_file_size_limits {ρ : Type} (min_size max_size : Nat) (e : SearchEngine ρ) : SearchEngine ρ :=
  { e with min_file_size_ := min_size, max_file_size_ := max_size }

def set_thread_count {ρ : Type} (threads : Nat) (e : SearchEngine ρ) : SearchEngine ρ :=
  { e with thread_count_ := threads }

def get_thread_count {ρ : Type} (e : SearchEngine ρ) : Nat := e.thread_count_

def is_searching {ρ : Type} (e : SearchEngine ρ) : Bool := e.searching_

def get_results {ρ : Type} (e : SearchEngine ρ) : List SearchResult := e.results_

def stop_search {ρ : Type} (e : SearchEngine ρ) : SearchEngine ρ :=
  { e with stop_requested_ := true }

def clear_results {ρ : Type} (e : SearchEngine ρ) : SearchEngine ρ :=
  { e with results_ := [] }

/-! ## Reading the cancellation flag, calling back, descriptors -/

/-- One read of the atomic `stop_requested_`, after the other thread had its
chance to call `stop_search()`: the value read and the state left. -/
def poll {ρ : Type} (s : Sys ρ) : Bool × Sys ρ :=
  match s.pending_stop with
  | none => (s.eng.stop_requested_, s)
  | some 0 => (true, { s with eng := stop_search s.eng })
  | some (k + 1) => (s.eng.stop_requested_, { s with pending_stop := some k })

/-- Statement `if (progress_cb) progress_cb(message, current, total);`. -/
def call_progress {ρ : Type} (progress_cb : ProgressCallback) (message : String)
    (current total : Nat) (s : Sys ρ) : Step ρ :=
  match progress_cb with
  | none => ret s
  | some cb =>
    match cb message current total with
    | none => ⟨.returned, s, [.progress message current total]⟩
    | some e => ⟨.threw e, s, [.progress message current total]⟩

/-- Statement `if (result_cb) result_cb(result);`. -/
def call_result {ρ : Type} (result_cb : ResultCallback) (result : SearchResult)
    (s : Sys ρ) : Step ρ :=
  match result_cb with
  | none => ret s
  | some cb =>
    match cb result with
    | none => ⟨.returned, s, [.result result]⟩
    | some e => ⟨.threw e, s, [.result result]⟩

/-- The two calls `munmap(file_data, file_size); close(fd);`. -/
def unmap_close {ρ : Type} (file_path : Path) (s : Sys ρ) : Sys ρ :=
  { s with maps := s.maps.erase file_path, fds := s.fds.erase file_path }

/-- The call `close(fd);`. -/
def close_fd {ρ : Type} (file_path : Path) (s : Sys ρ) : Sys ρ :=
  { s with fds := s.fds.erase file_path }

/-! ## `search_file` -/

/-- Bytes of an ASCII string literal. -/
def bytes_of (s : String) : List Byte := s.toList.map Char.toNat

/-- Algorithm `std::replace(first, last, old_value, new_value)`. -/
def std_replace (l : List Byte) (old_value new_value : Byte) : List Byte :=
  l.map fun c => if c = old_value then new_value else c

/-- Lines 169-182 of `SearchEngine.cpp`: the preview of a matching file. -/
def content_preview (file_content : List Byte) : List Byte :=
  let preview_size := min 1000 file_content.length
  let preview := file_content.take preview_size
  let is_likely_text := (preview.find? fun c => c == 0).isNone
  if is_likely_text then
    std_replace (std_replace preview 10 32) 13 32
  else
    bytes_of "Binary content match"

/-- Clause `catch (const std::exception&) {}` of `search_file`: it catches
every `std::exception` and does nothing. -/
def catch_std_exception {ρ : Type} : Exn → Option (Sys ρ → Step ρ)
  | .foreign => none
  | _ => some ret

/-- Lines 167-204: the match test, the result, and the clean-up at the end of
the `try` block. -/
def match_and_report {ρ : Type} (lib : RegexLib ρ) (file_path : Path) (file_content : List Byte)
    (result_cb : ResultCallback) (s : Sys ρ) : Step ρ :=
  match lib.regex_search s.eng.compiled_pattern_ file_content with
  | .error what => ⟨.threw (.regex_error what), s, []⟩
  | .ok false => ret (unmap_close file_path s)
  | .ok true =>
    let result : SearchResult := ⟨file_path, content_preview file_content, 1⟩
    let s := { s with eng := { s.eng with results_ := s.eng.results_ ++ [result] } }
    (call_result result_cb result s).and_then fun s => ret (unmap_close file_path s)

/-- Function `SearchEngine::search_file` (POSIX branch).  The mapped range
`file_content` has `file_size` bytes, the size `fstat` reports, so
`file_size == 0` is `file_content.length = 0`; a successful `mmap` does not
return a null pointer. -/
def search_file {ρ : Type} (lib : RegexLib ρ) (fs : FileSystem) (file_path : Path)
    (result_cb : ResultCallback) (s : Sys ρ) : Step ρ :=
  if (poll s).1 then ret (poll s).2 else
  let s := (poll s).2
  match (fs.file file_path).stat_size with
  | none => ret s
  | some file_size_check =>
    if file_size_check < s.eng.min_file_size_ ∨ file_size_check > s.eng.max_file_size_ then
      ret s
    else if (fs.file file_path).open_ok = false then
      ret s
    else
      let s := { s with fds := file_path :: s.fds }
      if (fs.file file_path).fstat_ok = false then
        ret (close_fd file_path s)
      else if (fs.file file_path).mmap_ok = false then
        ret (close_fd file_path s)
      else
        let s := { s with maps := file_path :: s.maps }
        let file_content := (fs.file file_path).bytes
        if file_content.length = 0 then
          ret (unmap_close file_path s)
        else
          (match_and_report lib file_path file_content result_cb s).try_catch catch_std_exception

/-! ## `collect_files` -/

mutual
/-- Steps a recursive iteration produces for one entry: the entry itself,
then (for a directory) the steps of its content, or the error of the
increment that fails to open it. -/
def Node.walk : Node → List IterStep
  | .regular p => [.entry p .regular]
  | .other p => [.entry p .other]
  | .directory p readable children =>
    .entry p .directory :: (if readable then walk_list children else [.error])
/-- Steps for a list of sibling entries, in iteration order. -/
def walk_list : List Node → List IterStep
  | [] => []
  | n :: ns => n.walk ++ walk_list ns
end

/-- Steps of `recursive_directory_iterator(directory)`: the content of a
readable directory; the constructor throws for anything else. -/
def iterate : Node → List IterStep
  | .directory _ true children => walk_list children
  | _ => [.error]

/-- The range-for loop of `collect_files` with its `try`/`catch`: the flag is
read once per entry, a `filesystem_error` ends the loop silently. -/
def collect_loop {ρ : Type} : List IterStep → List Path → Sys ρ → List Path × Sys ρ
  | [], files, s => (files, s)
  | .error :: _, files, s => (files, s)
  | .entry p k :: rest, files, s =>
    if (poll s).1 then (files, (poll s).2) else
    match k with
    | .directory => collect_loop rest files (poll s).2
    | .regular => collect_loop rest (files ++ [p]) (poll s).2
    | .other => collect_loop rest files (poll s).2

/-- Function `SearchEngine::collect_files`. -/
def collect_files {ρ : Type} (fs : FileSystem) (directory : Path) (s : Sys ρ) :
    List Path × Sys ρ :=
  collect_loop (iterate (fs.root directory)) [] s

/-! ## `search_directory_worker` -/

/-- Lines 238-241: count the file and report progress. -/
def count_and_report {ρ : Type} (progress_cb : ProgressCallback) (total_files : Nat)
    (s : Sys ρ) : Step ρ :=
  let s := { s with processed_files := s.processed_files + 1 }
  if progress_cb.isSome ∧ (s.processed_files % 10 = 0 ∨ s.processed_files = total_files) then
    call_progress progress_cb "Processing files..." s.processed_files total_files s
  else ret s

/-- Body of a batch task (the lambda of lines 234-243) over the files
`files[i], ..., files[end-1]`, given as a list. -/
def batch_task {ρ : Type} (lib : RegexLib ρ) (fs : FileSystem) (progress_cb : ProgressCallback)
    (result_cb : ResultCallback) (total_files : Nat) : List Path → Sys ρ → Step ρ
  | [], s => ret s
  | file :: rest, s =>
    if (poll s).1 then ret (poll s).2 else
    (search_file lib fs file result_cb (poll s).2).and_then fun s =>
    (count_and_report progress_cb total_files s).and_then fun s =>
    batch_task lib fs progress_cb result_cb total_files rest s

/-- The loop `for (i = 0; i < files.size() && !stop_requested_; i += batch_size)`
of lines 230-245 followed by the waits, from index `i` on.  `fuel` bounds the
number of iterations. -/
def spawn_loop {ρ : Type} (lib : RegexLib ρ) (fs : FileSystem) (progress_cb : ProgressCallback)
    (result_cb : ResultCallback) (files : List Path) (batch_size total_files : Nat) :
    Nat → Nat → Sys ρ → Step ρ
  | 0, _, s => ret s
  | fuel + 1, i, s =>
    if i < files.length then
      if (poll s).1 then ret (poll s).2 else
      let end_ := min (i + batch_size) files.length
      (launch (.spawn_batch i end_)
        (batch_task lib fs progress_cb result_cb total_files
          ((files.drop i).take (end_ - i)) (poll s).2)).and_then fun s =>
      spawn_loop lib fs progress_cb result_cb files batch_size total_files
        fuel (i + batch_size) s
    else ret s

/-- Clause `catch (const std::filesystem::filesystem_error& e)` of
`search_directory_worker`. -/
def catch_filesystem_error {ρ : Type} (dir_path : Path) (progress_cb : ProgressCallback) :
    Exn → Option (Sys ρ → Step ρ)
  | .filesystem_error what =>
    some (call_progress progress_cb ("Error accessing: " ++ dir_path ++ " - " ++ what) 0 0)
  | _ => none

/-- Function `SearchEngine::search_directory_worker`.  The division
`files.size() / thread_count_` faults when `thread_count_` is 0. -/
def search_directory_worker {ρ : Type} (lib : RegexLib ρ) (fs : FileSystem) (dir_path : Path)
    (progress_cb : ProgressCallback) (result_cb : ResultCallback) (s : Sys ρ) : Step ρ :=
  if (poll s).1 then ret (poll s).2 else
  let files := (collect_files fs dir_path (poll s).2).1
  let s := (collect_files fs dir_path (poll s).2).2
  let total_files := files.length
  let s := { s with processed_files := 0 }
  ((call_progress progress_cb ("Searching in: " ++ dir_path) s.processed_files total_files s).and_then
    fun s =>
      if s.eng.thread_count_ = 0 then ⟨.fault, s, []⟩ else
      let batch_size := max 1 (files.length / s.eng.thread_count_)
      spawn_loop lib fs progress_cb result_cb files batch_size total_files
        (files.length + 1) 0 s).try_catch
    (catch_filesystem_error dir_path progress_cb)

/-! ## `search` -/

/-- The loop over `search_paths` of lines 46-61 followed by the waits.  An
exception of `std::filesystem::exists` or of the progress callback leaves the
loop. -/
def search_paths_loop {ρ : Type} (lib : RegexLib ρ) (fs : FileSystem)
    (progress_cb : ProgressCallback) (result_cb : ResultCallback) :
    List Path → Sys ρ → Step ρ
  | [], s => ret s
  | path :: rest, s =>
    if (poll s).1 then ret (poll s).2 else
    match fs.path_exists path with
    | .error what => ⟨.threw (.filesystem_error what), (poll s).2, []⟩
    | .ok true =>
      (launch (.spawn_root path)
        (search_directory_worker lib fs path progress_cb result_cb (poll s).2)).and_then
        fun s => search_paths_loop lib fs progress_cb result_cb rest s
    | .ok false =>
      (call_progress progress_cb ("Directory not found: " ++ path) 0 0 (poll s).2).and_then
        fun s => search_paths_loop lib fs progress_cb result_cb rest s

/-- The `try` block of `search`: compile the pattern, then the loop. -/
def search_try {ρ : Type} (lib : RegexLib ρ) (fs : FileSystem) (search_pattern : String)
    (search_paths : List Path) (progress_cb : ProgressCallback) (result_cb : ResultCallback)
    (s : Sys ρ) : Step ρ :=
  match lib.compile search_pattern with
  | .error what => ⟨.threw (.regex_error what), s, []⟩
  | .ok re =>
    search_paths_loop lib fs progress_cb result_cb search_paths
      { s with eng := { s.eng with compiled_pattern_ := re } }

/-- Clause `catch (const std::regex_error& e)` of `search`. -/
def catch_regex_error {ρ : Type} (progress_cb : ProgressCallback) :
    Exn → Option (Sys ρ → Step ρ)
  | .regex_error what =>
    some (call_progress progress_cb ("Invalid regex pattern: " ++ what) 0 0)
  | _ => none

/-- Function `SearchEngine::search`.  `searching_ = false` is the last
statement, reached when the `try` statement completes. -/
def search {ρ : Type} (lib : RegexLib ρ) (fs : FileSystem) (search_pattern : String)
    (search_paths : List Path) (progress_cb : ProgressCallback) (result_cb : ResultCallback)
    (s : Sys ρ) : Step ρ :=
  if s.eng.searching_ then ret s else
  let s : Sys ρ :=
    { s with eng := clear_results { s.eng with searching_ := true, stop_requested_ := false } }
  ((search_try lib fs search_pattern search_paths progress_cb result_cb s).try_catch
    (catch_regex_error progress_cb)).and_then
    fun s => ret { s with eng := { s.eng with searching_ := false } }

/-! ## Vocabulary of the properties -/

/-- Reference definition of the preview, in the words of the specification:
`w` is the first `min(1000, |b|)` bytes; without a zero byte in `w` the
preview is `w` with every carriage return and line feed replaced by a space,
otherwise it is the text "Binary content match". -/
def preview_spec (b : List Byte) : List Byte :=
  let w := b.take (min 1000 b.length)
  if 0 ∈ w then bytes_of "Binary content match"
  else w.map fun c => if c = 13 ∨ c = 10 then 32 else c

/-- The `SearchResult` built for a matching file. -/
def result_of (fs : FileSystem) (file_path : Path) : SearchResult :=
  ⟨file_path, content_preview (fs.file file_path).bytes, 1⟩

/-- Every system call of `search_file` succeeds on the file. -/
def io_ok (d : FileData) : Bool :=
  d.stat_size.isSome && d.open_ok && d.fstat_ok && d.mmap_ok

/-- The matcher finds a match somewhere in the bytes. -/
def matches_in {ρ : Type} (lib : RegexLib ρ) (re : ρ) (content : List Byte) : Bool :=
  match lib.regex_search re content with
  | .ok true => true
  | _ => false

/-- The size reported for the file lies in `[min_size, max_size]`. -/
def size_in_bounds (d : FileData) (min_size max_size : Nat) : Bool :=
  match d.stat_size with
  | some n => decide (min_size ≤ n) && decide (n ≤ max_size)
  | none => false

/-- The files `search_file` adds to the store, with limits and matcher given:
every call succeeds, the size is within the limits, the content is not empty
and the matcher finds a match. -/
def accepts {ρ : Type} (lib : RegexLib ρ) (fs : FileSystem) (min_size max_size : Nat) (re : ρ)
    (file_path : Path) : Bool :=
  io_ok (fs.file file_path) && size_in_bounds (fs.file file_path) min_size max_size
    && !(fs.file file_path).bytes.isEmpty && matches_in lib re (fs.file file_path).bytes

/-- Regular files an iteration yields up to its first error. -/
def regular_files : List IterStep → List Path
  | [] => []
  | .error :: _ => []
  | .entry p .regular :: rest => p :: regular_files rest
  | .entry _ .directory :: rest => regular_files rest
  | .entry _ .other :: rest => regular_files rest

/-- Files under a root path, as an undisturbed `collect_files` returns them. -/
def listing (fs : FileSystem) (directory : Path) : List Path :=
  regular_files (iterate (fs.root directory))

/-- The probe `std::filesystem::exists` answers `true`. -/
def root_found (fs : FileSystem) (p : Path) : Bool :=
  match fs.path_exists p with
  | .ok true => true
  | _ => false

/-- The probe `std::filesystem::exists` answers `false`. -/
def root_missing (fs : FileSystem) (p : Path) : Bool :=
  match fs.path_exists p with
  | .ok false => true
  | _ => false

/-- The probe `std::filesystem::exists` throws. -/
def probe_throws (fs : FileSystem) (p : Path) : Bool :=
  match fs.path_exists p with
  | .error _ => true
  | _ => false

/-- All files of the existing root paths, in path order. -/
def all_files (fs : FileSystem) (search_paths : List Path) : List Path :=
  (search_paths.filter (root_found fs)).flatMap (listing fs)

/-- A progress callback that always returns. -/
def quiet_progress (cb : ProgressCallback) : Prop :=
  ∀ f, cb = some f → ∀ m c t, f m c t = none

/-- A result callback that always returns. -/
def quiet_result (cb : ResultCallback) : Prop :=
  ∀ f, cb = some f → ∀ r, f r = none

def Event.is_progress : Event → Bool
  | .progress _ _ _ => true
  | _ => false

def Event.is_spawn_root : Event → Bool
  | .spawn_root _ => true
  | _ => false

/-- The string `s` begins with `pre`. -/
def begins_with (pre s : String) : Bool := pre.toList.isPrefixOf s.toList

/-- A progress event reporting a missing root path. -/
def Event.is_not_found : Event → Bool
  | .progress m _ _ => begins_with "Directory not found: " m
  | _ => false

/-- Progress events of a batch loop that starts with the counter at
`processed` and handles `count` files: one per counter value that is a
multiple of 10 or equals `total`. -/
def processing_events (progress_cb : ProgressCallback) (processed count total : Nat) :
    List Event :=
  if progress_cb.isSome then
    ((List.range' (processed + 1) count).filter fun k => k % 10 = 0 ∨ k = total).map
      fun k => .progress "Processing files..." k total
  else []

/-- The progress events of one root with `n` files: the announcement, then
the counts. -/
def root_progress (pcb : ProgressCallback) (dir : Path) (n : Nat) : List Event :=
  (if pcb.isSome then [Event.progress ("Searching in: " ++ dir) 0 n] else [])
    ++ processing_events pcb 0 n n

/-- The progress event that reports a missing root path. -/
def not_found_event (p : Path) : Event := .progress ("Directory not found: " ++ p) 0 0

/-- The last progress event of a log. -/
def last_progress (log : List Event) : Option Event :=
  (log.filter Event.is_progress).getLast?

/-- The two states hold the same engine and the same stop schedule. -/
def Sys.same_engine {ρ : Type} (s t : Sys ρ) : Prop :=
  s.eng = t.eng ∧ s.pending_stop = t.pending_stop

/-- The two states agree on everything but descriptors and mappings. -/
def Sys.same_core {ρ : Type} (s t : Sys ρ) : Prop :=
  s.same_engine t ∧ s.processed_files = t.processed_files

/-- Two runs end alike: same outcome, same events, and final states related
by `R`. -/
def Step.sim {ρ : Type} (R : Sys ρ → Sys ρ → Prop) (a b : Step ρ) : Prop :=
  a.out = b.out ∧ a.log = b.log ∧ R a.sys b.sys

/-- Later state of a run: worker count and limits are the same, and a stop
schedule without a stop request stays so. -/
def Sys.keeps {ρ : Type} (s t : Sys ρ) : Prop :=
  t.eng.thread_count_ = s.eng.thread_count_
  ∧ t.eng.min_file_size_ = s.eng.min_file_size_
  ∧ t.eng.max_file_size_ = s.eng.max_file_size_
  ∧ (s.pending_stop = none → t.pending_stop = none)

/-- No cancellation: the flag is clear and nobody will set it. -/
def Sys.undisturbed {ρ : Type} (s : Sys ρ) : Prop :=
  s.eng.stop_requested_ = false ∧ s.pending_stop = none

/-- Results the engine `e` stores for a list of files, in list order. -/
def hits {ρ : Type} (lib : RegexLib ρ) (fs : FileSystem) (e : SearchEngine ρ)
    (files : List Path) : List SearchResult :=
  (files.filter (accepts lib fs e.min_file_size_ e.max_file_size_ e.compiled_pattern_)).map
    (result_of fs)

/-- The flag reads `false` on entry and the file passes every check of
`search_file` in state `s`. -/
def file_hit {ρ : Type} (lib : RegexLib ρ) (fs : FileSystem) (p : Path) (s : Sys ρ) : Bool :=
  !(poll s).1 && accepts lib fs (poll s).2.eng.min_file_size_ (poll s).2.eng.max_file_size_
    (poll s).2.eng.compiled_pattern_ p

/-! ## Sample surroundings for running the model -/

/-- A stand-in regex library for concrete runs: a pattern without `[` is the
literal byte string it spells and matches where that string occurs; a pattern
with `[` does not compile; the default-constructed regex matches nothing. -/
def sample_lib : RegexLib (Option (List Byte)) where
  compile := fun pat =>
    if pat.toList.contains '[' then .error "Unexpected character within brackets"
    else .ok (some (bytes_of pat))
  regex_search := fun re content =>
    match re with
    | none => .ok false
    | some lit =>
      .ok ((List.range (content.length + 1)).any fun k => lit.isPrefixOf (content.drop k))
  empty := none

/-- A small file system: root `d` holds `d/a` ("foo"), `d/b` ("bar") and the
empty file `d/c`; probing `locked/x` is refused; nothing else exists. -/
def sample_fs : FileSystem where
  path_exists := fun p =>
    if p = "d" then .ok true
    else if p = "locked/x" then .error "Permission denied"
    else .ok false
  root := fun p =>
    if p = "d" then .directory "d" true [.regular "d/a", .regular "d/b", .regular "d/c"]
    else .directory p false []
  file := fun p =>
    if p = "d/a" then ⟨some 3, true, true, true, [102, 111, 111]⟩
    else if p = "d/b" then ⟨some 3, true, true, true, [98, 97, 114]⟩
    else if p = "d/c" then ⟨some 0, true, true, true, []⟩
    else ⟨none, false, false, false, []⟩

/-- The sample file system on a platform where mapping zero bytes fails:
`mmap` is refused for the empty file `d/c`. -/
def sample_fs_strict : FileSystem :=
  { sample_fs with
    file := fun p => if p = "d/c" then ⟨some 0, true, true, false, []⟩ else sample_fs.file p }

/-- An idle engine with limits `[min_size, max_size]` and `threads` workers,
no descriptor open, and the stop schedule `pending`. -/
def sample_sys (min_size max_size threads : Nat) (pending : Option Nat) :
    Sys (Option (List Byte)) :=
  ⟨set_file_size_limits min_size max_size (set_thread_count threads (SearchEngine.new sample_lib 0)),
    pending, [], [], 0⟩

/-- The state of `sample_sys` inside a session that compiled the literal
`lit`. -/
def sample_running (lit : List Byte) (min_size max_size threads : Nat) (pending : Option Nat) :
    Sys (Option (List Byte)) :=
  { sample_sys min_size max_size threads pending with
    eng := { (sample_sys min_size max_size threads pending).eng with
      searching_ := true, compiled_pattern_ := some lit } }

/-- A progress callback that returns normally. -/
def sample_progress_cb : ProgressCallback := some fun _ _ _ => none

/-- A result callback that returns normally. -/
def sample_result_cb : ResultCallback := some fun _ => none

/-! ## Further sample surroundings -/

/-- A result callback that throws a `std::exception` on every call. -/
def sample_throwing_result_cb : ResultCallback := some fun _ => some .std_exception

/-- The sample regex library with a `regex_search` that throws a
`std::regex_error` on every input. -/
def sample_lib_throwing : RegexLib (Option (List Byte)) :=
  { sample_lib with regex_search := fun _ _ => .error "complexity limit exceeded" }

/-! ## Public operations of the engine -/

/-- A call of a public member function of `SearchEngine`. -/
inductive Op where
  | set_file_size_limits (min_size max_size : Nat)
  | search (search_pattern : String) (search_paths : List Path)
      (progress_cb : ProgressCallback) (result_cb : ResultCallback)
  | stop_search
  | clear_results
  | set_thread_count (threads : Nat)

/-- The state after one call. -/
def Op.apply {ρ : Type} (lib : RegexLib ρ) (fs : FileSystem) : Op → Sys ρ → Sys ρ
  | .set_file_size_limits a b, s => { s with eng := SearchAssets.set_file_size_limits a b s.eng }
  | .search pattern paths pcb rcb, s => (SearchAssets.search lib fs pattern paths pcb rcb s).sys
  | .stop_search, s => { s with eng := SearchAssets.stop_search s.eng }
  | .clear_results, s => { s with eng := SearchAssets.clear_results s.eng }
  | .set_thread_count n, s => { s with eng := SearchAssets.set_thread_count n s.eng }

/-- The state after a sequence of calls. -/
def run_ops {ρ : Type} (lib : RegexLib ρ) (fs : FileSystem) (ops : List Op) (s : Sys ρ) : Sys ρ :=
  ops.foldl (fun t op => op.apply lib fs t) s

/-- The state right after construction of the engine. -/
def initial_sys {ρ : Type} (lib : RegexLib ρ) (hardware_concurrency : Nat)
    (pending : Option Nat) : Sys ρ :=
  ⟨SearchEngine.new lib hardware_concurrency, pending, [], [], 0⟩

/-- The call is not a `set_file_size_limits` with `min_size > max_size`. -/
def Op.ordered : Op → Bool
  | .set_file_size_limits a b => decide (a ≤ b)
  | _ => true

/-! ## Files of a tree -/

mutual
/-- Regular files at or below an entry that do not lie inside a directory
that cannot be opened, in iteration order. -/
def Node.reachable_files : Node → List Path
  | .regular p => [p]
  | .other _ => []
  | .directory _ readable children => if readable then reachable_list children else []
/-- The same for a list of sibling entries. -/
def reachable_list : List Node → List Path
  | [] => []
  | n :: ns => n.reachable_files ++ reachable_list ns
end

/-- Regular files below a root directory outside every directory that
cannot be opened. -/
def root_reachable_files : Node → List Path
  | .directory _ true children => reachable_list children
  | _ => []

mutual
/-- Every directory at or below the entry can be opened. -/
def Node.all_readable : Node → Bool
  | .regular _ => true
  | .other _ => true
  | .directory _ readable children => readable && all_readable_list children
/-- The same for a list of sibling entries. -/
def all_readable_list : List Node → Bool
  | [] => true
  | n :: ns => n.all_readable && all_readable_list ns
end

/-- A file system whose root `t` holds the file `t/a`, then the directory
`t/locked` that cannot be opened, then the file `t/z`. -/
def sample_fs_locked : FileSystem :=
  { sample_fs with
    path_exists := fun p => if p = "t" then .ok true else sample_fs.path_exists p
    root := fun p =>
      if p = "t" then
        .directory "t" true
          [.regular "t/a", .directory "t/locked" false [.regular "t/locked/x"], .regular "t/z"]
      else sample_fs.root p }

/-! ## `SearchAssetsGUI`: the pattern transform

A `std::string` of the presentation layer is a `String`, read as its list of
characters.  The code works on the bytes of the string; the characters it
compares with (`.`, the letters `A` to `Z`) are ASCII, and no byte of a longer
UTF-8 character equals an ASCII byte, so the results are the same. -/

/-- Member `std::string::find_last_of(ch)`: the index of the last occurrence,
`none` for `npos`. -/
def find_last_of : List Char → Char → Option Nat
  | [], _ => none
  | c :: cs, ch =>
    match find_last_of cs ch with
    | some i => some (i + 1)
    | none => if c = ch then some 0 else none

/-- Function `std::isupper` in the "C" locale. -/
def isupper (c : Char) : Bool := decide ('A' ≤ c ∧ c ≤ 'Z')

/-- Function `SearchAssetsGUI::remove_unreal_prefix`.  `basename[0]` and
`basename[1]` read the terminating zero when the index is the length. -/
def remove_unreal_prefix (filename : String) : String :=
  if filename.toList.length < 2 then filename else
  let dot_pos := find_last_of filename.toList '.'
  let extension : List Char :=
    match dot_pos with
    | some d => filename.toList.drop d
    | none => []
  let basename : List Char :=
    match dot_pos with
    | some d => filename.toList.take d
    | none => filename.toList
  let first_char := basename.getD 0 '\x00'
  if basename.length > 1
      ∧ (first_char = 'A' ∨ first_char = 'U' ∨ first_char = 'F' ∨ first_char = 'S'
          ∨ first_char = 'T' ∨ first_char = 'E' ∨ first_char = 'I')
      ∧ isupper (basename.getD 1 '\x00') = true then
    String.mk (basename.drop 1 ++ extension)
  else filename

/-- Reference: the part of a string before its last `.`, all of it when it
has no `.`. -/
def before_last_dot : List Char → List Char
  | [] => []
  | c :: cs =>
    if '.' ∈ cs then c :: before_last_dot cs
    else if c = '.' then []
    else c :: cs

/-- Reference: the condition of the specification under which the first
character is removed: at least two characters, more than one character
before the last `.`, the first character one of A, U, F, S, T, E, I and the
second an upper-case letter. -/
def strips (s : List Char) : Bool :=
  decide (2 ≤ s.length)
  && decide (1 < (before_last_dot s).length)
  && (match s[0]? with
      | some c =>
        decide (c = 'A' ∨ c = 'U' ∨ c = 'F' ∨ c = 'S' ∨ c = 'T' ∨ c = 'E' ∨ c = 'I')
      | none => false)
  && (match s[1]? with
      | some c => decide ('A' ≤ c ∧ c ≤ 'Z')
      | none => false)

/-! ## Vocabulary of the batch partition -/

/-- The event is the launch of a batch task. -/
def Event.is_spawn_batch : Event → Bool
  | .spawn_batch _ _ => true
  | _ => false

/-- Reference: the index ranges of the specification for `n` files and batch
size `b`: `[k*b, min((k+1)*b, n))` for `k = 0, 1, ...` while `k*b < n`. -/
def batch_ranges (n b : Nat) : List (Nat × Nat) :=
  ((List.range n).filter fun k => k * b < n).map fun k => (k * b, min ((k + 1) * b) n)

/-- The index pairs `(i, end)` of the loop of lines 230-245 from index `i`
on, when no cancellation ends it. -/
def ranges_loop (n b : Nat) : Nat → Nat → List (Nat × Nat)
  | 0, _ => []
  | fuel + 1, i =>
    if i < n then (i, min (i + b) n) :: ranges_loop n b fuel (i + b) else []

/-- The batch tasks for a list of index ranges, launched and run one after
another, each over its slice of `files`. -/
def run_ranges {ρ : Type} (lib : RegexLib ρ) (fs : FileSystem) (progress_cb : ProgressCallback)
    (result_cb : ResultCallback) (files : List Path) (total_files : Nat) :
    List (Nat × Nat) → Sys ρ → Step ρ
  | [], s => ret s
  | r :: rest, s =>
    (launch (.spawn_batch r.1 r.2)
      (batch_task lib fs progress_cb result_cb total_files
        ((files.drop r.1).take (r.2 - r.1)) s)).and_then fun s =>
    run_ranges lib fs progress_cb result_cb files total_files rest s

/-- The slice of `files` an index range stands for. -/
def slice (files : List Path) (r : Nat × Nat) : List Path :=
  (files.drop r.1).take (r.2 - r.1)

/-! ## `SearchAssetsGUI`: the result view -/

/-- The members of `SearchAssetsGUI` that hold the result view;
`result_filter_` is the text of the character array up to its terminating
zero. -/
structure GuiResults where
  result_lines_ : List String
  filtered_result_lines_ : List String
  result_filter_ : String
  selected_result_ : Int
deriving DecidableEq, Repr

/-- Call `std::transform(s.begin(), s.end(), s.begin(), ::tolower)` in the
"C" locale: the characters of `s`, upper-case ASCII letters lowered. -/
def tolower (s : String) : List Char := s.toList.map Char.toLower

/-- Test `hay.find(needle) != std::string::npos`: `needle` occurs at some
position of `hay`. -/
def string_find (hay needle : List Char) : Bool :=
  (List.range (hay.length + 1)).any fun k => needle.isPrefixOf (hay.drop k)

/-- Function `SearchAssetsGUI::add_result`; `filename_of` is
`std::filesystem::path::filename().string()`. -/
def add_result (filename_of : Path → String) (result : SearchResult) (g : GuiResults) :
    GuiResults :=
  let filename := filename_of result.file_path
  if filename ∉ g.result_lines_ then
    let g := { g with result_lines_ := g.result_lines_ ++ [filename] }
    if g.result_filter_.toList.length = 0 then
      { g with filtered_result_lines_ := g.result_lines_ }
    else
      let filter := tolower g.result_filter_
      let filename_lower := tolower filename
      if string_find filename_lower filter then
        { g with filtered_result_lines_ := g.filtered_result_lines_ ++ [filename] }
      else g
  else g

/-- Function `SearchAssetsGUI::update_filtered_results`. -/
def update_filtered_results (g : GuiResults) : GuiResults :=
  let filtered : List String :=
    if g.result_filter_.toList.isEmpty then g.result_lines_
    else g.result_lines_.filter fun result => string_find (tolower result) (tolower g.result_filter_)
  { g with
    filtered_result_lines_ := filtered
    selected_result_ :=
      if g.selected_result_ ≥ (filtered.length : Int) then 0 else g.selected_result_ }

/-- The result view after `reset_search`, with filter text `filter`. -/
def reset_view (filter : String) : GuiResults := ⟨[], [], filter, 0⟩

/-- Reference: the names of a list in the order of their first arrival, each
once. -/
def first_arrivals : List String → List String
  | [] => []
  | x :: xs => x :: (first_arrivals xs).filter fun y => y ≠ x

/-- A stand-in for `path::filename()`: the part after the last `/`. -/
def sample_filename (p : Path) : String :=
  String.mk ((p.toList.reverse.takeWhile fun c => c ≠ '/').reverse)

/-! ## The shared counter of a root task under interleaving

The batch tasks of one root share `processed_files`, a `size_t` local of
`search_directory_worker` (line 219) that the lambda of line 234 captures by
reference.  It is not a `std::atomic`: `++processed_files` is a read of the
variable followed by a write of the value read plus one, and the tasks run on
their own threads, so other tasks may run between the two.  In this block the
tasks of one root take turns step by step in the order given by a schedule;
each read and each write of the variable is one step.  `search_file` does not
touch the counter and is left out; the run is not cancelled and a progress
callback is supplied and returns. -/

/-- Where a batch task stands in one round of its loop (lines 236-241),
`search_file` having returned. -/
inductive CounterPc where
  /-- About to read `processed_files` for `++processed_files`. -/
  | read
  /-- Has read `seen`, about to write `seen + 1`. -/
  | write (seen : Nat)
  /-- About to evaluate the condition of line 238 and to report; the reads
  of the counter in lines 238-239 are taken as one. -/
  | report
deriving DecidableEq, Repr

/-- A batch task: `todo` is `end - j`, the files it still has to count. -/
structure CounterTask where
  todo : Nat
  pc : CounterPc
deriving DecidableEq, Repr

/-- The counter, the batch tasks of the root, and the progress events so
far. -/
structure CounterSys where
  processed_files : Nat
  tasks : List CounterTask
  log : List Event
deriving DecidableEq, Repr

/-- One step of a batch task on the shared counter: the new counter, the
task afterwards, the events of the step.  A task with `todo = 0` has left its
loop. -/
def CounterTask.step (total_files processed_files : Nat) (t : CounterTask) :
    Nat × CounterTask × List Event :=
  match t.todo, t.pc with
  | 0, _ => (processed_files, t, [])
  | _ + 1, .read => (processed_files, { t with pc := .write processed_files }, [])
  | _ + 1, .write seen => (seen + 1, { t with pc := .report }, [])
  | k + 1, .report =>
    (processed_files, ⟨k, .read⟩,
      if processed_files % 10 = 0 ∨ processed_files = total_files then
        [.progress "Processing files..." processed_files total_files]
      else [])

/-- Task `i` takes one step. -/
def CounterSys.step (total_files i : Nat) (c : CounterSys) : CounterSys :=
  match c.tasks[i]? with
  | none => c
  | some t =>
    ⟨(t.step total_files c.processed_files).1,
      c.tasks.set i (t.step total_files c.processed_files).2.1,
      c.log ++ (t.step total_files c.processed_files).2.2⟩

/-- The tasks take steps in the order of `schedule`. -/
def run_schedule (total_files : Nat) (schedule : List Nat) (c : CounterSys) : CounterSys :=
  schedule.foldl (fun c i => c.step total_files i) c

/-- The state when the batch tasks have been launched: counter 0, one task
per batch with the size of the batch to do. -/
def CounterSys.start (batches : List Nat) : CounterSys :=
  ⟨0, batches.map fun k => ⟨k, .read⟩, []⟩

/-- Every batch task has left its loop. -/
def CounterSys.finished (c : CounterSys) : Bool := c.tasks.all fun t => t.todo == 0

/-! ## Vocabulary of the task count -/

/-- Reference: `ceil(n / b)` for `b >= 1`, the least `k` with `n <= k * b`. -/
def ceil_div (n b : Nat) : Nat := (n + b - 1) / b

/-- Number of batch tasks a run launches: its `spawn_batch` events. -/
def batch_tasks_launched {ρ : Type} (r : Step ρ) : Nat :=
  (r.log.filter Event.is_spawn_batch).length

/-! ## File sets of a session -/

/-- The regular files under the existing root paths that lie outside every
directory that cannot be opened, root by root in path order. -/
def tree_files (fs : FileSystem) (search_paths : List Path) : List Path :=
  (search_paths.filter (root_found fs)).flatMap fun p => root_reachable_files (fs.root p)

/-- Every directory under the existing root paths can be opened. -/
def trees_readable (fs : FileSystem) (search_paths : List Path) : Bool :=
  (search_paths.filter (root_found fs)).all fun p => (fs.root p).all_readable

/-- A successful `mmap` maps at least one byte: for length 0 the call fails
with `EINVAL`. -/
def maps_have_bytes (fs : FileSystem) : Prop :=
  ∀ p : Path, (fs.file p).mmap_ok = true → (fs.file p).bytes ≠ []

/-- The tree of `sample_fs_locked` with content: `t/a` and `t/z` both hold
the 3 bytes "foo" and can be read. -/
def sample_fs_locked_foo : FileSystem :=
  { sample_fs_locked with
    file := fun p =>
      if p = "t/a" then ⟨some 3, true, true, true, [102, 111, 111]⟩
      else if p = "t/z" then ⟨some 3, true, true, true, [102, 111, 111]⟩
      else ⟨none, false, false, false, []⟩ }

/-! # Properties -/

variable {ρ : Type}

/-! ## Control flow lemmas -/

@[simp]
theorem ret_out (s : Sys ρ) : (ret s).out = .returned := rfl
@[simp]
theorem ret_sys (s : Sys ρ) : (ret s).sys = s := rfl
@[simp]
theorem ret_log (s : Sys ρ) : (ret s).log = [] := rfl

theorem and_then_returned (a : Step ρ) (k : Sys ρ → Step ρ) (h : a.out = .returned) :
    a.and_then k = ⟨(k a.sys).out, (k a.sys).sys, a.log ++ (k a.sys).log⟩ := by
  simp [Step.and_then, h]

theorem and_then_stopped (a : Step ρ) (k : Sys ρ → Step ρ) (h : a.out ≠ .returned) :
    a.and_then k = a := by
  unfold Step.and_then
  split
  · contradiction
  · rfl

theorem try_catch_returned (a : Step ρ) (hd : Exn → Option (Sys ρ → Step ρ))
    (h : a.out = .returned) : a.try_catch hd = a := by
  simp [Step.try_catch, h]

theorem try_catch_fault (a : Step ρ) (hd : Exn → Option (Sys ρ → Step ρ))
    (h : a.out = .fault) : a.try_catch hd = a := by
  simp [Step.try_catch, h]

theorem try_catch_uncaught (a : Step ρ) (hd : Exn → Option (Sys ρ → Step ρ)) (e : Exn)
    (h : a.out = .threw e) (hk : hd e = none) : a.try_catch hd = a := by
  simp [Step.try_catch, h, hk]

theorem try_catch_caught (a : Step ρ) (hd : Exn → Option (Sys ρ → Step ρ)) (e : Exn)
    (k : Sys ρ → Step ρ) (h : a.out = .threw e) (hk : hd e = some k) :
    a.try_catch hd = ⟨(k a.sys).out, (k a.sys).sys, a.log ++ (k a.sys).log⟩ := by
  simp [Step.try_catch, h, hk]

@[simp]
theorem launch_sys (ev : Event) (t : Step ρ) : (launch ev t).sys = t.sys := by
  unfold launch; split <;> rfl

@[simp]
theorem launch_log (ev : Event) (t : Step ρ) : (launch ev t).log = ev :: t.log := by
  unfold launch; split <;> rfl

theorem launch_out (ev : Event) (t : Step ρ) :
    (launch ev t).out = if t.out = .fault then .fault else .returned := by
  unfold launch; split <;> simp_all

@[simp]
theorem call_progress_sys (cb : ProgressCallback) (m : String) (c t : Nat) (s : Sys ρ) :
    (call_progress cb m c t s).sys = s := by
  unfold call_progress
  split
  · rfl
  · split <;> rfl

@[simp]
theorem call_result_sys (cb : ResultCallback) (r : SearchResult) (s : Sys ρ) :
    (call_result cb r s).sys = s := by
  unfold call_result
  split
  · rfl
  · split <;> rfl

theorem call_progress_indep (cb : ProgressCallback) (m : String) (c t : Nat) (s u : Sys ρ) :
    (call_progress cb m c t s).out = (call_progress cb m c t u).out
    ∧ (call_progress cb m c t s).log = (call_progress cb m c t u).log := by
  unfold call_progress
  split
  · exact ⟨rfl, rfl⟩
  · split <;> exact ⟨rfl, rfl⟩

theorem call_result_indep (cb : ResultCallback) (r : SearchResult) (s u : Sys ρ) :
    (call_result cb r s).out = (call_result cb r u).out
    ∧ (call_result cb r s).log = (call_result cb r u).log := by
  unfold call_result
  split
  · exact ⟨rfl, rfl⟩
  · split <;> exact ⟨rfl, rfl⟩

theorem call_progress_no_fault (cb : ProgressCallback) (m : String) (c t : Nat) (s : Sys ρ) :
    (call_progress cb m c t s).out ≠ .fault := by
  unfold call_progress
  split
  · simp
  · split <;> simp

theorem call_result_no_fault (cb : ResultCallback) (r : SearchResult) (s : Sys ρ) :
    (call_result cb r s).out ≠ .fault := by
  unfold call_result
  split
  · simp
  · split <;> simp

theorem call_progress_quiet (cb : ProgressCallback) (hq : quiet_progress cb) (m : String)
    (c t : Nat) (s : Sys ρ) :
    (call_progress cb m c t s).out = .returned
    ∧ (call_progress cb m c t s).log = if cb.isSome then [.progress m c t] else [] := by
  unfold call_progress
  cases cb with
  | none => simp
  | some f => simp [hq f rfl m c t]

theorem call_result_quiet (cb : ResultCallback) (hq : quiet_result cb) (r : SearchResult)
    (s : Sys ρ) :
    (call_result cb r s).out = .returned
    ∧ (call_result cb r s).log = if cb.isSome then [.result r] else [] := by
  unfold call_result
  cases cb with
  | none => simp
  | some f => simp [hq f rfl r]

/-! ## Reading the flag -/

theorem poll_quiet (s : Sys ρ) (h : s.pending_stop = none) :
    poll s = (s.eng.stop_requested_, s) := by
  simp [poll, h]

theorem poll_frame (s : Sys ρ) :
    (poll s).2.eng.results_ = s.eng.results_ ∧ (poll s).2.fds = s.fds ∧ (poll s).2.maps = s.maps
    ∧ (poll s).2.eng.min_file_size_ = s.eng.min_file_size_
    ∧ (poll s).2.eng.max_file_size_ = s.eng.max_file_size_
    ∧ (poll s).2.eng.thread_count_ = s.eng.thread_count_
    ∧ (poll s).2.eng.searching_ = s.eng.searching_
    ∧ (poll s).2.eng.compiled_pattern_ = s.eng.compiled_pattern_
    ∧ (poll s).2.processed_files = s.processed_files := by
  unfold poll
  rcases s.pending_stop with _ | _ | k <;> simp [stop_search]

theorem poll_stopped (s : Sys ρ) (h : s.eng.stop_requested_ = true) :
    (poll s).1 = true := by
  unfold poll
  rcases s.pending_stop with _ | _ | k <;> simp [h]

theorem poll_same_engine (s t : Sys ρ) (h : s.same_engine t) :
    (poll s).1 = (poll t).1 ∧ (poll s).2.same_engine (poll t).2 := by
  obtain ⟨h1, h2⟩ := h
  unfold poll
  rw [h2]
  rcases hp : t.pending_stop with _ | _ | k <;> simp [Sys.same_engine, h1, h2, hp]

theorem poll_same_core (s t : Sys ρ) (h : s.same_core t) :
    (poll s).1 = (poll t).1 ∧ (poll s).2.same_core (poll t).2 := by
  obtain ⟨h1, h2⟩ := h
  refine ⟨(poll_same_engine s t h1).1, (poll_same_engine s t h1).2, ?_⟩
  rw [(poll_frame s).2.2.2.2.2.2.2.2, (poll_frame t).2.2.2.2.2.2.2.2, h2]

/-! ## What `search_file` does -/

theorem search_file_char (lib : RegexLib ρ) (fs : FileSystem) (p : Path)
    (cb : ResultCallback) (s : Sys ρ) :
    (search_file lib fs p cb s).sys.eng
      = (if file_hit lib fs p s then
          { (poll s).2.eng with results_ := (poll s).2.eng.results_ ++ [result_of fs p] }
         else (poll s).2.eng)
    ∧ (search_file lib fs p cb s).sys.pending_stop = (poll s).2.pending_stop
    ∧ (search_file lib fs p cb s).sys.processed_files = (poll s).2.processed_files
    ∧ (search_file lib fs p cb s).log
      = (if file_hit lib fs p s then (call_result cb (result_of fs p) s).log else [])
    ∧ (search_file lib fs p cb s).out
      = (if file_hit lib fs p s then
          (match (call_result cb (result_of fs p) s).out with
            | .threw .foreign => .threw .foreign
            | _ => .returned)
         else .returned) := by
  unfold search_file file_hit accepts io_ok size_in_bounds matches_in
  rcases hp : poll s with ⟨stop, s1⟩
  simp only
  cases stop
  · cases hst : (fs.file p).stat_size with
    | none => simp
    | some sz =>
      by_cases hb : sz < s1.eng.min_file_size_ ∨ sz > s1.eng.max_file_size_
      · have : ¬ (s1.eng.min_file_size_ ≤ sz ∧ sz ≤ s1.eng.max_file_size_) := by omega
        simp [hb, this]
      · have hb2 : (s1.eng.min_file_size_ ≤ sz ∧ sz ≤ s1.eng.max_file_size_) := by omega
        cases ho : (fs.file p).open_ok <;> cases hf : (fs.file p).fstat_ok <;>
          cases hm : (fs.file p).mmap_ok <;>
          simp [hb, hb2, close_fd]
        cases hbytes : (fs.file p).bytes with
        | nil => simp [unmap_close]
        | cons b bs =>
          rw [← hbytes]
          have hlen : (fs.file p).bytes.length ≠ 0 := by simp [hbytes]
          have hne : (fs.file p).bytes ≠ [] := by simp [hbytes]
          simp only [hlen, if_false, hne]
          unfold match_and_report
          cases hre : lib.regex_search s1.eng.compiled_pattern_ (fs.file p).bytes with
          | error w => simp [Step.try_catch, catch_std_exception]
          | ok b =>
            cases b
            · simp [unmap_close, Step.try_catch]
            · have h2 := call_result_indep cb (result_of fs p)
                ({ eng := { s1.eng with results_ := s1.eng.results_ ++ [result_of fs p] },
                   pending_stop := s1.pending_stop, fds := p :: s1.fds, maps := p :: s1.maps,
                   processed_files := s1.processed_files } : Sys ρ) s
              have hnf := call_result_no_fault cb (result_of fs p) s
              simp only [result_of] at h2 hnf ⊢
              obtain ⟨h2a, h2b⟩ := h2
              rcases hout : (call_result cb
                { file_path := p, line_content := content_preview (fs.file p).bytes,
                  line_number := 1 } s).out with _ | e | _
              · rw [hout] at h2a
                simp [Step.try_catch, and_then_returned, h2a, h2b, unmap_close]
              · rw [hout] at h2a
                have hne : (call_result cb
                    { file_path := p, line_content := content_preview (fs.file p).bytes,
                      line_number := 1 }
                    ({ eng := { s1.eng with results_ := s1.eng.results_ ++
                         [{ file_path := p, line_content := content_preview (fs.file p).bytes,
                            line_number := 1 }] },
                       pending_stop := s1.pending_stop, fds := p :: s1.fds, maps := p :: s1.maps,
                       processed_files := s1.processed_files } : Sys ρ)).out ≠ .returned := by
                  rw [h2a]; simp
                rw [and_then_stopped _ _ hne]
                cases e <;> simp [Step.try_catch, h2a, h2b, catch_std_exception]
              · exact absurd hout hnf
  · simp

/-! ## Runs from states with the same engine and stop schedule -/

theorem ret_sim (R : Sys ρ → Sys ρ → Prop) (s t : Sys ρ) (h : R s t) :
    (ret s).sim R (ret t) :=
  ⟨rfl, rfl, h⟩

theorem sim_weaken (R Q : Sys ρ → Sys ρ → Prop) (a b : Step ρ) (hRQ : ∀ s t, R s t → Q s t)
    (h : a.sim R b) : a.sim Q b :=
  ⟨h.1, h.2.1, hRQ _ _ h.2.2⟩

theorem and_then_sim (R Q : Sys ρ → Sys ρ → Prop) (a b : Step ρ) (k k2 : Sys ρ → Step ρ)
    (hRQ : ∀ s t, R s t → Q s t) (hab : a.sim R b)
    (hk : ∀ s t, R s t → (k s).sim Q (k2 t)) :
    (a.and_then k).sim Q (b.and_then k2) := by
  obtain ⟨h1, h2, h3⟩ := hab
  obtain ⟨g1, g2, g3⟩ := hk a.sys b.sys h3
  cases ha : a.out with
  | returned =>
    rw [and_then_returned a k ha, and_then_returned b k2 (h1 ▸ ha)]
    exact ⟨g1, by simp [h2, g2], g3⟩
  | threw e =>
    rw [and_then_stopped a k (by simp [ha]), and_then_stopped b k2 (by simp [← h1, ha])]
    exact ⟨h1, h2, hRQ _ _ h3⟩
  | fault =>
    rw [and_then_stopped a k (by simp [ha]), and_then_stopped b k2 (by simp [← h1, ha])]
    exact ⟨h1, h2, hRQ _ _ h3⟩

theorem try_catch_sim (R : Sys ρ → Sys ρ → Prop) (a b : Step ρ)
    (hd : Exn → Option (Sys ρ → Step ρ)) (hab : a.sim R b)
    (hh : ∀ e k, hd e = some k → ∀ s t, R s t → (k s).sim R (k t)) :
    (a.try_catch hd).sim R (b.try_catch hd) := by
  obtain ⟨h1, h2, h3⟩ := hab
  cases ha : a.out with
  | returned =>
    rw [try_catch_returned a hd ha, try_catch_returned b hd (h1 ▸ ha)]
    exact ⟨h1, h2, h3⟩
  | fault =>
    rw [try_catch_fault a hd ha, try_catch_fault b hd (h1 ▸ ha)]
    exact ⟨h1, h2, h3⟩
  | threw e =>
    cases hk : hd e with
    | none =>
      rw [try_catch_uncaught a hd e ha hk, try_catch_uncaught b hd e (h1 ▸ ha) hk]
      exact ⟨h1, h2, h3⟩
    | some k =>
      obtain ⟨g1, g2, g3⟩ := hh e k hk a.sys b.sys h3
      rw [try_catch_caught a hd e k ha hk, try_catch_caught b hd e k (h1 ▸ ha) hk]
      exact ⟨g1, by simp [h2, g2], g3⟩

theorem launch_sim (R : Sys ρ → Sys ρ → Prop) (ev : Event) (a b : Step ρ) (hab : a.sim R b) :
    (launch ev a).sim R (launch ev b) := by
  obtain ⟨h1, h2, h3⟩ := hab
  refine ⟨?_, by simp [h2], by simpa using h3⟩
  rw [launch_out, launch_out, h1]

theorem call_progress_sim (R : Sys ρ → Sys ρ → Prop) (cb : ProgressCallback) (m : String)
    (c n : Nat) (s t : Sys ρ) (h : R s t) :
    (call_progress cb m c n s).sim R (call_progress cb m c n t) :=
  ⟨(call_progress_indep cb m c n s t).1, (call_progress_indep cb m c n s t).2, by simpa using h⟩

theorem file_hit_same (lib : RegexLib ρ) (fs : FileSystem) (p : Path) (s t : Sys ρ)
    (h : s.same_engine t) : file_hit lib fs p s = file_hit lib fs p t := by
  obtain ⟨h1, h2, -⟩ := poll_same_engine s t h
  unfold file_hit
  rw [h1, h2]

theorem search_file_sim (lib : RegexLib ρ) (fs : FileSystem) (p : Path) (cb : ResultCallback)
    (s t : Sys ρ) (h : s.same_core t) :
    (search_file lib fs p cb s).sim Sys.same_core (search_file lib fs p cb t) := by
  obtain ⟨a1, a2, a3, a4, a5⟩ := search_file_char lib fs p cb s
  obtain ⟨b1, b2, b3, b4, b5⟩ := search_file_char lib fs p cb t
  obtain ⟨h1, ⟨h2, h3⟩, h4⟩ := poll_same_core s t h
  have hh := file_hit_same lib fs p s t h.1
  have hc := call_result_indep cb (result_of fs p) s t
  refine ⟨?_, ?_, ⟨?_, ?_⟩, ?_⟩
  · rw [a5, b5, hh, hc.1]
  · rw [a4, b4, hh, hc.2]
  · rw [a1, b1, hh, h2]
  · rw [a2, b2, h3]
  · rw [a3, b3, h4]

theorem count_and_report_sim (cb : ProgressCallback) (total : Nat) (s t : Sys ρ)
    (h : s.same_core t) :
    (count_and_report cb total s).sim Sys.same_core (count_and_report cb total t) := by
  obtain ⟨⟨h1, h2⟩, h3⟩ := h
  unfold count_and_report
  simp only [h3]
  split
  · apply call_progress_sim
    exact ⟨⟨h1, h2⟩, by simp [h3]⟩
  · apply ret_sim
    exact ⟨⟨h1, h2⟩, by simp [h3]⟩

theorem batch_task_sim (lib : RegexLib ρ) (fs : FileSystem) (pcb : ProgressCallback)
    (rcb : ResultCallback) (total : Nat) (files : List Path) :
    ∀ s t : Sys ρ, s.same_core t →
      (batch_task lib fs pcb rcb total files s).sim Sys.same_core
        (batch_task lib fs pcb rcb total files t) := by
  induction files with
  | nil => intro s t h; exact ret_sim _ s t h
  | cons f rest ih =>
    intro s t h
    obtain ⟨h1, h2⟩ := poll_same_core s t h
    unfold batch_task
    rw [h1]
    split
    · exact ret_sim _ _ _ h2
    · apply and_then_sim Sys.same_core Sys.same_core _ _ _ _ (fun _ _ h => h)
        (search_file_sim lib fs f rcb _ _ h2)
      intro s1 t1 h3
      apply and_then_sim Sys.same_core Sys.same_core _ _ _ _ (fun _ _ h => h)
        (count_and_report_sim pcb total _ _ h3)
      intro s2 t2 h4
      exact ih s2 t2 h4

theorem spawn_loop_sim (lib : RegexLib ρ) (fs : FileSystem) (pcb : ProgressCallback)
    (rcb : ResultCallback) (files : List Path) (b total : Nat) (fuel : Nat) :
    ∀ (i : Nat) (s t : Sys ρ), s.same_core t →
      (spawn_loop lib fs pcb rcb files b total fuel i s).sim Sys.same_core
        (spawn_loop lib fs pcb rcb files b total fuel i t) := by
  induction fuel with
  | zero => intro i s t h; exact ret_sim _ s t h
  | succ fuel ih =>
    intro i s t h
    obtain ⟨h1, h2⟩ := poll_same_core s t h
    unfold spawn_loop
    split
    · rw [h1]
      split
      · exact ret_sim _ _ _ h2
      · apply and_then_sim Sys.same_core Sys.same_core _ _ _ _ (fun _ _ h => h)
        · exact launch_sim _ _ _ _ (batch_task_sim lib fs pcb rcb total _ _ _ h2)
        · intro s1 t1 h3
          exact ih _ s1 t1 h3
    · exact ret_sim _ s t h

theorem collect_loop_sim (steps : List IterStep) :
    ∀ (files : List Path) (s t : Sys ρ), s.same_engine t →
      (collect_loop steps files s).1 = (collect_loop steps files t).1
      ∧ (collect_loop steps files s).2.same_engine (collect_loop steps files t).2 := by
  induction steps with
  | nil => intro files s t h; exact ⟨rfl, h⟩
  | cons st rest ih =>
    intro files s t h
    obtain ⟨h1, h2⟩ := poll_same_engine s t h
    cases st with
    | error => exact ⟨rfl, h⟩
    | entry p k =>
      unfold collect_loop
      rw [h1]
      split
      · exact ⟨rfl, h2⟩
      · cases k <;> exact ih _ _ _ h2

theorem search_directory_worker_sim (lib : RegexLib ρ) (fs : FileSystem) (dir : Path)
    (pcb : ProgressCallback) (rcb : ResultCallback) (s t : Sys ρ) (h : s.same_engine t) :
    (search_directory_worker lib fs dir pcb rcb s).sim Sys.same_engine
      (search_directory_worker lib fs dir pcb rcb t) := by
  obtain ⟨h1, h2⟩ := poll_same_engine s t h
  unfold search_directory_worker
  rw [h1]
  split
  · exact ret_sim _ _ _ h2
  · obtain ⟨c1, c2, c3⟩ := collect_loop_sim (iterate (fs.root dir)) [] _ _ h2
    simp only [collect_files]
    rw [c1]
    apply sim_weaken Sys.same_core Sys.same_engine _ _ (fun _ _ h => h.1)
    apply try_catch_sim
    · apply and_then_sim Sys.same_core Sys.same_core _ _ _ _ (fun _ _ h => h)
      · apply call_progress_sim
        exact ⟨⟨c2, c3⟩, rfl⟩
      · intro s1 t1 h3
        rw [h3.1.1]
        split
        · exact ⟨rfl, rfl, h3⟩
        · exact spawn_loop_sim lib fs pcb rcb _ _ _ _ _ s1 t1 h3
    · intro e k hk s1 t1 h3
      cases e <;> simp [catch_filesystem_error] at hk
      subst hk
      exact call_progress_sim _ _ _ _ _ _ _ h3

theorem search_paths_loop_sim (lib : RegexLib ρ) (fs : FileSystem)
    (pcb : ProgressCallback) (rcb : ResultCallback) (paths : List Path) :
    ∀ s t : Sys ρ, s.same_engine t →
      (search_paths_loop lib fs pcb rcb paths s).sim Sys.same_engine
        (search_paths_loop lib fs pcb rcb paths t) := by
  induction paths with
  | nil => intro s t h; exact ret_sim _ s t h
  | cons p rest ih =>
    intro s t h
    obtain ⟨h1, h2⟩ := poll_same_engine s t h
    unfold search_paths_loop
    rw [h1]
    split
    · exact ret_sim _ _ _ h2
    · split
      · exact ⟨rfl, rfl, h2⟩
      · apply and_then_sim Sys.same_engine Sys.same_engine _ _ _ _ (fun _ _ h => h)
        · exact launch_sim _ _ _ _ (search_directory_worker_sim lib fs p pcb rcb _ _ h2)
        · exact ih
      · apply and_then_sim Sys.same_engine Sys.same_engine _ _ _ _ (fun _ _ h => h)
        · exact call_progress_sim _ _ _ _ _ _ _ h2
        · exact ih

/-- Two idle engines with the same limits and worker count, under the same
stop schedule, run `search` alike: same outcome, same events, same results. -/
theorem search_sim (lib : RegexLib ρ) (fs : FileSystem) (pattern : String) (paths : List Path)
    (pcb : ProgressCallback) (rcb : ResultCallback) (s t : Sys ρ)
    (hs : s.eng.searching_ = false) (ht : t.eng.searching_ = false)
    (hmin : s.eng.min_file_size_ = t.eng.min_file_size_)
    (hmax : s.eng.max_file_size_ = t.eng.max_file_size_)
    (hthr : s.eng.thread_count_ = t.eng.thread_count_)
    (hpend : s.pending_stop = t.pending_stop) :
    (search lib fs pattern paths pcb rcb s).out = (search lib fs pattern paths pcb rcb t).out
    ∧ (search lib fs pattern paths pcb rcb s).log = (search lib fs pattern paths pcb rcb t).log
    ∧ (search lib fs pattern paths pcb rcb s).sys.eng.results_
        = (search lib fs pattern paths pcb rcb t).sys.eng.results_ := by
  have key : (search lib fs pattern paths pcb rcb s).sim
      (fun a b => a.eng.results_ = b.eng.results_) (search lib fs pattern paths pcb rcb t) := by
    unfold search
    simp only [hs, ht, Bool.false_eq_true, if_false]
    apply and_then_sim (fun a b => a.eng.results_ = b.eng.results_)
      (fun a b => a.eng.results_ = b.eng.results_) _ _ _ _ (fun _ _ h => h)
    · apply try_catch_sim
      · unfold search_try
        cases lib.compile pattern with
        | error w => exact ⟨rfl, rfl, by simp [clear_results]⟩
        | ok re =>
          apply sim_weaken Sys.same_engine _ _ _ (fun a b h => by rw [h.1])
          apply search_paths_loop_sim
          exact ⟨by simp [clear_results, hmin, hmax, hthr], hpend⟩
      · intro e k hk a b h
        cases e <;> simp [catch_regex_error] at hk
        subst hk
        exact call_progress_sim _ _ _ _ _ _ _ h
    · intro a b h
      exact ret_sim _ _ _ (by simpa using h)
  exact key

/-! ## Runs without cancellation and with callbacks that return -/

theorem poll_undisturbed (s : Sys ρ) (h : s.undisturbed) : poll s = (false, s) := by
  rw [poll_quiet s h.2, h.1]

theorem hits_nil (lib : RegexLib ρ) (fs : FileSystem) (e : SearchEngine ρ) :
    hits lib fs e [] = [] := rfl

theorem hits_append (lib : RegexLib ρ) (fs : FileSystem) (e : SearchEngine ρ)
    (l1 l2 : List Path) : hits lib fs e (l1 ++ l2) = hits lib fs e l1 ++ hits lib fs e l2 := by
  simp [hits]

theorem hits_cons (lib : RegexLib ρ) (fs : FileSystem) (e : SearchEngine ρ)
    (p : Path) (l : List Path) :
    hits lib fs e (p :: l)
      = (if accepts lib fs e.min_file_size_ e.max_file_size_ e.compiled_pattern_ p
          then [result_of fs p] else []) ++ hits lib fs e l := by
  unfold hits
  by_cases h : accepts lib fs e.min_file_size_ e.max_file_size_ e.compiled_pattern_ p = true
  · simp [h]
  · simp [h]

theorem search_file_undisturbed (lib : RegexLib ρ) (fs : FileSystem) (p : Path)
    (rcb : ResultCallback) (hq : quiet_result rcb) (s : Sys ρ) (hs : s.undisturbed) :
    (search_file lib fs p rcb s).out = .returned
    ∧ (search_file lib fs p rcb s).sys.eng
        = { s.eng with results_ := s.eng.results_ ++ hits lib fs s.eng [p] }
    ∧ (search_file lib fs p rcb s).sys.pending_stop = none
    ∧ (search_file lib fs p rcb s).sys.processed_files = s.processed_files
    ∧ (search_file lib fs p rcb s).log.filter Event.is_progress = []
    ∧ (search_file lib fs p rcb s).log.filter Event.is_spawn_root = [] := by
  obtain ⟨a1, a2, a3, a4, a5⟩ := search_file_char lib fs p rcb s
  obtain ⟨c1, c2⟩ := call_result_quiet rcb hq (result_of fs p) s
  have hp := poll_undisturbed s hs
  have hh : file_hit lib fs p s
      = accepts lib fs s.eng.min_file_size_ s.eng.max_file_size_ s.eng.compiled_pattern_ p := by
    simp [file_hit, hp]
  simp only [hh, hp, c1, c2] at a1 a2 a3 a4 a5
  refine ⟨?_, ?_, ?_, ?_, ?_, ?_⟩
  · rw [a5]; split <;> rfl
  · rw [a1, hits_cons, hits_nil]
    split <;> simp
  · rw [a2]; exact hs.2
  · rw [a3]
  · rw [a4]; split
    · split <;> simp [Event.is_progress]
    · rfl
  · rw [a4]; split
    · split <;> simp [Event.is_spawn_root]
    · rfl

theorem processing_events_succ (pcb : ProgressCallback) (p n total : Nat) :
    processing_events pcb p (n + 1) total
      = (if pcb.isSome ∧ ((p + 1) % 10 = 0 ∨ p + 1 = total)
          then [Event.progress "Processing files..." (p + 1) total] else [])
        ++ processing_events pcb (p + 1) n total := by
  unfold processing_events
  cases pcb with
  | none => simp
  | some f =>
    simp only [Option.isSome_some, if_true, true_and, List.range'_succ, List.filter_cons]
    by_cases h : (p + 1) % 10 = 0 ∨ p + 1 = total
    · simp [h]
    · simp [h]

theorem processing_events_zero (pcb : ProgressCallback) (p total : Nat) :
    processing_events pcb p 0 total = [] := by
  unfold processing_events
  split <;> simp

theorem processing_events_add (pcb : ProgressCallback) (p m n total : Nat) :
    processing_events pcb p (m + n) total
      = processing_events pcb p m total ++ processing_events pcb (p + m) n total := by
  induction m generalizing p with
  | zero => simp [processing_events_zero]
  | succ m ih =>
    rw [Nat.add_right_comm, processing_events_succ, processing_events_succ, ih (p + 1)]
    simp [Nat.add_assoc, Nat.add_comm 1 m]

theorem count_and_report_undisturbed (pcb : ProgressCallback) (hq : quiet_progress pcb)
    (total : Nat) (s : Sys ρ) :
    (count_and_report pcb total s).out = .returned
    ∧ (count_and_report pcb total s).sys = { s with processed_files := s.processed_files + 1 }
    ∧ (count_and_report pcb total s).log
        = (if pcb.isSome ∧ ((s.processed_files + 1) % 10 = 0 ∨ s.processed_files + 1 = total)
            then [Event.progress "Processing files..." (s.processed_files + 1) total] else []) := by
  unfold count_and_report
  simp only
  split
  · rename_i h
    obtain ⟨c1, c2⟩ := call_progress_quiet pcb hq "Processing files..."
      (s.processed_files + 1) total { s with processed_files := s.processed_files + 1 }
    refine ⟨c1, by simp, ?_⟩
    rw [c2, if_pos h.1]
  · exact ⟨rfl, rfl, rfl⟩

theorem batch_task_undisturbed (lib : RegexLib ρ) (fs : FileSystem) (pcb : ProgressCallback)
    (rcb : ResultCallback) (hp : quiet_progress pcb) (hr : quiet_result rcb) (total : Nat)
    (files : List Path) :
    ∀ s : Sys ρ, s.undisturbed →
      (batch_task lib fs pcb rcb total files s).out = .returned
      ∧ (batch_task lib fs pcb rcb total files s).sys.eng
          = { s.eng with results_ := s.eng.results_ ++ hits lib fs s.eng files }
      ∧ (batch_task lib fs pcb rcb total files s).sys.pending_stop = none
      ∧ (batch_task lib fs pcb rcb total files s).sys.processed_files
          = s.processed_files + files.length
      ∧ (batch_task lib fs pcb rcb total files s).log.filter Event.is_progress
          = processing_events pcb s.processed_files files.length total
      ∧ (batch_task lib fs pcb rcb total files s).log.filter Event.is_spawn_root = [] := by
  induction files with
  | nil =>
    intro s hs
    simp [batch_task, hits_nil, processing_events_zero, hs.2]
  | cons f rest ih =>
    intro s hs
    obtain ⟨a1, a2, a3, a4, a5, a6⟩ := search_file_undisturbed lib fs f rcb hr s hs
    obtain ⟨b1, b2, b3⟩ := count_and_report_undisturbed pcb hp total
      (search_file lib fs f rcb s).sys
    have e1 : (count_and_report pcb total (search_file lib fs f rcb s).sys).sys.eng
        = { s.eng with results_ := s.eng.results_ ++ hits lib fs s.eng [f] } := by
      rw [b2]; exact a2
    have e2 : (count_and_report pcb total (search_file lib fs f rcb s).sys).sys.pending_stop
        = none := by
      rw [b2]; exact a3
    have e3 : (count_and_report pcb total (search_file lib fs f rcb s).sys).sys.processed_files
        = s.processed_files + 1 := by
      rw [b2]; simp [a4]
    have hu : (count_and_report pcb total (search_file lib fs f rcb s).sys).sys.undisturbed :=
      ⟨by rw [e1]; exact hs.1, e2⟩
    obtain ⟨c1, c2, c3, c4, c5, c6⟩ := ih _ hu
    unfold batch_task
    rw [poll_undisturbed s hs]
    simp only [Bool.false_eq_true, if_false]
    rw [and_then_returned _ _ a1]
    simp only
    rw [and_then_returned _ _ b1]
    simp only
    refine ⟨c1, ?_, c3, ?_, ?_, ?_⟩
    · rw [c2, e1, show f :: rest = [f] ++ rest from rfl, hits_append]
      simp [hits, List.append_assoc]
    · rw [c4, e3, List.length_cons]; omega
    · simp only [List.filter_append, a5, c5, b3, a4, e3, List.length_cons, List.nil_append]
      rw [processing_events_succ]
      congr 1
      split <;> simp [Event.is_progress]
    · simp only [List.filter_append, a6, c6, b3, List.nil_append, List.append_nil]
      split <;> simp [Event.is_spawn_root]

theorem slice_append_drop (files : List Path) (i b : Nat) :
    (files.drop i).take (min (i + b) files.length - i) ++ files.drop (i + b) = files.drop i := by
  by_cases h : i + b ≤ files.length
  · have hk : min (i + b) files.length - i = b := by omega
    rw [hk, show files.drop (i + b) = (files.drop i).drop b by rw [List.drop_drop]]
    exact List.take_append_drop b (files.drop i)
  · have hk : min (i + b) files.length - i = files.length - i := by omega
    rw [hk, List.drop_eq_nil_of_le (show files.length ≤ i + b by omega), List.append_nil]
    apply List.take_of_length_le
    simp

theorem slice_length (files : List Path) (i b : Nat) :
    ((files.drop i).take (min (i + b) files.length - i)).length
      = min (i + b) files.length - i := by
  simp only [List.length_take, List.length_drop]
  omega

theorem spawn_loop_undisturbed (lib : RegexLib ρ) (fs : FileSystem) (pcb : ProgressCallback)
    (rcb : ResultCallback) (hp : quiet_progress pcb) (hr : quiet_result rcb)
    (files : List Path) (b total : Nat) (hb : 0 < b) (fuel : Nat) :
    ∀ (i : Nat) (s : Sys ρ), files.length - i ≤ fuel → s.undisturbed →
      (spawn_loop lib fs pcb rcb files b total fuel i s).out = .returned
      ∧ (spawn_loop lib fs pcb rcb files b total fuel i s).sys.eng
          = { s.eng with results_ := s.eng.results_ ++ hits lib fs s.eng (files.drop i) }
      ∧ (spawn_loop lib fs pcb rcb files b total fuel i s).sys.pending_stop = none
      ∧ (spawn_loop lib fs pcb rcb files b total fuel i s).sys.processed_files
          = s.processed_files + (files.length - i)
      ∧ (spawn_loop lib fs pcb rcb files b total fuel i s).log.filter Event.is_progress
          = processing_events pcb s.processed_files (files.length - i) total
      ∧ (spawn_loop lib fs pcb rcb files b total fuel i s).log.filter Event.is_spawn_root = [] := by
  induction fuel with
  | zero =>
    intro i s hf hs
    have h0 : files.length - i = 0 := by omega
    have hd : files.drop i = [] := List.drop_eq_nil_of_le (by omega)
    simp [spawn_loop, h0, hd, hits_nil, processing_events_zero, hs.2]
  | succ fuel ih =>
    intro i s hf hs
    unfold spawn_loop
    by_cases hi : i < files.length
    · simp only [hi, if_true]
      rw [poll_undisturbed s hs]
      simp only [Bool.false_eq_true, if_false]
      obtain ⟨a1, a2, a3, a4, a5, a6⟩ := batch_task_undisturbed lib fs pcb rcb hp hr total
        ((files.drop i).take (min (i + b) files.length - i)) s hs
      have hl : (launch (Event.spawn_batch i (min (i + b) files.length))
          (batch_task lib fs pcb rcb total
            ((files.drop i).take (min (i + b) files.length - i)) s)).out = .returned := by
        rw [launch_out, a1]; simp
      have hu : (launch (Event.spawn_batch i (min (i + b) files.length))
          (batch_task lib fs pcb rcb total
            ((files.drop i).take (min (i + b) files.length - i)) s)).sys.undisturbed := by
        rw [launch_sys]
        exact ⟨by rw [a2]; exact hs.1, a3⟩
      obtain ⟨c1, c2, c3, c4, c5, c6⟩ := ih (i + b) _ (by omega) hu
      rw [and_then_returned _ _ hl]
      simp only
      simp only [launch_sys] at c1 c2 c3 c4 c5 c6 ⊢
      refine ⟨c1, ?_, c3, ?_, ?_, ?_⟩
      · rw [c2, a2]
        conv_rhs => rw [← slice_append_drop files i b, hits_append]
        simp [hits, List.append_assoc]
      · rw [c4, a4, slice_length]; omega
      · simp only [launch_log, List.filter_append, List.filter_cons, Event.is_progress,
          Bool.false_eq_true, if_false, a5, c5, a4, slice_length]
        rw [← processing_events_add]
        congr 1
        omega
      · simp [List.filter_append, List.filter_cons, Event.is_spawn_root, a6, c6]
    · have h0 : files.length - i = 0 := by omega
      have hd : files.drop i = [] := List.drop_eq_nil_of_le (by omega)
      simp [hi, h0, hd, hits_nil, processing_events_zero, hs.2]

/-- The fuel of `spawn_loop` is never the reason it stops: any two amounts
of at least `files.length - i` give the same run. -/
theorem spawn_loop_fuel (lib : RegexLib ρ) (fs : FileSystem) (pcb : ProgressCallback)
    (rcb : ResultCallback) (files : List Path) (b total : Nat) (hb : 0 < b) (fuel1 : Nat) :
    ∀ (fuel2 i : Nat) (s : Sys ρ), files.length - i ≤ fuel1 → files.length - i ≤ fuel2 →
      spawn_loop lib fs pcb rcb files b total fuel1 i s
        = spawn_loop lib fs pcb rcb files b total fuel2 i s := by
  induction fuel1 with
  | zero =>
    intro fuel2 i s h1 _
    have hi : ¬ i < files.length := by omega
    cases fuel2 with
    | zero => rfl
    | succ n => simp [spawn_loop, hi]
  | succ n ih =>
    intro fuel2 i s h1 h2
    by_cases hi : i < files.length
    · cases fuel2 with
      | zero => omega
      | succ m =>
        have hfun : (fun t : Sys ρ => spawn_loop lib fs pcb rcb files b total n (i + b) t)
            = fun t => spawn_loop lib fs pcb rcb files b total m (i + b) t := by
          funext t
          exact ih m (i + b) t (by omega) (by omega)
        unfold spawn_loop
        simp only [hi, if_true]
        rw [hfun]
    · cases fuel2 with
      | zero => simp [spawn_loop, hi]
      | succ m => simp [spawn_loop, hi]

theorem collect_loop_undisturbed (steps : List IterStep) :
    ∀ (files : List Path) (s : Sys ρ), s.undisturbed →
      collect_loop steps files s = (files ++ regular_files steps, s) := by
  induction steps with
  | nil => intro files s _; simp [collect_loop, regular_files]
  | cons st rest ih =>
    intro files s hs
    cases st with
    | error => simp [collect_loop, regular_files]
    | entry p k =>
      unfold collect_loop
      rw [poll_undisturbed s hs]
      cases k <;> simp [ih _ s hs, regular_files]

theorem worker_undisturbed (lib : RegexLib ρ) (fs : FileSystem) (dir : Path)
    (pcb : ProgressCallback) (rcb : ResultCallback) (hp : quiet_progress pcb)
    (hr : quiet_result rcb) (s : Sys ρ) (hs : s.undisturbed) (ht : s.eng.thread_count_ ≠ 0) :
    (search_directory_worker lib fs dir pcb rcb s).out = .returned
    ∧ (search_directory_worker lib fs dir pcb rcb s).sys.eng
        = { s.eng with results_ := s.eng.results_ ++ hits lib fs s.eng (listing fs dir) }
    ∧ (search_directory_worker lib fs dir pcb rcb s).sys.pending_stop = none
    ∧ (search_directory_worker lib fs dir pcb rcb s).log.filter Event.is_progress
        = root_progress pcb dir (listing fs dir).length
    ∧ (search_directory_worker lib fs dir pcb rcb s).log.filter Event.is_spawn_root = [] := by
  unfold search_directory_worker
  rw [poll_undisturbed s hs]
  simp only [Bool.false_eq_true, if_false, collect_files]
  rw [collect_loop_undisturbed _ [] s hs]
  simp only [List.nil_append]
  obtain ⟨p1, p2⟩ := call_progress_quiet pcb hp ("Searching in: " ++ dir) 0
    (regular_files (iterate (fs.root dir))).length ({ s with processed_files := 0 } : Sys ρ)
  have hu : ({ s with processed_files := 0 } : Sys ρ).undisturbed := hs
  obtain ⟨c1, c2, c3, c4, c5, c6⟩ := spawn_loop_undisturbed lib fs pcb rcb hp hr
    (regular_files (iterate (fs.root dir)))
    (max 1 ((regular_files (iterate (fs.root dir))).length / s.eng.thread_count_))
    (regular_files (iterate (fs.root dir))).length (by omega)
    ((regular_files (iterate (fs.root dir))).length + 1) 0
    ({ s with processed_files := 0 } : Sys ρ) (by omega) hu
  rw [and_then_returned _ _ p1]
  simp only [call_progress_sys, ht, if_false]
  rw [try_catch_returned]
  swap
  · exact c1
  simp only [List.drop_zero, Nat.sub_zero] at c2 c5
  refine ⟨c1, c2, c3, ?_, ?_⟩
  · simp only [List.filter_append, c5, p2, root_progress, listing]
    congr 1
    split <;> simp [Event.is_progress]
  · simp only [List.filter_append, c6, p2]
    split <;> simp [Event.is_spawn_root]

/-! ## Messages -/

theorem isPrefixOf_append_self (l x : List Char) : l.isPrefixOf (l ++ x) = true := by
  induction l with
  | nil => simp [List.isPrefixOf]
  | cons a t ih => simp [List.isPrefixOf, ih]

theorem not_found_event_is_not_found (p : Path) : (not_found_event p).is_not_found = true := by
  simp only [not_found_event, Event.is_not_found, begins_with, String.toList, String.data_append]
  exact isPrefixOf_append_self _ _

theorem searching_in_not_not_found (dir : Path) (c t : Nat) :
    (Event.progress ("Searching in: " ++ dir) c t).is_not_found = false := by
  simp only [Event.is_not_found, begins_with, String.toList, String.data_append]
  rfl

theorem processing_events_not_found (pcb : ProgressCallback) (p n t : Nat) :
    (processing_events pcb p n t).filter Event.is_not_found = [] := by
  unfold processing_events
  split
  · rw [List.filter_eq_nil_iff]
    intro e he
    simp only [List.mem_map] at he
    obtain ⟨k, -, rfl⟩ := he
    simp only [Event.is_not_found, Bool.not_eq_true]
    rfl
  · rfl

theorem root_progress_not_found (pcb : ProgressCallback) (dir : Path) (n : Nat) :
    (root_progress pcb dir n).filter Event.is_not_found = [] := by
  unfold root_progress
  rw [List.filter_append, processing_events_not_found, List.append_nil]
  split
  · simp [searching_in_not_not_found]
  · rfl

theorem filter_not_found_eq (l : List Event) :
    l.filter Event.is_not_found = (l.filter Event.is_progress).filter Event.is_not_found := by
  rw [List.filter_filter]
  congr 1
  funext e
  cases e <;> simp [Event.is_not_found, Event.is_progress]

/-! ## The loop over the root paths, undisturbed -/

theorem all_files_cons (fs : FileSystem) (p : Path) (rest : List Path) :
    all_files fs (p :: rest)
      = (if root_found fs p then listing fs p else []) ++ all_files fs rest := by
  unfold all_files
  by_cases h : root_found fs p = true
  · simp [List.filter_cons, h]
  · simp [List.filter_cons, h]

theorem search_paths_loop_undisturbed (lib : RegexLib ρ) (fs : FileSystem)
    (pcb : ProgressCallback) (rcb : ResultCallback) (hp : quiet_progress pcb)
    (hr : quiet_result rcb) (paths : List Path)
    (hprobe : ∀ p ∈ paths, probe_throws fs p = false) :
    ∀ s : Sys ρ, s.undisturbed → s.eng.thread_count_ ≠ 0 →
      (search_paths_loop lib fs pcb rcb paths s).out = .returned
      ∧ (search_paths_loop lib fs pcb rcb paths s).sys.eng
          = { s.eng with results_ := s.eng.results_ ++ hits lib fs s.eng (all_files fs paths) }
      ∧ (search_paths_loop lib fs pcb rcb paths s).sys.pending_stop = none
      ∧ (search_paths_loop lib fs pcb rcb paths s).log.filter Event.is_spawn_root
          = (paths.filter (root_found fs)).map Event.spawn_root
      ∧ (search_paths_loop lib fs pcb rcb paths s).log.filter Event.is_not_found
          = (if pcb.isSome then (paths.filter (root_missing fs)).map not_found_event else []) := by
  induction paths with
  | nil =>
    intro s hs _
    simp [search_paths_loop, all_files, hits_nil, hs.2]
  | cons p rest ih =>
    intro s hs ht
    have hrest : ∀ q ∈ rest, probe_throws fs q = false :=
      fun q hq => hprobe q (List.mem_cons_of_mem _ hq)
    have hpp := hprobe p (List.mem_cons_self _ _)
    unfold search_paths_loop
    rw [poll_undisturbed s hs]
    simp only [Bool.false_eq_true, if_false]
    cases hex : fs.path_exists p with
    | error w => simp [probe_throws, hex] at hpp
    | ok found =>
      cases found with
      | true =>
        have hf : root_found fs p = true := by simp [root_found, hex]
        have hm : root_missing fs p = false := by simp [root_missing, hex]
        obtain ⟨a1, a2, a3, a4, a5⟩ := worker_undisturbed lib fs p pcb rcb hp hr s hs ht
        have hl : (launch (Event.spawn_root p)
            (search_directory_worker lib fs p pcb rcb s)).out = .returned := by
          rw [launch_out, a1]; simp
        have hu : (launch (Event.spawn_root p)
            (search_directory_worker lib fs p pcb rcb s)).sys.undisturbed := by
          rw [launch_sys]
          exact ⟨by rw [a2]; exact hs.1, a3⟩
        have ht2 : (launch (Event.spawn_root p)
            (search_directory_worker lib fs p pcb rcb s)).sys.eng.thread_count_ ≠ 0 := by
          rw [launch_sys, a2]; exact ht
        obtain ⟨c1, c2, c3, c4, c5⟩ := ih hrest _ hu ht2
        simp only
        rw [and_then_returned _ _ hl]
        simp only [launch_sys] at c1 c2 c3 c4 c5 ⊢
        refine ⟨c1, ?_, c3, ?_, ?_⟩
        · rw [c2, a2, all_files_cons, hf, if_pos rfl, hits_append]
          simp [hits, List.append_assoc]
        · simp [List.filter_append, List.filter_cons, Event.is_spawn_root, a5, c4, hf]
        · have h0 : (search_directory_worker lib fs p pcb rcb s).log.filter Event.is_not_found
              = [] := by
            rw [filter_not_found_eq, a4, root_progress_not_found]
          simp [List.filter_append, List.filter_cons, Event.is_not_found, h0, c5, hm]
      | false =>
        have hf : root_found fs p = false := by simp [root_found, hex]
        have hm : root_missing fs p = true := by simp [root_missing, hex]
        obtain ⟨p1, p2⟩ := call_progress_quiet pcb hp ("Directory not found: " ++ p) 0 0 s
        obtain ⟨c1, c2, c3, c4, c5⟩ := ih hrest s hs ht
        simp only
        rw [and_then_returned _ _ p1]
        simp only [call_progress_sys]
        refine ⟨c1, ?_, c3, ?_, ?_⟩
        · rw [c2, all_files_cons, hf]
          simp
        · rw [List.filter_append, c4, p2]
          cases pcb <;> simp [Event.is_spawn_root, hf]
        · rw [List.filter_append, c5, p2]
          have := not_found_event_is_not_found p
          unfold not_found_event at this
          cases pcb <;> simp [hm, this, not_found_event]

theorem search_undisturbed (lib : RegexLib ρ) (fs : FileSystem) (pattern : String)
    (paths : List Path) (pcb : ProgressCallback) (rcb : ResultCallback)
    (hp : quiet_progress pcb) (hr : quiet_result rcb) (re : ρ)
    (hre : lib.compile pattern = .ok re)
    (hprobe : ∀ p ∈ paths, probe_throws fs p = false)
    (s : Sys ρ) (hidle : s.eng.searching_ = false) (hpend : s.pending_stop = none)
    (ht : s.eng.thread_count_ ≠ 0) :
    (search lib fs pattern paths pcb rcb s).out = .returned
    ∧ (search lib fs pattern paths pcb rcb s).sys.eng
        = { s.eng with
            results_ := hits lib fs { s.eng with compiled_pattern_ := re } (all_files fs paths),
            stop_requested_ := false,
            compiled_pattern_ := re }
    ∧ (search lib fs pattern paths pcb rcb s).sys.pending_stop = none
    ∧ (search lib fs pattern paths pcb rcb s).log.filter Event.is_spawn_root
        = (paths.filter (root_found fs)).map Event.spawn_root
    ∧ (search lib fs pattern paths pcb rcb s).log.filter Event.is_not_found
        = (if pcb.isSome then (paths.filter (root_missing fs)).map not_found_event else []) := by
  have hu : (Sys.mk (SearchEngine.mk [] true false s.eng.thread_count_ s.eng.min_file_size_
      s.eng.max_file_size_ re) s.pending_stop s.fds s.maps s.processed_files).undisturbed :=
    ⟨rfl, hpend⟩
  obtain ⟨c1, c2, c3, c4, c5⟩ := search_paths_loop_undisturbed lib fs pcb rcb hp hr paths hprobe
    _ hu ht
  unfold search
  simp only [hidle, Bool.false_eq_true, if_false, search_try, hre, clear_results]
  rw [try_catch_returned _ _ c1, and_then_returned _ _ c1]
  simp only [ret_out, ret_sys, ret_log, List.append_nil]
  refine ⟨trivial, ?_, c3, c4, c5⟩
  rw [c2]
  simp [clear_results, hits, hidle]

/-! ## What a run never changes -/

theorem keeps_refl (s : Sys ρ) : s.keeps s := ⟨rfl, rfl, rfl, fun h => h⟩

theorem keeps_trans (s t u : Sys ρ) (h1 : s.keeps t) (h2 : t.keeps u) : s.keeps u :=
  ⟨h2.1.trans h1.1, h2.2.1.trans h1.2.1, h2.2.2.1.trans h1.2.2.1,
    fun h => h2.2.2.2 (h1.2.2.2 h)⟩

theorem poll_keeps (s : Sys ρ) : s.keeps (poll s).2 := by
  obtain ⟨-, -, -, h4, h5, h6, -⟩ := poll_frame s
  refine ⟨h6, h4, h5, fun h => ?_⟩
  rw [poll_quiet s h]; exact h

theorem and_then_keeps (s : Sys ρ) (a : Step ρ) (k : Sys ρ → Step ρ) (ha : s.keeps a.sys)
    (hk : ∀ u : Sys ρ, u.keeps (k u).sys) : s.keeps (a.and_then k).sys := by
  unfold Step.and_then
  split
  · exact keeps_trans _ _ _ ha (hk a.sys)
  · exact ha

theorem try_catch_keeps (s : Sys ρ) (a : Step ρ) (hd : Exn → Option (Sys ρ → Step ρ))
    (ha : s.keeps a.sys) (hh : ∀ e k, hd e = some k → ∀ u : Sys ρ, u.keeps (k u).sys) :
    s.keeps (a.try_catch hd).sys := by
  cases hout : a.out with
  | returned => rw [try_catch_returned a hd hout]; exact ha
  | fault => rw [try_catch_fault a hd hout]; exact ha
  | threw e =>
    cases hk : hd e with
    | none => rw [try_catch_uncaught a hd e hout hk]; exact ha
    | some k =>
      rw [try_catch_caught a hd e k hout hk]
      exact keeps_trans _ _ _ ha (hh e k hk a.sys)

theorem search_file_keeps (lib : RegexLib ρ) (fs : FileSystem) (p : Path)
    (cb : ResultCallback) (s : Sys ρ) : s.keeps (search_file lib fs p cb s).sys := by
  obtain ⟨a1, a2, -⟩ := search_file_char lib fs p cb s
  apply keeps_trans _ _ _ (poll_keeps s)
  refine ⟨?_, ?_, ?_, ?_⟩
  · rw [a1]; split <;> rfl
  · rw [a1]; split <;> rfl
  · rw [a1]; split <;> rfl
  · rw [a2]; exact fun h => h

theorem count_and_report_keeps (cb : ProgressCallback) (total : Nat) (s : Sys ρ) :
    s.keeps (count_and_report cb total s).sys := by
  unfold count_and_report
  simp only
  split
  · rw [call_progress_sys]; exact ⟨rfl, rfl, rfl, fun h => h⟩
  · exact ⟨rfl, rfl, rfl, fun h => h⟩

theorem batch_task_keeps (lib : RegexLib ρ) (fs : FileSystem) (pcb : ProgressCallback)
    (rcb : ResultCallback) (total : Nat) (files : List Path) :
    ∀ s : Sys ρ, s.keeps (batch_task lib fs pcb rcb total files s).sys := by
  induction files with
  | nil => intro s; exact keeps_refl s
  | cons f rest ih =>
    intro s
    unfold batch_task
    split
    · exact poll_keeps s
    · apply keeps_trans _ _ _ (poll_keeps s)
      apply and_then_keeps _ _ _ (search_file_keeps lib fs f rcb _)
      intro u
      exact and_then_keeps _ _ _ (count_and_report_keeps pcb total u) ih

theorem spawn_loop_keeps (lib : RegexLib ρ) (fs : FileSystem) (pcb : ProgressCallback)
    (rcb : ResultCallback) (files : List Path) (b total : Nat) (fuel : Nat) :
    ∀ (i : Nat) (s : Sys ρ), s.keeps (spawn_loop lib fs pcb rcb files b total fuel i s).sys := by
  induction fuel with
  | zero => intro i s; exact keeps_refl s
  | succ fuel ih =>
    intro i s
    unfold spawn_loop
    split
    · split
      · exact poll_keeps s
      · apply keeps_trans _ _ _ (poll_keeps s)
        apply and_then_keeps
        · rw [launch_sys]; exact batch_task_keeps lib fs pcb rcb total _ _
        · intro u; exact ih _ u
    · exact keeps_refl s

theorem collect_loop_keeps (steps : List IterStep) :
    ∀ (files : List Path) (s : Sys ρ), s.keeps (collect_loop steps files s).2 := by
  induction steps with
  | nil => intro files s; exact keeps_refl s
  | cons st rest ih =>
    intro files s
    cases st with
    | error => exact keeps_refl s
    | entry p k =>
      unfold collect_loop
      split
      · exact poll_keeps s
      · cases k <;> exact keeps_trans _ _ _ (poll_keeps s) (ih _ _)

theorem search_directory_worker_keeps (lib : RegexLib ρ) (fs : FileSystem) (dir : Path)
    (pcb : ProgressCallback) (rcb : ResultCallback) (s : Sys ρ) :
    s.keeps (search_directory_worker lib fs dir pcb rcb s).sys := by
  unfold search_directory_worker
  split
  · exact poll_keeps s
  · apply keeps_trans _ _ _ (poll_keeps s)
    apply keeps_trans _ _ _ (collect_loop_keeps (iterate (fs.root dir)) [] _)
    apply try_catch_keeps
    · apply and_then_keeps
      · rw [call_progress_sys]; exact ⟨rfl, rfl, rfl, fun h => h⟩
      · intro u
        split
        · exact keeps_refl u
        · exact spawn_loop_keeps lib fs pcb rcb _ _ _ _ _ u
    · intro e k hk u
      cases e <;> simp [catch_filesystem_error] at hk
      subst hk
      rw [call_progress_sys]; exact keeps_refl u

theorem search_paths_loop_keeps (lib : RegexLib ρ) (fs : FileSystem)
    (pcb : ProgressCallback) (rcb : ResultCallback) (paths : List Path) :
    ∀ s : Sys ρ, s.keeps (search_paths_loop lib fs pcb rcb paths s).sys := by
  induction paths with
  | nil => intro s; exact keeps_refl s
  | cons p rest ih =>
    intro s
    unfold search_paths_loop
    split
    · exact poll_keeps s
    · split
      · exact poll_keeps s
      · apply keeps_trans _ _ _ (poll_keeps s)
        apply and_then_keeps
        · rw [launch_sys]; exact search_directory_worker_keeps lib fs p pcb rcb _
        · exact ih
      · apply keeps_trans _ _ _ (poll_keeps s)
        apply and_then_keeps
        · rw [call_progress_sys]; exact keeps_refl _
        · exact ih

theorem search_keeps (lib : RegexLib ρ) (fs : FileSystem) (pattern : String) (paths : List Path)
    (pcb : ProgressCallback) (rcb : ResultCallback) (s : Sys ρ) :
    s.keeps (search lib fs pattern paths pcb rcb s).sys := by
  unfold search
  split
  · exact keeps_refl s
  · apply and_then_keeps
    · apply try_catch_keeps
      · unfold search_try
        split
        · exact ⟨rfl, rfl, rfl, fun h => h⟩
        · exact keeps_trans _ _ _ ⟨rfl, rfl, rfl, fun h => h⟩
            (search_paths_loop_keeps lib fs pcb rcb paths _)
      · intro e k hk u
        cases e <;> simp [catch_regex_error] at hk
        subst hk
        rw [call_progress_sys]; exact keeps_refl u
    · intro u
      exact ⟨rfl, rfl, rfl, fun h => h⟩

/-! ## The claims -/

theorem mem_hits_path (lib : RegexLib ρ) (fs : FileSystem) (e : SearchEngine ρ)
    (files : List Path) (f : Path) :
    f ∈ (hits lib fs e files).map SearchResult.file_path
      ↔ f ∈ files ∧ accepts lib fs e.min_file_size_ e.max_file_size_ e.compiled_pattern_ f = true := by
  unfold hits
  simp only [List.map_map, List.mem_map, List.mem_filter, Function.comp, result_of]
  constructor
  · rintro ⟨a, ⟨h1, h2⟩, rfl⟩
    exact ⟨h1, h2⟩
  · rintro ⟨h1, h2⟩
    exact ⟨f, ⟨h1, h2⟩, rfl⟩

/-- What `search_file` adds to the store when the flag reads `false` and
stat, open and map succeed. -/
theorem search_file_results (lib : RegexLib ρ) (fs : FileSystem) (p : Path)
    (rcb : ResultCallback) (s : Sys ρ) (size : Nat)
    (hpoll : (poll s).1 = false) (hstat : (fs.file p).stat_size = some size)
    (hopen : (fs.file p).open_ok = true) (hfstat : (fs.file p).fstat_ok = true)
    (hmmap : (fs.file p).mmap_ok = true) :
    (search_file lib fs p rcb s).sys.eng.results_
      = s.eng.results_ ++
        (if s.eng.min_file_size_ ≤ size ∧ size ≤ s.eng.max_file_size_
            ∧ (fs.file p).bytes ≠ []
            ∧ matches_in lib s.eng.compiled_pattern_ (fs.file p).bytes = true
          then [result_of fs p] else []) := by
  obtain ⟨a1, -⟩ := search_file_char lib fs p rcb s
  obtain ⟨f1, -, -, f4, f5, -, -, f8, -⟩ := poll_frame s
  have hh : file_hit lib fs p s
      = decide (s.eng.min_file_size_ ≤ size ∧ size ≤ s.eng.max_file_size_
          ∧ (fs.file p).bytes ≠ []
          ∧ matches_in lib s.eng.compiled_pattern_ (fs.file p).bytes = true) := by
    unfold file_hit accepts io_ok size_in_bounds
    rw [hpoll, f4, f5, f8, hstat, hopen, hfstat, hmmap]
    rw [Bool.eq_iff_iff]
    simp [and_assoc]
  rw [a1, hh]
  by_cases hc : s.eng.min_file_size_ ≤ size ∧ size ≤ s.eng.max_file_size_
      ∧ (fs.file p).bytes ≠ []
      ∧ matches_in lib s.eng.compiled_pattern_ (fs.file p).bytes = true
  · simp only [hc, decide_True, if_true, and_self, ne_eq, not_false_eq_true]
    rw [f1]
  · simp only [hc, decide_False, if_false, Bool.false_eq_true]
    rw [f1]; simp

theorem sample_progress_cb_quiet : quiet_progress sample_progress_cb := by
  intro f hf m c t
  cases hf
  rfl

theorem sample_result_cb_quiet : quiet_result sample_result_cb := by
  intro f hf r
  cases hf
  rfl

theorem quiet_progress_none : quiet_progress none := by
  intro f hf
  cases hf

theorem quiet_result_none : quiet_result none := by
  intro f hf
  cases hf

/-- C2.  Size-bound exclusivity: on a file whose size is strictly below the
minimum or strictly above the maximum, whatever its content, the pattern and
the state, `search_file` returns with no effect: no callback is invoked, the
result store, the descriptors and the mappings are unchanged. -/
theorem size_bound_exclusivity (lib : RegexLib ρ) (fs : FileSystem) (file_path : Path)
    (result_cb : ResultCallback) (s : Sys ρ) (size : Nat)
    (hstat : (fs.file file_path).stat_size = some size)
    (hout : size < s.eng.min_file_size_ ∨ size > s.eng.max_file_size_) :
    (search_file lib fs file_path result_cb s).out = .returned
    ∧ (search_file lib fs file_path result_cb s).log = []
    ∧ (search_file lib fs file_path result_cb s).sys.eng.results_ = s.eng.results_
    ∧ (search_file lib fs file_path result_cb s).sys.fds = s.fds
    ∧ (search_file lib fs file_path result_cb s).sys.maps = s.maps := by
  obtain ⟨h1, h2, h3, h4, h5, -⟩ := poll_frame s
  rw [← h4, ← h5] at hout
  unfold search_file
  split
  · exact ⟨rfl, rfl, h1, h2, h3⟩
  · simp only [hstat, hout, if_true]
    exact ⟨rfl, rfl, h1, h2, h3⟩

/-- C2 (witness).  File `d/a` has 3 bytes; the limits are `[100, 1048576]`. -/
theorem size_bound_exclusivity_witness :
    (sample_fs.file "d/a").stat_size = some 3
    ∧ (search_file sample_lib sample_fs "d/a" sample_result_cb
        (sample_running [102, 111, 111] 100 1048576 4 none)).log = []
    ∧ (search_file sample_lib sample_fs "d/a" sample_result_cb
        (sample_running [102, 111, 111] 100 1048576 4 none)).sys.eng.results_ = [] :=
  have h := size_bound_exclusivity sample_lib sample_fs "d/a" sample_result_cb
    (sample_running [102, 111, 111] 100 1048576 4 none) 3 (by decide) (Or.inl (by decide))
  ⟨by decide, h.2.1, h.2.2.1⟩

theorem find_zero_isNone (w : List Byte) :
    (w.find? fun c => c == 0).isNone = !decide (0 ∈ w) := by
  induction w with
  | nil => simp
  | cons a t ih =>
    by_cases h : a = 0
    · simp [h]
    · have h2 : ¬ (0 = a) := fun e => h e.symm
      simp [List.find?_cons, h, h2, ih]

theorem content_preview_eq_spec (b : List Byte) : content_preview b = preview_spec b := by
  unfold content_preview preview_spec
  simp only [find_zero_isNone]
  by_cases h : 0 ∈ b.take (min 1000 b.length)
  · simp [h]
  · simp only [h, decide_False, Bool.not_false, if_true, if_false, std_replace, List.map_map]
    apply List.map_congr_left
    intro c _
    by_cases h10 : c = 10
    · simp [h10]
    · by_cases h13 : c = 13
      · simp [h13]
      · simp [h10, h13]

/-- C3.  The preview computed by the code equals the reference definition
`preview_spec` for every content, and the `SearchResult` stored for a
matching file carries that preview, the path of the file and line 1. -/
theorem preview_equals_reference (lib : RegexLib ρ) (fs : FileSystem) (file_path : Path)
    (result_cb : ResultCallback) (s : Sys ρ) (size : Nat)
    (hpoll : (poll s).1 = false)
    (hstat : (fs.file file_path).stat_size = some size)
    (hmin : s.eng.min_file_size_ ≤ size) (hmax : size ≤ s.eng.max_file_size_)
    (hopen : (fs.file file_path).open_ok = true) (hfstat : (fs.file file_path).fstat_ok = true)
    (hmmap : (fs.file file_path).mmap_ok = true) (hne : (fs.file file_path).bytes ≠ [])
    (hmatch : matches_in lib s.eng.compiled_pattern_ (fs.file file_path).bytes = true) :
    (∀ b : List Byte, content_preview b = preview_spec b)
    ∧ (search_file lib fs file_path result_cb s).sys.eng.results_
        = s.eng.results_ ++ [⟨file_path, preview_spec (fs.file file_path).bytes, 1⟩] := by
  refine ⟨content_preview_eq_spec, ?_⟩
  have h := search_file_results lib fs file_path result_cb s size hpoll hstat
    hopen hfstat hmmap
  rw [h, if_pos ⟨hmin, hmax, hne, hmatch⟩, result_of, content_preview_eq_spec]

/-- C3 (witness).  File `d/a` ("foo") matches the literal `foo`. -/
theorem preview_equals_reference_witness :
    (sample_fs.file "d/a").bytes ≠ []
    ∧ (search_file sample_lib sample_fs "d/a" none
        (sample_running [102, 111, 111] 0 10 1 none)).sys.eng.results_
      = [] ++ [⟨"d/a", preview_spec (sample_fs.file "d/a").bytes, 1⟩] :=
  ⟨by decide,
    (preview_equals_reference sample_lib sample_fs "d/a" none
      (sample_running [102, 111, 111] 0 10 1 none) 3 (by decide) (by decide) (by decide)
      (by decide) (by decide) (by decide) (by decide) (by decide) (by decide)).2⟩

theorem begins_with_append (a b : String) : begins_with a (a ++ b) = true := by
  simp only [begins_with, String.toList, String.data_append]
  exact isPrefixOf_append_self _ _

/-- C4.  Invalid pattern: when the pattern does not compile, `search` called
on an idle engine launches no task, does not invoke the result callback and
leaves the result store empty; the only event of the call is one progress
event "Invalid regex pattern: ..." with current 0 and total 0 (delivered to
the progress callback the caller supplied). -/
theorem invalid_pattern_single_progress_event (lib : RegexLib ρ) (fs : FileSystem)
    (pattern what : String) (paths : List Path) (pcb : ProgressCallback) (rcb : ResultCallback)
    (s : Sys ρ) (hidle : s.eng.searching_ = false) (hbad : lib.compile pattern = .error what) :
    (search lib fs pattern paths pcb rcb s).log
      = (if pcb.isSome then [Event.progress ("Invalid regex pattern: " ++ what) 0 0] else [])
    ∧ begins_with "Invalid regex pattern" ("Invalid regex pattern: " ++ what) = true
    ∧ (search lib fs pattern paths pcb rcb s).sys.eng.results_ = [] := by
  have hb : begins_with "Invalid regex pattern" ("Invalid regex pattern: " ++ what) = true := by
    have := begins_with_append "Invalid regex pattern" (": " ++ what)
    rwa [← String.append_assoc] at this
  refine ⟨?_, hb, ?_⟩
  all_goals
    unfold search
    simp only [hidle, Bool.false_eq_true, if_false, search_try, hbad]
    rw [try_catch_caught _ _ (.regex_error what) _ rfl rfl]
    simp only [call_progress_sys, List.nil_append]
    cases pcb with
    | none => simp [call_progress, Step.and_then, clear_results]
    | some f =>
      cases hf : f ("Invalid regex pattern: " ++ what) 0 0 <;>
        simp [call_progress, Step.and_then, hf, clear_results]

/-- C4 (witness).  The pattern `[` on the sample engine. -/
theorem invalid_pattern_single_progress_event_witness :
    (search sample_lib sample_fs "[" ["d"] sample_progress_cb sample_result_cb
        (sample_sys 0 10 1 none)).log
      = [Event.progress "Invalid regex pattern: Unexpected character within brackets" 0 0]
    ∧ (search sample_lib sample_fs "[" ["d"] sample_progress_cb sample_result_cb
        (sample_sys 0 10 1 none)).sys.eng.results_ = [] :=
  have h := invalid_pattern_single_progress_event sample_lib sample_fs "["
    "Unexpected character within brackets" ["d"] sample_progress_cb sample_result_cb
    (sample_sys 0 10 1 none) (by decide) rfl
  ⟨h.1, h.2.2⟩

/-- Path lists whose probes all answer: in a session with a valid pattern,
no stop request, callbacks that return and at least one worker, the loop over
the paths runs to its end; a root task is launched for exactly the existing
paths, in order; exactly the missing paths are reported, each by one progress
event "Directory not found: <path>" with current 0 and total 0; and the
results are those of the files collected under the existing paths. -/
theorem missing_root_reported_others_searched (lib : RegexLib ρ) (fs : FileSystem)
    (pattern : String) (paths : List Path) (pcb : ProgressCallback) (rcb : ResultCallback)
    (re : ρ) (s : Sys ρ)
    (hp : quiet_progress pcb) (hr : quiet_result rcb) (hre : lib.compile pattern = .ok re)
    (hprobe : ∀ p ∈ paths, probe_throws fs p = false)
    (hidle : s.eng.searching_ = false) (hpend : s.pending_stop = none)
    (ht : s.eng.thread_count_ ≠ 0) :
    (search lib fs pattern paths pcb rcb s).out = .returned
    ∧ (search lib fs pattern paths pcb rcb s).log.filter Event.is_spawn_root
        = (paths.filter (root_found fs)).map Event.spawn_root
    ∧ (search lib fs pattern paths pcb rcb s).log.filter Event.is_not_found
        = (if pcb.isSome then
            (paths.filter (root_missing fs)).map
              fun p => Event.progress ("Directory not found: " ++ p) 0 0
          else [])
    ∧ (search lib fs pattern paths pcb rcb s).sys.eng.results_
        = hits lib fs { s.eng with compiled_pattern_ := re }
            ((paths.filter (root_found fs)).flatMap (listing fs)) := by
  obtain ⟨c1, c2, -, c4, c5⟩ := search_undisturbed lib fs pattern paths pcb rcb hp hr re hre
    hprobe s hidle hpend ht
  refine ⟨c1, c4, c5, ?_⟩
  rw [c2]
  rfl

/-- The path list `nowhere`, `d` on the sample file system. -/
theorem missing_root_reported_others_searched_witness :
    (search sample_lib sample_fs "foo" ["nowhere", "d"] sample_progress_cb sample_result_cb
        (sample_sys 0 10 1 none)).log.filter Event.is_spawn_root = [Event.spawn_root "d"]
    ∧ (search sample_lib sample_fs "foo" ["nowhere", "d"] sample_progress_cb sample_result_cb
        (sample_sys 0 10 1 none)).log.filter Event.is_not_found
        = [Event.progress "Directory not found: nowhere" 0 0] :=
  have h := missing_root_reported_others_searched sample_lib sample_fs "foo" ["nowhere", "d"]
    sample_progress_cb sample_result_cb (some [102, 111, 111]) (sample_sys 0 10 1 none)
    sample_progress_cb_quiet sample_result_cb_quiet rfl (by decide) (by decide) (by decide)
    (by decide)
  ⟨h.2.1.trans (by decide), h.2.2.1.trans (by decide)⟩

/-- C6.  Re-entrancy: `search` called while `searching_` is set returns at
once; the whole state (result store, cancellation flag, compiled pattern and
everything else) is unchanged and no callback is invoked. -/
theorem search_while_searching_is_noop (lib : RegexLib ρ) (fs : FileSystem)
    (pattern : String) (paths : List Path) (pcb : ProgressCallback) (rcb : ResultCallback)
    (s : Sys ρ) (hbusy : s.eng.searching_ = true) :
    search lib fs pattern paths pcb rcb s = ⟨.returned, s, []⟩ := by
  unfold search
  simp [hbusy, ret]

/-- C6 (witness).  The sample engine inside a session. -/
theorem search_while_searching_is_noop_witness :
    (sample_running [102] 0 10 1 none).eng.searching_ = true
    ∧ search sample_lib sample_fs "foo" ["d"] sample_progress_cb sample_result_cb
        (sample_running [102] 0 10 1 none)
      = ⟨.returned, sample_running [102] 0 10 1 none, []⟩ :=
  ⟨by decide, search_while_searching_is_noop sample_lib sample_fs "foo" ["d"] sample_progress_cb
    sample_result_cb (sample_running [102] 0 10 1 none) (by decide)⟩

theorem search_busy_ret (lib : RegexLib ρ) (fs : FileSystem)
    (pattern : String) (paths : List Path) (pcb : ProgressCallback) (rcb : ResultCallback)
    (s : Sys ρ) (hbusy : s.eng.searching_ = true) :
    search lib fs pattern paths pcb rcb s = ret s := by
  unfold search
  simp [hbusy]

/-- C7.  Session isolation: two idle engines with the same size limits and
worker count, whatever their result stores, cancellation flags and compiled
patterns, give the same results for the same `search` call when nobody
requests a stop during the run.  In particular a second `search` with the
same arguments, even after a `stop_search()` issued in between, ends with the
same result store as the first. -/
theorem session_isolation (lib : RegexLib ρ) (fs : FileSystem) (pattern : String)
    (paths : List Path) (pcb : ProgressCallback) (rcb : ResultCallback) (s t : Sys ρ)
    (hs : s.eng.searching_ = false) (ht : t.eng.searching_ = false)
    (hmin : s.eng.min_file_size_ = t.eng.min_file_size_)
    (hmax : s.eng.max_file_size_ = t.eng.max_file_size_)
    (hthr : s.eng.thread_count_ = t.eng.thread_count_)
    (hps : s.pending_stop = none) (hpt : t.pending_stop = none) :
    (search lib fs pattern paths pcb rcb s).sys.eng.results_
      = (search lib fs pattern paths pcb rcb t).sys.eng.results_
    ∧ (search lib fs pattern paths pcb rcb
        { (search lib fs pattern paths pcb rcb s).sys with
          eng := stop_search (search lib fs pattern paths pcb rcb s).sys.eng }).sys.eng.results_
      = (search lib fs pattern paths pcb rcb s).sys.eng.results_ := by
  refine ⟨(search_sim lib fs pattern paths pcb rcb s t hs ht hmin hmax hthr
    (hps.trans hpt.symm)).2.2, ?_⟩
  obtain ⟨k1, k2, k3, k4⟩ := search_keeps lib fs pattern paths pcb rcb s
  cases hb : (search lib fs pattern paths pcb rcb s).sys.eng.searching_ with
  | true =>
    rw [search_busy_ret lib fs pattern paths pcb rcb _ (by simpa [stop_search] using hb)]
    rfl
  | false =>
    exact (search_sim lib fs pattern paths pcb rcb _ s (by simpa [stop_search] using hb) hs
      (by simpa [stop_search] using k2) (by simpa [stop_search] using k3)
      (by simpa [stop_search] using k1) (by simpa using (k4 hps).trans hps.symm)).2.2

/-- C7 (witness).  A fresh engine and one that holds an old result, an old
pattern and a set cancellation flag. -/
theorem session_isolation_witness :
    (search sample_lib sample_fs "foo" ["d"] sample_progress_cb sample_result_cb
        (sample_sys 0 10 1 none)).sys.eng.results_
      = (search sample_lib sample_fs "foo" ["d"] sample_progress_cb sample_result_cb
          { sample_sys 0 10 1 none with
            eng := stop_search { (sample_sys 0 10 1 none).eng with
              results_ := [⟨"old", [], 1⟩], compiled_pattern_ := some [120] } }).sys.eng.results_ :=
  (session_isolation sample_lib sample_fs "foo" ["d"] sample_progress_cb sample_result_cb
    (sample_sys 0 10 1 none)
    { sample_sys 0 10 1 none with
      eng := stop_search { (sample_sys 0 10 1 none).eng with
        results_ := [⟨"old", [], 1⟩], compiled_pattern_ := some [120] } }
    (by decide) (by decide) (by decide) (by decide) (by decide) (by decide) (by decide)).1

/-- C8.  Cancellation gates new work: with the cancellation flag set,
`search_file` on any file returns without touching the result store, the
descriptors or the mappings and without invoking the result callback; a batch
task starts no file, the batch loop launches no task and a root task collects
nothing: none of them adds a result or invokes a callback. -/
theorem cancellation_gates_new_work (lib : RegexLib ρ) (fs : FileSystem)
    (pcb : ProgressCallback) (rcb : ResultCallback) (s : Sys ρ)
    (hstop : s.eng.stop_requested_ = true) :
    (∀ p : Path,
        (search_file lib fs p rcb s).out = .returned
        ∧ (search_file lib fs p rcb s).log = []
        ∧ (search_file lib fs p rcb s).sys.eng.results_ = s.eng.results_
        ∧ (search_file lib fs p rcb s).sys.fds = s.fds
        ∧ (search_file lib fs p rcb s).sys.maps = s.maps)
    ∧ (∀ (total : Nat) (files : List Path),
        (batch_task lib fs pcb rcb total files s).log = []
        ∧ (batch_task lib fs pcb rcb total files s).sys.eng.results_ = s.eng.results_
        ∧ (batch_task lib fs pcb rcb total files s).sys.processed_files = s.processed_files)
    ∧ (∀ (files : List Path) (b total fuel i : Nat),
        (spawn_loop lib fs pcb rcb files b total fuel i s).log = []
        ∧ (spawn_loop lib fs pcb rcb files b total fuel i s).sys.eng.results_ = s.eng.results_)
    ∧ (∀ dir : Path,
        (search_directory_worker lib fs dir pcb rcb s).log = []
        ∧ (search_directory_worker lib fs dir pcb rcb s).sys.eng.results_ = s.eng.results_) := by
  have hp := poll_stopped s hstop
  obtain ⟨h1, h2, h3, -, -, -, -, -, h9⟩ := poll_frame s
  refine ⟨?_, ?_, ?_, ?_⟩
  · intro p
    unfold search_file
    simp only [hp, if_true]
    exact ⟨rfl, rfl, h1, h2, h3⟩
  · intro total files
    cases files with
    | nil => exact ⟨rfl, rfl, rfl⟩
    | cons f rest =>
      unfold batch_task
      simp only [hp, if_true]
      exact ⟨rfl, h1, h9⟩
  · intro files b total fuel i
    cases fuel with
    | zero => exact ⟨rfl, rfl⟩
    | succ n =>
      unfold spawn_loop
      by_cases hi : i < files.length
      · simp only [hi, hp, if_true]
        exact ⟨rfl, h1⟩
      · simp only [hi, if_false]
        exact ⟨rfl, rfl⟩
  · intro dir
    unfold search_directory_worker
    simp only [hp, if_true]
    exact ⟨rfl, h1⟩

/-- C8 (witness).  The matching file `d/a` after `stop_search()`. -/
theorem cancellation_gates_new_work_witness :
    (search_file sample_lib sample_fs "d/a" sample_result_cb
        { sample_running [102, 111, 111] 0 10 1 none with
          eng := stop_search (sample_running [102, 111, 111] 0 10 1 none).eng }).log = []
    ∧ (batch_task sample_lib sample_fs sample_progress_cb sample_result_cb 3
        ["d/a", "d/b", "d/c"]
        { sample_running [102, 111, 111] 0 10 1 none with
          eng := stop_search (sample_running [102, 111, 111] 0 10 1 none).eng }).log = [] :=
  have h := cancellation_gates_new_work sample_lib sample_fs sample_progress_cb sample_result_cb
    { sample_running [102, 111, 111] 0 10 1 none with
      eng := stop_search (sample_running [102, 111, 111] 0 10 1 none).eng } (by decide)
  ⟨(h.1 "d/a").2.1, (h.2.1 3 ["d/a", "d/b", "d/c"]).1⟩

/-- C9 (counterexample).  Root `d` has 3 files and there is one worker.  A
stop request that lands after the first file has been handled ends the batch:
the last progress event of the root task is ("Searching in: d", 0, 3), whose
current 0 differs from its total 3. -/
theorem c9_cancelled_run_counterexample :
    last_progress (search_directory_worker sample_lib sample_fs "d" sample_progress_cb
        sample_result_cb (sample_running [102, 111, 111] 0 10 1 (some 7))).log
      = some (Event.progress "Searching in: d" 0 3)
    ∧ (0 : Nat) ≠ 3 := by
  decide

theorem processing_events_last (f : String → Nat → Nat → Option Exn) (m : Nat) :
    processing_events (some f) 0 (m + 1) (m + 1)
      = processing_events (some f) 0 m (m + 1)
        ++ [Event.progress "Processing files..." (m + 1) (m + 1)] := by
  rw [processing_events_add, processing_events_succ, processing_events_zero]
  simp

/-- C9 (amended).  When no cancellation is requested during the run and the
batch tasks of the root run one after another (the schedule of `launch`, in
which no two tasks interleave their updates of the shared counter), for every
file count and every worker count of at least 1 (callbacks returning), the
last progress event emitted for the root has current = total = the number of
collected files. -/
theorem last_progress_complete_without_cancellation (lib : RegexLib ρ) (fs : FileSystem)
    (dir : Path) (f : String → Nat → Nat → Option Exn) (rcb : ResultCallback) (s : Sys ρ)
    (hp : quiet_progress (some f)) (hr : quiet_result rcb)
    (hs : s.undisturbed) (ht : s.eng.thread_count_ ≠ 0) :
    ∃ m : String,
      last_progress (search_directory_worker lib fs dir (some f) rcb s).log
        = some (Event.progress m (listing fs dir).length (listing fs dir).length) := by
  obtain ⟨-, -, -, a4, -⟩ := worker_undisturbed lib fs dir (some f) rcb hp hr s hs ht
  unfold last_progress
  rw [a4]
  unfold root_progress
  cases hn : (listing fs dir).length with
  | zero =>
    refine ⟨"Searching in: " ++ dir, ?_⟩
    rw [processing_events_zero]
    rfl
  | succ m =>
    refine ⟨"Processing files...", ?_⟩
    rw [processing_events_last, ← List.append_assoc, List.getLast?_append]
    simp

/-- C9 (witness).  The same root without a stop request: the last progress
event is ("Processing files...", 3, 3). -/
theorem last_progress_complete_without_cancellation_witness :
    ∃ m : String,
      last_progress (search_directory_worker sample_lib sample_fs "d"
          (some fun _ _ _ => none) sample_result_cb
          (sample_running [102, 111, 111] 0 10 1 none)).log
        = some (Event.progress m (listing sample_fs "d").length (listing sample_fs "d").length) :=
  last_progress_complete_without_cancellation sample_lib sample_fs "d" (fun _ _ _ => none)
    sample_result_cb (sample_running [102, 111, 111] 0 10 1 none) sample_progress_cb_quiet
    sample_result_cb_quiet ⟨by decide, by decide⟩ (by decide)

/-- C10 (the code at the failing input).  The probe of root `locked/x` throws
a `filesystem_error`; `search` leaves by that exception with `searching_`
still set, and the next `search` on the engine does nothing. -/
theorem search_stays_searching_after_probe_error :
    (search sample_lib sample_fs "foo" ["locked/x"] sample_progress_cb sample_result_cb
        (sample_sys 100 1048576 4 none)).out
      = .threw (.filesystem_error "Permission denied")
    ∧ is_searching (search sample_lib sample_fs "foo" ["locked/x"] sample_progress_cb
        sample_result_cb (sample_sys 100 1048576 4 none)).sys.eng = true
    ∧ (search sample_lib sample_fs "foo" ["d"] sample_progress_cb sample_result_cb
        (search sample_lib sample_fs "foo" ["locked/x"] sample_progress_cb
          sample_result_cb (sample_sys 100 1048576 4 none)).sys).log = [] := by
  decide

/-! ## The match postcondition and the release of resources -/

theorem call_result_log (cb : ResultCallback) (r : SearchResult) (s : Sys ρ) :
    (call_result cb r s).log = if cb.isSome then [Event.result r] else [] := by
  unfold call_result
  cases cb with
  | none => rfl
  | some f => cases hf : f r <;> simp [hf]

theorem file_hit_eq (lib : RegexLib ρ) (fs : FileSystem) (p : Path) (s : Sys ρ) :
    file_hit lib fs p s
      = (!(poll s).1 && accepts lib fs s.eng.min_file_size_ s.eng.max_file_size_
          s.eng.compiled_pattern_ p) := by
  obtain ⟨-, -, -, f4, f5, -, -, f8, -⟩ := poll_frame s
  unfold file_hit
  rw [f4, f5, f8]

/-- C11.  Match postcondition.  When the flag reads `false` and the file
passes every check of `search_file` (`accepts`: stat, open and map succeed,
the size is within the limits, the content is not empty and the matcher
matches), the store becomes the old store followed by the one result
(path, preview, line 1), whatever the old store holds, and the result
callback, when supplied, is invoked exactly once, with that result.  On every
other file the store is unchanged and no callback is invoked. -/
theorem match_postcondition (lib : RegexLib ρ) (fs : FileSystem) (p : Path)
    (rcb : ResultCallback) (s : Sys ρ) :
    ((poll s).1 = false
        ∧ accepts lib fs s.eng.min_file_size_ s.eng.max_file_size_ s.eng.compiled_pattern_ p
          = true →
      (search_file lib fs p rcb s).sys.eng.results_
          = s.eng.results_ ++ [⟨p, content_preview (fs.file p).bytes, 1⟩]
        ∧ (search_file lib fs p rcb s).log
          = (if rcb.isSome then [Event.result ⟨p, content_preview (fs.file p).bytes, 1⟩]
             else []))
    ∧ (¬ ((poll s).1 = false
        ∧ accepts lib fs s.eng.min_file_size_ s.eng.max_file_size_ s.eng.compiled_pattern_ p
          = true) →
      (search_file lib fs p rcb s).sys.eng.results_ = s.eng.results_
        ∧ (search_file lib fs p rcb s).log = []) := by
  obtain ⟨a1, -, -, a4, -⟩ := search_file_char lib fs p rcb s
  obtain ⟨f1, -⟩ := poll_frame s
  have hh := file_hit_eq lib fs p s
  constructor
  · rintro ⟨h1, h2⟩
    have ht : file_hit lib fs p s = true := by rw [hh, h1, h2]; rfl
    rw [a1, a4, ht, call_result_log]
    simp only [if_true]
    exact ⟨by rw [f1]; rfl, rfl⟩
  · intro hn
    have hf : file_hit lib fs p s = false := by
      rw [hh]
      cases hp : (poll s).1
      · cases ha : accepts lib fs s.eng.min_file_size_ s.eng.max_file_size_
            s.eng.compiled_pattern_ p
        · rfl
        · exact absurd ⟨hp, ha⟩ hn
      · rfl
    rw [a1, a4, hf]
    simp only [Bool.false_eq_true, if_false]
    exact ⟨f1, trivial⟩

/-- C11 (witness).  File `d/a` matches and the store already holds its
result: the store then holds it twice, and the callback is called once. -/
theorem match_postcondition_witness :
    (search_file sample_lib sample_fs "d/a" sample_result_cb
        { sample_running [102, 111, 111] 0 10 1 none with
          eng := { (sample_running [102, 111, 111] 0 10 1 none).eng with
            results_ := [⟨"d/a", [102, 111, 111], 1⟩] } }).sys.eng.results_
      = [⟨"d/a", [102, 111, 111], 1⟩] ++ [⟨"d/a", content_preview (sample_fs.file "d/a").bytes, 1⟩]
    ∧ (search_file sample_lib sample_fs "d/a" sample_result_cb
        { sample_running [102, 111, 111] 0 10 1 none with
          eng := { (sample_running [102, 111, 111] 0 10 1 none).eng with
            results_ := [⟨"d/a", [102, 111, 111], 1⟩] } }).log
      = (if sample_result_cb.isSome
          then [Event.result ⟨"d/a", content_preview (sample_fs.file "d/a").bytes, 1⟩] else []) :=
  (match_postcondition sample_lib sample_fs "d/a" sample_result_cb
    { sample_running [102, 111, 111] 0 10 1 none with
      eng := { (sample_running [102, 111, 111] 0 10 1 none).eng with
        results_ := [⟨"d/a", [102, 111, 111], 1⟩] } }).1 ⟨by decide, by decide⟩

/-- On every path of `search_file` where neither `regex_search` nor the
result callback throws, the descriptors and the mappings are as before the
call. -/
theorem search_file_releases (lib : RegexLib ρ) (fs : FileSystem) (p : Path)
    (rcb : ResultCallback) (hq : quiet_result rcb) (s : Sys ρ)
    (hre : ∀ re content what, lib.regex_search re content ≠ .error what) :
    (search_file lib fs p rcb s).sys.fds = s.fds
    ∧ (search_file lib fs p rcb s).sys.maps = s.maps := by
  obtain ⟨-, h2, h3, -⟩ := poll_frame s
  unfold search_file
  split
  · exact ⟨h2, h3⟩
  · simp only
    split
    · exact ⟨h2, h3⟩
    · split
      · exact ⟨h2, h3⟩
      · split
        · exact ⟨h2, h3⟩
        · split
          · simp [close_fd, h2, h3]
          · split
            · simp [close_fd, h2, h3]
            · split
              · simp [unmap_close, h2, h3]
              · unfold match_and_report
                split
                · rename_i what hw
                  exact absurd hw (hre _ _ what)
                · simp [Step.try_catch, unmap_close, h2, h3]
                · obtain ⟨c1, -⟩ := call_result_quiet rcb hq
                    ⟨p, content_preview (fs.file p).bytes, 1⟩
                    ({ eng := { (poll s).2.eng with results_ := (poll s).2.eng.results_ ++
                          [⟨p, content_preview (fs.file p).bytes, 1⟩] },
                       pending_stop := (poll s).2.pending_stop, fds := p :: (poll s).2.fds,
                       maps := p :: (poll s).2.maps,
                       processed_files := (poll s).2.processed_files } : Sys ρ)
                  rw [try_catch_returned]
                  · rw [and_then_returned _ _ c1]
                    simp [unmap_close, h2, h3]
                  · rw [and_then_returned _ _ c1]
                    rfl

/-- C12 (the code at the failing inputs).  File `d/a` matches.  When the
result callback throws a `std::exception`, and likewise when `regex_search`
throws, `search_file` returns normally with descriptor and mapping of
`d/a` still in place, although none was open before the call. -/
theorem search_file_leaks_on_exception :
    (sample_running [102, 111, 111] 0 10 1 none).fds = []
    ∧ (sample_running [102, 111, 111] 0 10 1 none).maps = []
    ∧ (search_file sample_lib sample_fs "d/a" sample_throwing_result_cb
        (sample_running [102, 111, 111] 0 10 1 none)).out = .returned
    ∧ (search_file sample_lib sample_fs "d/a" sample_throwing_result_cb
        (sample_running [102, 111, 111] 0 10 1 none)).sys.fds = ["d/a"]
    ∧ (search_file sample_lib sample_fs "d/a" sample_throwing_result_cb
        (sample_running [102, 111, 111] 0 10 1 none)).sys.maps = ["d/a"]
    ∧ (search_file sample_lib_throwing sample_fs "d/a" sample_result_cb
        (sample_running [102, 111, 111] 0 10 1 none)).out = .returned
    ∧ (search_file sample_lib_throwing sample_fs "d/a" sample_result_cb
        (sample_running [102, 111, 111] 0 10 1 none)).sys.fds = ["d/a"]
    ∧ (search_file sample_lib_throwing sample_fs "d/a" sample_result_cb
        (sample_running [102, 111, 111] 0 10 1 none)).sys.maps = ["d/a"] := by
  decide

/-! ## The size limits over sequences of public calls -/

theorem op_apply_limits (lib : RegexLib ρ) (fs : FileSystem) (op : Op) (s : Sys ρ) :
    match op with
    | .set_file_size_limits a b =>
      (op.apply lib fs s).eng.min_file_size_ = a ∧ (op.apply lib fs s).eng.max_file_size_ = b
    | _ =>
      (op.apply lib fs s).eng.min_file_size_ = s.eng.min_file_size_
      ∧ (op.apply lib fs s).eng.max_file_size_ = s.eng.max_file_size_ := by
  cases op with
  | set_file_size_limits a b => exact ⟨rfl, rfl⟩
  | search pattern paths pcb rcb =>
    obtain ⟨-, k2, k3, -⟩ := search_keeps lib fs pattern paths pcb rcb s
    exact ⟨k2, k3⟩
  | stop_search => exact ⟨rfl, rfl⟩
  | clear_results => exact ⟨rfl, rfl⟩
  | set_thread_count n => exact ⟨rfl, rfl⟩

/-- C13 (counterexample).  One call `set_file_size_limits(10, 5)` on a new
engine leaves the minimum 10 above the maximum 5. -/
theorem c13_limits_counterexample :
    ¬ ((run_ops sample_lib sample_fs [Op.set_file_size_limits 10 5]
          (initial_sys sample_lib 8 none)).eng.min_file_size_
        ≤ (run_ops sample_lib sample_fs [Op.set_file_size_limits 10 5]
          (initial_sys sample_lib 8 none)).eng.max_file_size_) := by
  decide

/-- C13 (amended).  The initial state has minimum 100 and maximum 1048576
bytes.  `set_file_size_limits(a, b)` stores `a` and `b` as given, without a
check; `search`, `stop_search`, `clear_results` and `set_thread_count` leave
both limits as they are.  Hence minimum <= maximum holds in every state
reached from construction by public calls in which every
`set_file_size_limits(a, b)` has `a <= b`. -/
theorem size_limits_ordered_when_set_ordered (lib : RegexLib ρ) (fs : FileSystem) :
    (∀ (hc : Nat) (pending : Option Nat),
        (initial_sys lib hc pending).eng.min_file_size_ = 100
        ∧ (initial_sys lib hc pending).eng.max_file_size_ = 1048576)
    ∧ (∀ (a b : Nat) (s : Sys ρ),
        ((Op.set_file_size_limits a b).apply lib fs s).eng.min_file_size_ = a
        ∧ ((Op.set_file_size_limits a b).apply lib fs s).eng.max_file_size_ = b)
    ∧ (∀ (ops : List Op) (s : Sys ρ), ops.all Op.ordered = true →
        s.eng.min_file_size_ ≤ s.eng.max_file_size_ →
        (run_ops lib fs ops s).eng.min_file_size_ ≤ (run_ops lib fs ops s).eng.max_file_size_) := by
  refine ⟨fun _ _ => ⟨rfl, rfl⟩, fun _ _ _ => ⟨rfl, rfl⟩, ?_⟩
  intro ops
  induction ops with
  | nil => intro s _ h; exact h
  | cons op rest ih =>
    intro s hall h
    simp only [List.all_cons, Bool.and_eq_true] at hall
    have hstep : (op.apply lib fs s).eng.min_file_size_ ≤ (op.apply lib fs s).eng.max_file_size_ := by
      have := op_apply_limits lib fs op s
      cases op with
      | set_file_size_limits a b =>
        simp only at this
        rw [this.1, this.2]
        simpa [Op.ordered] using hall.1
      | search pattern paths pcb rcb => simp only at this; rw [this.1, this.2]; exact h
      | stop_search => exact h
      | clear_results => exact h
      | set_thread_count n => exact h
    exact ih (op.apply lib fs s) hall.2 hstep

/-- C13 (witness).  A new engine, then `set_file_size_limits(0, 10)`, a
search, `stop_search`, `clear_results` and `set_thread_count(4)`. -/
theorem size_limits_ordered_when_set_ordered_witness :
    (run_ops sample_lib sample_fs
        [Op.set_file_size_limits 0 10, Op.search "foo" ["d"] sample_progress_cb sample_result_cb,
          Op.stop_search, Op.clear_results, Op.set_thread_count 4]
        (initial_sys sample_lib 8 none)).eng.min_file_size_
      ≤ (run_ops sample_lib sample_fs
        [Op.set_file_size_limits 0 10, Op.search "foo" ["d"] sample_progress_cb sample_result_cb,
          Op.stop_search, Op.clear_results, Op.set_thread_count 4]
        (initial_sys sample_lib 8 none)).eng.max_file_size_ :=
  (size_limits_ordered_when_set_ordered sample_lib sample_fs).2.2
    [Op.set_file_size_limits 0 10, Op.search "foo" ["d"] sample_progress_cb sample_result_cb,
      Op.stop_search, Op.clear_results, Op.set_thread_count 4]
    (initial_sys sample_lib 8 none) (by decide) (by decide)

/-! ## What `collect_files` returns for a tree -/

theorem regular_files_append_clean (a b : List IterStep) (h : IterStep.error ∉ a) :
    regular_files (a ++ b) = regular_files a ++ regular_files b := by
  induction a with
  | nil => rfl
  | cons st rest ih =>
    have hr : IterStep.error ∉ rest := fun hm => h (List.mem_cons_of_mem _ hm)
    cases st with
    | error => exact absurd (List.mem_cons_self _ _) h
    | entry p k => cases k <;> simp [regular_files, ih hr]

theorem regular_files_append_error (a b : List IterStep) (h : IterStep.error ∈ a) :
    regular_files (a ++ b) = regular_files a := by
  induction a with
  | nil => cases h
  | cons st rest ih =>
    cases st with
    | error => rfl
    | entry p k =>
      have hr : IterStep.error ∈ rest := by
        cases h with
        | tail _ hm => exact hm
      cases k <;> simp [regular_files, ih hr]

mutual
theorem walk_reachable (n : Node) :
    (IterStep.error ∉ n.walk → regular_files n.walk = n.reachable_files)
    ∧ (∃ rest, n.reachable_files = regular_files n.walk ++ rest)
    ∧ (n.all_readable = true → IterStep.error ∉ n.walk) := by
  cases n with
  | regular p => simp [Node.walk, Node.reachable_files, regular_files]
  | other p => simp [Node.walk, Node.reachable_files, regular_files]
  | directory p readable children =>
    obtain ⟨h1, h2, h3⟩ := walk_list_reachable children
    cases readable with
    | false => simp [Node.walk, Node.reachable_files, regular_files, Node.all_readable]
    | true =>
      simp only [Node.walk, Node.reachable_files, Node.all_readable, if_true, regular_files,
        List.mem_cons, Bool.true_and, not_or]
      exact ⟨fun h => h1 h.2, h2, fun h => ⟨by simp, h3 h⟩⟩
theorem walk_list_reachable (ns : List Node) :
    (IterStep.error ∉ walk_list ns → regular_files (walk_list ns) = reachable_list ns)
    ∧ (∃ rest, reachable_list ns = regular_files (walk_list ns) ++ rest)
    ∧ (all_readable_list ns = true → IterStep.error ∉ walk_list ns) := by
  cases ns with
  | nil => simp [walk_list, reachable_list, regular_files]
  | cons n rest =>
    obtain ⟨a1, ⟨r1, a2⟩, a3⟩ := walk_reachable n
    obtain ⟨b1, ⟨r2, b2⟩, b3⟩ := walk_list_reachable rest
    simp only [walk_list, reachable_list, all_readable_list, List.mem_append, not_or,
      Bool.and_eq_true]
    refine ⟨?_, ?_, fun h => ⟨a3 h.1, b3 h.2⟩⟩
    · intro h
      rw [regular_files_append_clean _ _ h.1, a1 h.1, b1 h.2]
    · by_cases he : IterStep.error ∈ n.walk
      · refine ⟨r1 ++ reachable_list rest, ?_⟩
        rw [regular_files_append_error _ _ he, a2, List.append_assoc]
      · refine ⟨r2, ?_⟩
        rw [regular_files_append_clean _ _ he, a1 he, b2, List.append_assoc]
end

theorem iterate_reachable (root : Node) :
    (∃ rest, root_reachable_files root = regular_files (iterate root) ++ rest)
    ∧ (root.all_readable = true → regular_files (iterate root) = root_reachable_files root) := by
  cases root with
  | regular p => exact ⟨⟨[], rfl⟩, fun _ => rfl⟩
  | other p => exact ⟨⟨[], rfl⟩, fun _ => rfl⟩
  | directory p readable children =>
    cases readable with
    | false => exact ⟨⟨[], rfl⟩, fun _ => rfl⟩
    | true =>
      obtain ⟨h1, h2, h3⟩ := walk_list_reachable children
      refine ⟨h2, fun h => ?_⟩
      simp only [Node.all_readable, Bool.true_and] at h
      exact h1 (h3 h)

/-- C14 (counterexample).  Root `t` holds `t/a`, the directory `t/locked`
that cannot be opened, and `t/z`.  The file `t/z` lies outside the
inaccessible subtree, but `collect_files` returns only `t/a`. -/
theorem c14_later_files_lost_counterexample :
    root_reachable_files (sample_fs_locked.root "t") = ["t/a", "t/z"]
    ∧ (collect_files sample_fs_locked "t" (sample_running [] 0 10 1 none)).1 = ["t/a"]
    ∧ "t/z" ∉ (collect_files sample_fs_locked "t" (sample_running [] 0 10 1 none)).1 := by
  decide

/-- C14 (amended).  `collect_files` raises nothing: a filesystem error ends
the traversal.  Without cancellation it returns the regular files that the
traversal yields before its first error, in traversal order; this is an
initial segment of the regular files of the tree that lie outside the
inaccessible subtrees, and it is all of them when every directory of the tree
can be opened.  Files visited after the failing subdirectory are not
returned. -/
theorem collect_files_up_to_first_error (fs : FileSystem) (directory : Path) (s : Sys ρ)
    (hs : s.undisturbed) :
    collect_files fs directory s = (regular_files (iterate (fs.root directory)), s)
    ∧ (∃ rest, root_reachable_files (fs.root directory)
        = (collect_files fs directory s).1 ++ rest)
    ∧ ((fs.root directory).all_readable = true →
        (collect_files fs directory s).1 = root_reachable_files (fs.root directory)) := by
  have hc : collect_files fs directory s = (regular_files (iterate (fs.root directory)), s) := by
    unfold collect_files
    rw [collect_loop_undisturbed _ [] s hs]
    rfl
  obtain ⟨h1, h2⟩ := iterate_reachable (fs.root directory)
  refine ⟨hc, ?_, ?_⟩
  · rw [hc]; exact h1
  · rw [hc]; exact h2

/-- C14 (witness).  The tree with the locked directory: the file `t/a`,
visited before it, is returned. -/
theorem collect_files_up_to_first_error_witness :
    collect_files sample_fs_locked "t" (sample_running [] 0 10 1 none)
      = (regular_files (iterate (sample_fs_locked.root "t")), sample_running [] 0 10 1 none)
    ∧ regular_files (iterate (sample_fs_locked.root "t")) = ["t/a"] :=
  ⟨(collect_files_up_to_first_error sample_fs_locked "t" (sample_running [] 0 10 1 none)
    ⟨by decide, by decide⟩).1, by decide⟩

/-! ## The pattern transform of the presentation layer -/

theorem find_last_of_none (s : List Char) (ch : Char) :
    find_last_of s ch = none ↔ ch ∉ s := by
  induction s with
  | nil => simp [find_last_of]
  | cons c cs ih =>
    unfold find_last_of
    cases h : find_last_of cs ch with
    | some i =>
      have : ch ∈ cs := by
        by_contra hn
        rw [ih.mpr hn] at h
        cases h
      simp [this]
    | none =>
      have hn := ih.mp h
      by_cases hc : c = ch
      · simp [hc]
      · have hc2 : ¬ ch = c := fun e => hc e.symm
        simp [hc, hc2, hn]

theorem before_last_dot_eq (s : List Char) :
    before_last_dot s
      = (match find_last_of s '.' with
          | some d => s.take d
          | none => s) := by
  induction s with
  | nil => rfl
  | cons c cs ih =>
    unfold before_last_dot find_last_of
    cases h : find_last_of cs '.' with
    | some i =>
      have hm : '.' ∈ cs := by
        by_contra hn
        rw [(find_last_of_none cs '.').mpr hn] at h
        cases h
      rw [h] at ih
      simp [hm, ih]
    | none =>
      have hn := (find_last_of_none cs '.').mp h
      by_cases hc : c = '.'
      · simp [hn, hc]
      · simp [hn, hc]

theorem before_last_dot_char (pre suf : List Char) (h : '.' ∉ suf) :
    before_last_dot (pre ++ '.' :: suf) = pre := by
  induction pre with
  | nil => simp [before_last_dot, h]
  | cons c cs ih => simp [before_last_dot, ih]

theorem before_last_dot_no_dot (s : List Char) (h : '.' ∉ s) : before_last_dot s = s := by
  rw [before_last_dot_eq, (find_last_of_none s '.').mpr h]

theorem take_drop_split (s : List Char) (d : Nat) :
    (s.take d).drop 1 ++ s.drop d = if 0 < d then s.drop 1 else s := by
  cases d with
  | zero => simp
  | succ n =>
    cases s with
    | nil => simp
    | cons c cs => simp

theorem find_last_of_lt (s : List Char) (ch : Char) (d : Nat) (h : find_last_of s ch = some d) :
    d < s.length := by
  induction s generalizing d with
  | nil => cases h
  | cons c cs ih =>
    unfold find_last_of at h
    cases hh : find_last_of cs ch with
    | some i =>
      rw [hh] at h
      simp only [Option.some.injEq] at h
      have := ih i hh
      simp only [List.length_cons]
      omega
    | none =>
      rw [hh] at h
      by_cases hc : c = ch
      · simp [hc] at h
        simp [← h]
      · simp [hc] at h

/-- C15.  Prefix stripping: `remove_unreal_prefix(s)` is `s` without its
first character exactly when `s` has at least two characters, the part of `s`
before its last `.` (all of `s` without a `.`) has more than one character,
the first character is one of A, U, F, S, T, E, I and the second character is
an upper-case letter; otherwise it is `s`.  `AWeapon` becomes `Weapon`,
`Actor` stays.  (`before_last_dot` is the part before the last `.`.) -/
theorem remove_unreal_prefix_spec (s : String) :
    remove_unreal_prefix s = (if strips s.toList then String.mk (s.toList.drop 1) else s)
    ∧ (strips s.toList = true → remove_unreal_prefix s ≠ s)
    ∧ remove_unreal_prefix "AWeapon" = "Weapon"
    ∧ remove_unreal_prefix "Actor" = "Actor"
    ∧ (∀ pre suf : List Char, '.' ∉ suf → before_last_dot (pre ++ '.' :: suf) = pre)
    ∧ (∀ l : List Char, '.' ∉ l → before_last_dot l = l) := by
  have main : remove_unreal_prefix s
      = (if strips s.toList then String.mk (s.toList.drop 1) else s) := by
    unfold remove_unreal_prefix strips
    rw [before_last_dot_eq]
    rcases hl : s.toList with _ | ⟨a, _ | ⟨b, t⟩⟩
    · have : s = "" := by
        apply String.ext
        simpa [String.toList] using hl
      simp [this]
    · simp
    · simp only [List.length_cons]
      have hlen : ¬ (t.length + 1 + 1 < 2) := by omega
      simp only [hlen, if_false]
      have hs : String.mk (b :: t) = String.mk ((a :: b :: t).drop 1) := rfl
      cases hd : find_last_of (a :: b :: t) '.' with
      | none =>
        simp only [List.getD_cons_zero, List.getD_cons_succ, List.drop_succ_cons, List.drop_zero,
          List.append_nil, List.length_cons, isupper]
        apply if_congr _ rfl rfl
        simp
      | some d =>
        simp only
        rcases d with _ | _ | n
        · simp
        · simp
        · simp only [List.take_succ_cons, List.drop_succ_cons, List.length_cons,
            List.getD_cons_zero, List.getD_cons_succ, List.drop_zero, List.cons_append,
            List.take_append_drop, isupper]
          apply if_congr _ rfl rfl
          simp
  refine ⟨main, ?_, by decide, by decide, before_last_dot_char, before_last_dot_no_dot⟩
  intro h
  rw [main, if_pos h]
  intro he
  have := congrArg String.length he
  simp only [String.length] at this
  have h2 : 2 ≤ s.toList.length := by
    simp only [strips, Bool.and_eq_true, decide_eq_true_eq] at h
    exact h.1.1.1
  simp only [String.toList, List.length_drop] at this h2
  omega

/-- C15 (witness).  The name `AWeapon.uasset` loses its first character. -/
theorem remove_unreal_prefix_spec_witness :
    strips "AWeapon.uasset".toList = true
    ∧ remove_unreal_prefix "AWeapon.uasset" ≠ "AWeapon.uasset" :=
  ⟨by decide, (remove_unreal_prefix_spec "AWeapon.uasset").2.1 (by decide)⟩

/-! ## The batch partition -/

theorem ranges_loop_closed (n b : Nat) (hb : 0 < b) (fuel : Nat) :
    ∀ j : Nat, n - j * b ≤ fuel →
      ranges_loop n b fuel (j * b)
        = (((List.range' j (n - j)).filter fun k => k * b < n).map
            fun k => (k * b, min ((k + 1) * b) n)) := by
  induction fuel with
  | zero =>
    intro j hf
    have hj : n ≤ j * b := by omega
    have hnil : ((List.range' j (n - j)).filter fun k => k * b < n) = [] := by
      rw [List.filter_eq_nil_iff]
      intro k hk
      have hk1 : j ≤ k := (List.mem_range'_1.mp hk).1
      have : j * b ≤ k * b := Nat.mul_le_mul_right b hk1
      simp only [decide_eq_true_eq]
      omega
    rw [hnil]
    rfl
  | succ fuel ih =>
    intro j hf
    unfold ranges_loop
    by_cases hi : j * b < n
    · have hjn : j < n := by
        have : j ≤ j * b := Nat.le_mul_of_pos_right j hb
        omega
      have hr : List.range' j (n - j) = j :: List.range' (j + 1) (n - (j + 1)) := by
        have : n - j = (n - (j + 1)) + 1 := by omega
        rw [this, List.range'_succ]
      have hnext : j * b + b = (j + 1) * b := by rw [Nat.add_mul, Nat.one_mul]
      rw [hr]
      simp only [hi, if_true, List.filter_cons, decide_True, List.map_cons]
      rw [hnext, ih (j + 1) (by rw [← hnext]; omega)]
    · have hnil : ((List.range' j (n - j)).filter fun k => k * b < n) = [] := by
        rw [List.filter_eq_nil_iff]
        intro k hk
        have hk1 : j ≤ k := (List.mem_range'_1.mp hk).1
        have : j * b ≤ k * b := Nat.mul_le_mul_right b hk1
        simp only [decide_eq_true_eq]
        omega
      rw [hnil]
      simp [hi]

theorem ranges_loop_eq_batch_ranges (n b : Nat) (hb : 0 < b) :
    ranges_loop n b (n + 1) 0 = batch_ranges n b := by
  have h := ranges_loop_closed n b hb (n + 1) 0 (by omega)
  simp only [Nat.zero_mul, Nat.sub_zero] at h
  rw [h, batch_ranges, List.range_eq_range']

theorem ranges_loop_bounds (n b : Nat) (hb : 0 < b) (fuel : Nat) :
    ∀ (i : Nat) (r : Nat × Nat), r ∈ ranges_loop n b fuel i →
      i ≤ r.1 ∧ r.1 < r.2 ∧ r.2 ≤ n ∧ r.2 - r.1 ≤ b := by
  induction fuel with
  | zero => intro i r hr; simp [ranges_loop] at hr
  | succ fuel ih =>
    intro i r hr
    unfold ranges_loop at hr
    by_cases hi : i < n
    · simp only [hi, if_true, List.mem_cons] at hr
      rcases hr with rfl | hr
      · simp only
        omega
      · have := ih (i + b) r hr
        omega
    · simp [hi] at hr

theorem ranges_loop_pairwise (n b : Nat) (hb : 0 < b) (fuel : Nat) :
    ∀ i : Nat, List.Pairwise (fun r q : Nat × Nat => r.2 ≤ q.1) (ranges_loop n b fuel i) := by
  induction fuel with
  | zero => intro i; simp [ranges_loop]
  | succ fuel ih =>
    intro i
    unfold ranges_loop
    by_cases hi : i < n
    · simp only [hi, if_true, List.pairwise_cons]
      refine ⟨fun q hq => ?_, ih (i + b)⟩
      have := ranges_loop_bounds n b hb fuel (i + b) q hq
      omega
    · simp [hi]

theorem ranges_loop_full_batches (n b : Nat) (fuel : Nat) :
    ∀ (i : Nat) (r : Nat × Nat), r ∈ (ranges_loop n b fuel i).dropLast → r.2 - r.1 = b := by
  induction fuel with
  | zero => intro i r hr; simp [ranges_loop] at hr
  | succ fuel ih =>
    intro i r hr
    unfold ranges_loop at hr
    by_cases hi : i < n
    · simp only [hi, if_true] at hr
      cases hrest : ranges_loop n b fuel (i + b) with
      | nil => simp [hrest] at hr
      | cons q rest =>
        rw [hrest, List.dropLast_cons₂, List.mem_cons] at hr
        rcases hr with rfl | hr
        · have hlt : i + b < n := by
            cases fuel with
            | zero => simp [ranges_loop] at hrest
            | succ m =>
              unfold ranges_loop at hrest
              by_contra hc
              simp [hc] at hrest
          simp only
          omega
        · rw [← hrest] at hr
          exact ih (i + b) r hr
    · simp [hi] at hr

theorem ranges_loop_cover (files : List Path) (b : Nat) (hb : 0 < b) (fuel : Nat) :
    ∀ i : Nat, files.length - i ≤ fuel →
      (ranges_loop files.length b fuel i).flatMap (slice files) = files.drop i := by
  induction fuel with
  | zero =>
    intro i hf
    rw [List.drop_eq_nil_of_le (by omega)]
    rfl
  | succ fuel ih =>
    intro i hf
    unfold ranges_loop
    by_cases hi : i < files.length
    · simp only [hi, if_true, List.flatMap_cons, slice]
      rw [ih (i + b) (by omega)]
      exact slice_append_drop files i b
    · simp only [hi, if_false]
      rw [List.drop_eq_nil_of_le (by omega)]
      rfl

theorem call_progress_log (cb : ProgressCallback) (m : String) (c t : Nat) (s : Sys ρ) :
    (call_progress cb m c t s).log = if cb.isSome then [Event.progress m c t] else [] := by
  unfold call_progress
  cases cb with
  | none => rfl
  | some f => cases hf : f m c t <;> simp [hf]

theorem and_then_log (a : Step ρ) (k : Sys ρ → Step ρ) :
    (a.and_then k).log = a.log ++ (if a.out = .returned then (k a.sys).log else []) := by
  cases h : a.out with
  | returned => rw [and_then_returned a k h]; simp
  | threw e => rw [and_then_stopped a k (by simp [h])]; simp
  | fault => rw [and_then_stopped a k (by simp [h])]; simp

theorem search_file_no_spawn (lib : RegexLib ρ) (fs : FileSystem) (p : Path)
    (rcb : ResultCallback) (s : Sys ρ) :
    (search_file lib fs p rcb s).log.filter Event.is_spawn_batch = [] := by
  obtain ⟨-, -, -, a4, -⟩ := search_file_char lib fs p rcb s
  rw [a4, call_result_log]
  split
  · split <;> simp [Event.is_spawn_batch]
  · rfl

theorem count_and_report_no_spawn (pcb : ProgressCallback) (total : Nat) (s : Sys ρ) :
    (count_and_report pcb total s).log.filter Event.is_spawn_batch = [] := by
  unfold count_and_report
  simp only
  split
  · rw [call_progress_log]
    split <;> simp [Event.is_spawn_batch]
  · rfl

theorem batch_task_no_spawn (lib : RegexLib ρ) (fs : FileSystem) (pcb : ProgressCallback)
    (rcb : ResultCallback) (total : Nat) (files : List Path) :
    ∀ s : Sys ρ, (batch_task lib fs pcb rcb total files s).log.filter Event.is_spawn_batch = [] := by
  induction files with
  | nil => intro s; rfl
  | cons f rest ih =>
    intro s
    unfold batch_task
    split
    · rfl
    · rw [and_then_log, List.filter_append, search_file_no_spawn, List.nil_append]
      split
      · rw [and_then_log, List.filter_append, count_and_report_no_spawn, List.nil_append]
        split
        · exact ih _
        · rfl
      · rfl

/-- In every run, cancelled or not, the batch loop launches at most the
tasks of the index ranges. -/
theorem spawn_loop_spawn_count (lib : RegexLib ρ) (fs : FileSystem) (pcb : ProgressCallback)
    (rcb : ResultCallback) (files : List Path) (b total : Nat) (fuel : Nat) :
    ∀ (i : Nat) (s : Sys ρ),
      ((spawn_loop lib fs pcb rcb files b total fuel i s).log.filter Event.is_spawn_batch).length
        ≤ (ranges_loop files.length b fuel i).length := by
  induction fuel with
  | zero => intro i s; simp [spawn_loop]
  | succ fuel ih =>
    intro i s
    unfold spawn_loop ranges_loop
    by_cases hi : i < files.length
    · simp only [hi, if_true]
      split
      · simp
      · rw [and_then_log, List.filter_append, launch_log, List.filter_cons,
          batch_task_no_spawn]
        simp only [Event.is_spawn_batch, if_true, List.length_append, List.length_cons,
          List.length_nil]
        split
        · have := ih (i + b) (launch (Event.spawn_batch i (min (i + b) files.length))
            (batch_task lib fs pcb rcb total
              (List.take (min (i + b) files.length - i) (List.drop i files)) (poll s).2)).sys
          omega
        · simp
    · simp [hi]

theorem and_then_congr (a : Step ρ) (k k2 : Sys ρ → Step ρ) (h : k a.sys = k2 a.sys) :
    a.and_then k = a.and_then k2 := by
  unfold Step.and_then
  rw [h]

/-- Without cancellation and with callbacks that return, the batch loop is
the run of the batch tasks of the index ranges, one after another. -/
theorem spawn_loop_eq_run_ranges (lib : RegexLib ρ) (fs : FileSystem) (pcb : ProgressCallback)
    (rcb : ResultCallback) (hp : quiet_progress pcb) (hr : quiet_result rcb)
    (files : List Path) (b total : Nat) (fuel : Nat) :
    ∀ (i : Nat) (s : Sys ρ), s.undisturbed →
      spawn_loop lib fs pcb rcb files b total fuel i s
        = run_ranges lib fs pcb rcb files total (ranges_loop files.length b fuel i) s
      ∧ (spawn_loop lib fs pcb rcb files b total fuel i s).log.filter Event.is_spawn_batch
        = (ranges_loop files.length b fuel i).map fun r => Event.spawn_batch r.1 r.2 := by
  induction fuel with
  | zero => intro i s _; exact ⟨rfl, rfl⟩
  | succ fuel ih =>
    intro i s hs
    unfold spawn_loop ranges_loop
    by_cases hi : i < files.length
    · simp only [hi, if_true]
      rw [poll_undisturbed s hs]
      simp only [Bool.false_eq_true, if_false]
      obtain ⟨a1, a2, a3, -⟩ := batch_task_undisturbed lib fs pcb rcb hp hr total
        ((files.drop i).take (min (i + b) files.length - i)) s hs
      have hl : (launch (Event.spawn_batch i (min (i + b) files.length))
          (batch_task lib fs pcb rcb total
            ((files.drop i).take (min (i + b) files.length - i)) s)).out = .returned := by
        rw [launch_out, a1]; simp
      have hu : (launch (Event.spawn_batch i (min (i + b) files.length))
          (batch_task lib fs pcb rcb total
            ((files.drop i).take (min (i + b) files.length - i)) s)).sys.undisturbed := by
        rw [launch_sys]
        exact ⟨by rw [a2]; exact hs.1, a3⟩
      obtain ⟨c1, c2⟩ := ih (i + b) _ hu
      constructor
      · unfold run_ranges
        exact and_then_congr _ _ _ c1
      · rw [and_then_log, if_pos hl, List.filter_append, c2, launch_log, List.filter_cons,
          batch_task_no_spawn]
        simp [Event.is_spawn_batch]
    · simp only [hi, if_false]
      exact ⟨rfl, rfl⟩

/-- C17.  Batch partition.  For a file list of length `n`, `w >= 1` workers
and `b = max(1, n / w)`, a batch loop that is not cancelled (callbacks
returning) is the run, one after another, of one batch task per index range
`[k*b, min((k+1)*b, n))`, `k = 0, 1, ...` while `k*b < n`, each over its slice
of the list in list order, and these are the tasks it launches.  The ranges
are non-empty, lie within the list, are in increasing order and pairwise
disjoint, all but possibly the last have exactly `b` files, and their slices
concatenated are the whole list. -/
theorem batch_partition (lib : RegexLib ρ) (fs : FileSystem) (pcb : ProgressCallback)
    (rcb : ResultCallback) (hp : quiet_progress pcb) (hr : quiet_result rcb)
    (files : List Path) (w total : Nat) (_hw : 1 ≤ w) (s : Sys ρ) (hs : s.undisturbed) :
    spawn_loop lib fs pcb rcb files (max 1 (files.length / w)) total (files.length + 1) 0 s
      = run_ranges lib fs pcb rcb files total
          (batch_ranges files.length (max 1 (files.length / w))) s
    ∧ (spawn_loop lib fs pcb rcb files (max 1 (files.length / w)) total
          (files.length + 1) 0 s).log.filter Event.is_spawn_batch
        = (batch_ranges files.length (max 1 (files.length / w))).map
            (fun r => Event.spawn_batch r.1 r.2)
    ∧ (∀ r ∈ batch_ranges files.length (max 1 (files.length / w)),
        r.1 < r.2 ∧ r.2 ≤ files.length)
    ∧ List.Pairwise (fun r q : Nat × Nat => r.2 ≤ q.1)
        (batch_ranges files.length (max 1 (files.length / w)))
    ∧ (∀ r ∈ (batch_ranges files.length (max 1 (files.length / w))).dropLast,
        r.2 - r.1 = max 1 (files.length / w))
    ∧ (batch_ranges files.length (max 1 (files.length / w))).flatMap (slice files) = files := by
  have hb : 0 < max 1 (files.length / w) := by omega
  have he := ranges_loop_eq_batch_ranges files.length (max 1 (files.length / w)) hb
  obtain ⟨c1, c2⟩ := spawn_loop_eq_run_ranges lib fs pcb rcb hp hr files
    (max 1 (files.length / w)) total (files.length + 1) 0 s hs
  rw [he] at c1 c2
  refine ⟨c1, c2, ?_, ?_, ?_, ?_⟩
  · intro r hr
    rw [← he] at hr
    have := ranges_loop_bounds _ _ hb _ 0 r hr
    exact ⟨this.2.1, this.2.2.1⟩
  · rw [← he]
    exact ranges_loop_pairwise _ _ hb _ 0
  · intro r hr
    rw [← he] at hr
    exact ranges_loop_full_batches _ _ _ 0 r hr
  · rw [← he]
    have := ranges_loop_cover files _ hb (files.length + 1) 0 (by omega)
    simpa using this

/-- C17 (witness).  The three files of root `d` with two workers: batch size
1 and the ranges `[0,1)`, `[1,2)`, `[2,3)`. -/
theorem batch_partition_witness :
    (spawn_loop sample_lib sample_fs sample_progress_cb sample_result_cb
        ["d/a", "d/b", "d/c"] (max 1 (["d/a", "d/b", "d/c"].length / 2)) 3
        (["d/a", "d/b", "d/c"].length + 1) 0
        (sample_running [102, 111, 111] 0 10 2 none)).log.filter Event.is_spawn_batch
      = [Event.spawn_batch 0 1, Event.spawn_batch 1 2, Event.spawn_batch 2 3] :=
  (batch_partition sample_lib sample_fs sample_progress_cb sample_result_cb
    sample_progress_cb_quiet sample_result_cb_quiet ["d/a", "d/b", "d/c"] 2 3 (by decide)
    (sample_running [102, 111, 111] 0 10 2 none) ⟨by decide, by decide⟩).2.1.trans (by decide)

theorem ranges_loop_length (n b : Nat) (fuel : Nat) :
    ∀ i : Nat, (i < n → (ranges_loop n b fuel i).length * b < n - i + b)
      ∧ (n ≤ i → (ranges_loop n b fuel i).length = 0) := by
  induction fuel with
  | zero =>
    intro i
    simp only [ranges_loop, List.length_nil, Nat.zero_mul, implies_true, and_true]
    intro h
    omega
  | succ fuel ih =>
    intro i
    unfold ranges_loop
    constructor
    · intro hi
      simp only [hi, if_true, List.length_cons, Nat.add_mul, Nat.one_mul]
      obtain ⟨h1, h2⟩ := ih (i + b)
      by_cases hn : i + b < n
      · have := h1 hn
        omega
      · rw [h2 (by omega)]
        omega
    · intro hi
      have : ¬ i < n := by omega
      simp [this]

theorem task_count_arith (n w len : Nat) (hw : 1 ≤ w)
    (h : 0 < n → len * max 1 (n / w) < n + max 1 (n / w)) (h0 : n = 0 → len = 0) :
    len ≤ 2 * w - 1 ∧ ((n ≤ w ∨ w ∣ n) → len ≤ w) := by
  rcases Nat.eq_zero_or_pos n with hn | hn
  · rw [h0 hn]
    exact ⟨Nat.zero_le _, fun _ => Nat.zero_le _⟩
  · have hl := h hn
    by_cases hq : n / w = 0
    · have hlt : n < w := (Nat.div_eq_zero_iff hw).mp hq
      rw [hq] at hl
      simp only [Nat.max_eq_left (Nat.zero_le 1), Nat.mul_one] at hl
      constructor
      · omega
      · intro _; omega
    · have hq1 : 1 ≤ n / w := Nat.one_le_iff_ne_zero.mpr hq
      rw [Nat.max_eq_right hq1] at hl
      have hdm := Nat.div_add_mod n w
      have hr : n % w < w := Nat.mod_lt n hw
      have hprod : w + n / w ≤ w * (n / w) + 1 := by
        obtain ⟨v, rfl⟩ : ∃ v, w = v + 1 := ⟨w - 1, by omega⟩
        have : v ≤ v * (n / (v + 1)) := Nat.le_mul_of_pos_right v hq1
        rw [Nat.add_mul, Nat.one_mul]
        omega
      constructor
      · by_contra hc
        have h2 : 2 * w ≤ len := by omega
        have h3 : 2 * w * (n / w) ≤ len * (n / w) := Nat.mul_le_mul_right _ h2
        rw [Nat.mul_assoc] at h3
        generalize w * (n / w) = P at hdm hprod h3
        generalize len * (n / w) = X at hl h3
        omega
      · intro hor
        have hdvd : w ∣ n := by
          rcases hor with h1 | h1
          · have hge := (Nat.div_eq_zero_iff hw).not.mp hq
            have hnw : n = w := by omega
            rw [hnw]
          · exact h1
        have hmod : n % w = 0 := Nat.mod_eq_zero_of_dvd hdvd
        rw [hmod, Nat.add_zero] at hdm
        have h4 : len * (n / w) < (w + 1) * (n / w) := by
          rw [Nat.add_mul, Nat.one_mul, hdm]
          exact hl
        have := Nat.lt_of_mul_lt_mul_right h4
        omega

theorem try_catch_filter (a : Step ρ) (hd : Exn → Option (Sys ρ → Step ρ)) (p : Event → Bool)
    (hh : ∀ e k, hd e = some k → ∀ u : Sys ρ, (k u).log.filter p = []) :
    (a.try_catch hd).log.filter p = a.log.filter p := by
  cases hout : a.out with
  | returned => rw [try_catch_returned a hd hout]
  | fault => rw [try_catch_fault a hd hout]
  | threw e =>
    cases hk : hd e with
    | none => rw [try_catch_uncaught a hd e hout hk]
    | some k =>
      rw [try_catch_caught a hd e k hout hk]
      simp only [List.filter_append, hh e k hk a.sys, List.append_nil]

theorem ranges_count_bound (n w : Nat) (hw : 1 ≤ w) :
    (ranges_loop n (max 1 (n / w)) (n + 1) 0).length ≤ 2 * w - 1
    ∧ ((n ≤ w ∨ w ∣ n) → (ranges_loop n (max 1 (n / w)) (n + 1) 0).length ≤ w) := by
  obtain ⟨h1, h2⟩ := ranges_loop_length n (max 1 (n / w)) (n + 1) 0
  apply task_count_arith n w _ hw
  · intro hn
    have := h1 hn
    omega
  · intro hn
    exact h2 (by omega)

/-- C18 (counterexample).  Root `d` has 3 files and the engine 2 workers:
the batch size is `max(1, 3 / 2) = 1` and 3 batch tasks are launched. -/
theorem c18_three_tasks_two_workers_counterexample :
    (sample_running [102, 111, 111] 0 10 2 none).eng.thread_count_ = 2
    ∧ ((search_directory_worker sample_lib sample_fs "d" sample_progress_cb sample_result_cb
          (sample_running [102, 111, 111] 0 10 2 none)).log.filter
        Event.is_spawn_batch).length = 3
    ∧ ¬ (((search_directory_worker sample_lib sample_fs "d" sample_progress_cb sample_result_cb
          (sample_running [102, 111, 111] 0 10 2 none)).log.filter
        Event.is_spawn_batch).length
      ≤ (sample_running [102, 111, 111] 0 10 2 none).eng.thread_count_) := by
  decide

/-- In every run the root task launches at most the tasks of the index
ranges for its collected files. -/
theorem worker_spawn_count (lib : RegexLib ρ) (fs : FileSystem) (pcb : ProgressCallback)
    (rcb : ResultCallback) (s : Sys ρ) (dir : Path) :
    ((search_directory_worker lib fs dir pcb rcb s).log.filter Event.is_spawn_batch).length
      ≤ (ranges_loop (collect_files fs dir (poll s).2).1.length
          (max 1 ((collect_files fs dir (poll s).2).1.length / s.eng.thread_count_))
          ((collect_files fs dir (poll s).2).1.length + 1) 0).length := by
  unfold search_directory_worker
  split
  · simp
  · rw [try_catch_filter]
    · rw [and_then_log, List.filter_append, call_progress_log]
      have hnil : (if pcb.isSome = true then
          [Event.progress ("Searching in: " ++ dir)
            ({ (collect_files fs dir (poll s).2).2 with processed_files := 0 } : Sys ρ).processed_files
            (collect_files fs dir (poll s).2).1.length]
          else []).filter Event.is_spawn_batch = [] := by
        split <;> simp [Event.is_spawn_batch]
      rw [hnil, List.nil_append]
      have htc : (collect_files fs dir (poll s).2).2.eng.thread_count_
          = s.eng.thread_count_ := by
        have h1 := (poll_keeps s).1
        have h2 := (collect_loop_keeps (iterate (fs.root dir)) [] (poll s).2).1
        unfold collect_files
        rw [h2, h1]
      split
      · simp only [call_progress_sys, htc]
        split
        · simp
        · exact spawn_loop_spawn_count lib fs pcb rcb _ _ _ _ _ _
      · simp
    · intro e k hk u
      cases e <;> simp [catch_filesystem_error] at hk
      subst hk
      rw [call_progress_log]
      split <;> simp [Event.is_spawn_batch]

/-- C18 (amended).  For every worker count `w >= 1` and every root path,
with `n` the number of files collected for it, the number of batch tasks
launched for the root, in every run (cancelled or not, whatever the callbacks
do), is at most `2*w - 1`, and at most `w` when `n <= w` or `w` divides `n`.
The same bounds hold for the batch loop on any file list. -/
theorem batch_task_count_bound (lib : RegexLib ρ) (fs : FileSystem) (pcb : ProgressCallback)
    (rcb : ResultCallback) (s : Sys ρ) (hw : 1 ≤ s.eng.thread_count_) :
    (∀ dir : Path,
        ((search_directory_worker lib fs dir pcb rcb s).log.filter Event.is_spawn_batch).length
          ≤ 2 * s.eng.thread_count_ - 1)
    ∧ (∀ dir : Path,
        ((collect_files fs dir (poll s).2).1.length ≤ s.eng.thread_count_
          ∨ s.eng.thread_count_ ∣ (collect_files fs dir (poll s).2).1.length) →
        ((search_directory_worker lib fs dir pcb rcb s).log.filter Event.is_spawn_batch).length
          ≤ s.eng.thread_count_)
    ∧ (∀ (files : List Path) (total : Nat),
        ((spawn_loop lib fs pcb rcb files (max 1 (files.length / s.eng.thread_count_)) total
            (files.length + 1) 0 s).log.filter Event.is_spawn_batch).length
          ≤ 2 * s.eng.thread_count_ - 1
        ∧ ((files.length ≤ s.eng.thread_count_ ∨ s.eng.thread_count_ ∣ files.length) →
          ((spawn_loop lib fs pcb rcb files (max 1 (files.length / s.eng.thread_count_)) total
              (files.length + 1) 0 s).log.filter Event.is_spawn_batch).length
            ≤ s.eng.thread_count_)) := by
  refine ⟨fun dir => ?_, fun dir hor => ?_, fun files total => ⟨?_, fun hor => ?_⟩⟩
  · exact Nat.le_trans (worker_spawn_count lib fs pcb rcb s dir) (ranges_count_bound _ _ hw).1
  · exact Nat.le_trans (worker_spawn_count lib fs pcb rcb s dir)
      ((ranges_count_bound _ _ hw).2 hor)
  · exact Nat.le_trans (spawn_loop_spawn_count lib fs pcb rcb _ _ _ _ _ _)
      (ranges_count_bound _ _ hw).1
  · exact Nat.le_trans (spawn_loop_spawn_count lib fs pcb rcb _ _ _ _ _ _)
      ((ranges_count_bound _ _ hw).2 hor)

/-- C18 (witness).  Root `d` (3 files) with 2 workers: 3 tasks, at most
`2*2 - 1`. -/
theorem batch_task_count_bound_witness :
    ((search_directory_worker sample_lib sample_fs "d" sample_progress_cb sample_result_cb
        (sample_running [102, 111, 111] 0 10 2 none)).log.filter Event.is_spawn_batch).length
      ≤ 2 * (sample_running [102, 111, 111] 0 10 2 none).eng.thread_count_ - 1 :=
  (batch_task_count_bound sample_lib sample_fs sample_progress_cb sample_result_cb
    (sample_running [102, 111, 111] 0 10 2 none) (by decide)).1 "d"

/-- C19.  Progress throttling.  For a root with `n` collected files handled
without cancellation (batch tasks run one after another, callbacks
returning), the progress events of the root task are, in order,
("Searching in: <path>", 0, n) and then ("Processing files...", k, n) for
exactly the `k` in `1..n` with `k mod 10 = 0` or `k = n`, each once, in
increasing `k`.  For an empty directory the single event of the run is
("Searching in: <path>", 0, 0) and no result is added. -/
theorem progress_throttling (lib : RegexLib ρ) (fs : FileSystem) (dir : Path)
    (f : String → Nat → Nat → Option Exn) (rcb : ResultCallback) (s : Sys ρ)
    (hp : quiet_progress (some f)) (hr : quiet_result rcb)
    (hs : s.undisturbed) (ht : s.eng.thread_count_ ≠ 0) :
    (search_directory_worker lib fs dir (some f) rcb s).log.filter Event.is_progress
      = Event.progress ("Searching in: " ++ dir) 0 (listing fs dir).length
        :: ((List.range' 1 (listing fs dir).length).filter
              fun k => k % 10 = 0 ∨ k = (listing fs dir).length).map
            (fun k => Event.progress "Processing files..." k (listing fs dir).length)
    ∧ (listing fs dir = [] →
        (search_directory_worker lib fs dir (some f) rcb s).log
          = [Event.progress ("Searching in: " ++ dir) 0 0]
        ∧ (search_directory_worker lib fs dir (some f) rcb s).sys.eng.results_
          = s.eng.results_) := by
  obtain ⟨-, a2, -, a4, -⟩ := worker_undisturbed lib fs dir (some f) rcb hp hr s hs ht
  constructor
  · rw [a4]
    simp [root_progress, processing_events]
  · intro hempty
    constructor
    · have hl : regular_files (iterate (fs.root dir)) = [] := hempty
      obtain ⟨p1, p2⟩ := call_progress_quiet (some f) hp ("Searching in: " ++ dir) 0 0
        ({ s with processed_files := 0 } : Sys ρ)
      unfold search_directory_worker
      rw [poll_undisturbed s hs]
      simp only [Bool.false_eq_true, if_false, collect_files]
      rw [collect_loop_undisturbed _ [] s hs]
      simp only [List.nil_append, hl, List.length_nil]
      rw [and_then_returned _ _ p1]
      simp only [call_progress_sys, ht, if_false]
      rw [try_catch_returned]
      · simp [spawn_loop, p2]
      · simp [spawn_loop]
    · rw [a2, hempty]
      simp [hits]

/-- C19 (witness).  Root `d` with 3 files and one worker: the events
("Searching in: d", 0, 3) and ("Processing files...", 3, 3). -/
theorem progress_throttling_witness :
    (search_directory_worker sample_lib sample_fs "d" (some fun _ _ _ => none)
        sample_result_cb (sample_running [102, 111, 111] 0 10 1 none)).log.filter
        Event.is_progress
      = [Event.progress "Searching in: d" 0 3, Event.progress "Processing files..." 3 3] :=
  (progress_throttling sample_lib sample_fs "d" (fun _ _ _ => none) sample_result_cb
    (sample_running [102, 111, 111] 0 10 1 none) sample_progress_cb_quiet
    sample_result_cb_quiet ⟨by decide, by decide⟩ (by decide)).1.trans (by decide)

/-! ## The result view of the presentation layer -/

theorem isPrefixOf_iff_exists (l1 l2 : List Char) :
    l1.isPrefixOf l2 = true ↔ ∃ t, l2 = l1 ++ t := by
  induction l1 generalizing l2 with
  | nil => simp [List.isPrefixOf]
  | cons a t ih =>
    cases l2 with
    | nil => simp [List.isPrefixOf]
    | cons b u =>
      simp only [List.isPrefixOf, Bool.and_eq_true, beq_iff_eq, ih, List.cons_append,
        List.cons.injEq]
      constructor
      · rintro ⟨rfl, v, rfl⟩
        exact ⟨v, rfl, rfl⟩
      · rintro ⟨v, rfl, rfl⟩
        exact ⟨rfl, v, rfl⟩

theorem string_find_iff (hay needle : List Char) :
    string_find hay needle = true ↔ ∃ a b, hay = a ++ needle ++ b := by
  unfold string_find
  simp only [List.any_eq_true, List.mem_range, isPrefixOf_iff_exists]
  constructor
  · rintro ⟨k, -, t, ht⟩
    refine ⟨hay.take k, t, ?_⟩
    rw [List.append_assoc, ← ht, List.take_append_drop]
  · rintro ⟨a, b, rfl⟩
    refine ⟨a.length, by simp; omega, b, ?_⟩
    simp [List.append_assoc]

theorem string_find_nil (hay : List Char) : string_find hay [] = true :=
  (string_find_iff hay []).mpr ⟨[], hay, rfl⟩

theorem first_arrivals_mem (names : List String) (x : String) :
    x ∈ first_arrivals names ↔ x ∈ names := by
  induction names with
  | nil => simp [first_arrivals]
  | cons y ys ih =>
    simp only [first_arrivals, List.mem_cons, List.mem_filter, ih, decide_eq_true_eq]
    by_cases h : x = y
    · simp [h]
    · simp [h]

theorem first_arrivals_nodup (names : List String) : (first_arrivals names).Nodup := by
  induction names with
  | nil => simp [first_arrivals]
  | cons y ys ih =>
    simp only [first_arrivals, List.nodup_cons, List.mem_filter, decide_eq_true_eq]
    exact ⟨fun h => h.2 rfl, ih.filter _⟩

/-- The incremental step of `add_result`: the lines grow by a new name, and a
filtered list that is the re-filter of the lines stays so. -/
theorem add_result_step (filename_of : Path → String) (r : SearchResult) (g : GuiResults)
    (hinv : g.filtered_result_lines_
      = g.result_lines_.filter fun name =>
          string_find (tolower name) (tolower g.result_filter_)) :
    (add_result filename_of r g).result_filter_ = g.result_filter_
    ∧ (add_result filename_of r g).selected_result_ = g.selected_result_
    ∧ (add_result filename_of r g).result_lines_
        = (if filename_of r.file_path ∈ g.result_lines_ then g.result_lines_
           else g.result_lines_ ++ [filename_of r.file_path])
    ∧ (add_result filename_of r g).filtered_result_lines_
        = (add_result filename_of r g).result_lines_.filter fun name =>
            string_find (tolower name) (tolower g.result_filter_) := by
  unfold add_result
  by_cases hm : filename_of r.file_path ∈ g.result_lines_
  · simp only [hm, not_true_eq_false, if_false, if_true]
    exact ⟨trivial, trivial, trivial, hinv⟩
  · simp only [hm, not_false_eq_true, if_true, if_false]
    by_cases he : g.result_filter_.toList.length = 0
    · simp only [he, if_true]
      refine ⟨trivial, trivial, trivial, ?_⟩
      have hnil : tolower g.result_filter_ = [] := by
        unfold tolower
        rw [List.length_eq_zero.mp he]
        rfl
      simp only [hnil, string_find_nil, List.filter_true]
    · simp only [he, if_false]
      by_cases hf : string_find (tolower (filename_of r.file_path)) (tolower g.result_filter_)
          = true
      · simp only [hf, if_true]
        refine ⟨trivial, trivial, trivial, ?_⟩
        rw [hinv, List.filter_append]
        simp [hf]
      · simp only [hf, Bool.false_eq_true, if_false]
        refine ⟨trivial, trivial, trivial, ?_⟩
        rw [hinv, List.filter_append]
        simp [hf]

theorem add_results_lines (filename_of : Path → String) (rs : List SearchResult) :
    ∀ g : GuiResults,
      g.filtered_result_lines_
        = g.result_lines_.filter (fun name =>
            string_find (tolower name) (tolower g.result_filter_)) →
      (rs.foldl (fun g r => add_result filename_of r g) g).result_filter_ = g.result_filter_
      ∧ (rs.foldl (fun g r => add_result filename_of r g) g).result_lines_
          = g.result_lines_
            ++ (first_arrivals (rs.map fun r => filename_of r.file_path)).filter
                (fun y => y ∉ g.result_lines_)
      ∧ (rs.foldl (fun g r => add_result filename_of r g) g).filtered_result_lines_
          = (rs.foldl (fun g r => add_result filename_of r g) g).result_lines_.filter
              (fun name => string_find (tolower name) (tolower g.result_filter_)) := by
  induction rs with
  | nil => intro g hinv; simp [first_arrivals, hinv]
  | cons r rest ih =>
    intro g hinv
    obtain ⟨s1, -, s3, s4⟩ := add_result_step filename_of r g hinv
    rw [← s1] at s4
    obtain ⟨c1, c2, c3⟩ := ih (add_result filename_of r g) s4
    simp only [List.foldl_cons]
    refine ⟨c1.trans s1, ?_, by rw [c3, s1]⟩
    rw [c2, s3]
    simp only [List.map_cons, first_arrivals, List.filter_cons, List.filter_filter]
    by_cases hm : filename_of r.file_path ∈ g.result_lines_
    · simp only [hm, if_true, not_true_eq_false, decide_False, Bool.false_eq_true, if_false]
      congr 1
      apply List.filter_congr
      intro y _
      by_cases hy : y ∈ g.result_lines_
      · simp [hy]
      · have : y ≠ filename_of r.file_path := fun e => hy (e ▸ hm)
        simp [hy, this]
    · simp only [hm, if_false, not_false_eq_true, decide_True, if_true, List.append_assoc,
        List.singleton_append]
      congr 2
      apply List.filter_congr
      intro y _
      by_cases hy : y ∈ g.result_lines_
      · simp [hy]
      · by_cases hyx : y = filename_of r.file_path
        · simp [hyx]
        · simp [hy, hyx]

/-- C20.  Result view of the presentation layer.  With the filter text held
fixed, after any sequence of `add_result` calls from the reset lists, the
result lines are the file names in the order of their first arrival, each
once (a result with a name already present is ignored, whatever its
directory), and the filtered list is the sub-list of the lines whose
lower-cased name contains the lower-cased filter as a substring (all lines
for the empty filter); `update_filtered_results` then computes the same
filtered list and leaves the lines alone. -/
theorem result_view_incremental_agrees (filename_of : Path → String) (filter : String)
    (rs : List SearchResult) :
    (rs.foldl (fun g r => add_result filename_of r g) (reset_view filter)).result_lines_
      = first_arrivals (rs.map fun r => filename_of r.file_path)
    ∧ (rs.foldl (fun g r => add_result filename_of r g) (reset_view filter)).result_lines_.Nodup
    ∧ (∀ x, x ∈ (rs.foldl (fun g r => add_result filename_of r g)
          (reset_view filter)).result_lines_ ↔ x ∈ rs.map fun r => filename_of r.file_path)
    ∧ (rs.foldl (fun g r => add_result filename_of r g) (reset_view filter)).filtered_result_lines_
      = (rs.foldl (fun g r => add_result filename_of r g)
          (reset_view filter)).result_lines_.filter
          (fun name => string_find (tolower name) (tolower filter))
    ∧ (update_filtered_results (rs.foldl (fun g r => add_result filename_of r g)
        (reset_view filter))).filtered_result_lines_
      = (rs.foldl (fun g r => add_result filename_of r g)
          (reset_view filter)).filtered_result_lines_
    ∧ (update_filtered_results (rs.foldl (fun g r => add_result filename_of r g)
        (reset_view filter))).result_lines_
      = (rs.foldl (fun g r => add_result filename_of r g) (reset_view filter)).result_lines_
    ∧ (∀ hay needle : List Char,
        string_find hay needle = true ↔ ∃ a b, hay = a ++ needle ++ b)
    ∧ (filter.toList = [] →
        (rs.foldl (fun g r => add_result filename_of r g)
            (reset_view filter)).filtered_result_lines_
          = (rs.foldl (fun g r => add_result filename_of r g)
            (reset_view filter)).result_lines_) := by
  obtain ⟨c1, c2, c3⟩ := add_results_lines filename_of rs (reset_view filter) rfl
  have hl : (rs.foldl (fun g r => add_result filename_of r g) (reset_view filter)).result_lines_
      = first_arrivals (rs.map fun r => filename_of r.file_path) := by
    rw [c2]
    simp [reset_view]
  have hf : (reset_view filter).result_filter_ = filter := rfl
  rw [hf] at c1 c3
  refine ⟨hl, ?_, ?_, c3, ?_, rfl, string_find_iff, ?_⟩
  · rw [hl]; exact first_arrivals_nodup _
  · intro x; rw [hl]; exact first_arrivals_mem _ x
  · unfold update_filtered_results
    simp only [c1]
    by_cases he : filter.toList.isEmpty = true
    · simp only [he, if_true]
      rw [c3]
      have hnil : tolower filter = [] := by
        unfold tolower
        rw [List.isEmpty_iff.mp he]
        rfl
      simp only [hnil, string_find_nil, List.filter_true]
    · simp only [he, Bool.false_eq_true, if_false]
      rw [c3]
  · intro he
    rw [c3]
    have hnil : tolower filter = [] := by
      unfold tolower
      rw [he]
      rfl
    simp only [hnil, string_find_nil, List.filter_true]

/-- C20 (witness).  Three results, two with the same file name in different
directories, under the filter `WEAP`. -/
theorem result_view_incremental_agrees_witness :
    ([⟨"a/Weapon.uasset", [], 1⟩, ⟨"b/Actor.uasset", [], 1⟩, ⟨"c/Weapon.uasset", [], 1⟩].foldl
        (fun g r => add_result sample_filename r g) (reset_view "WEAP")).result_lines_
      = ["Weapon.uasset", "Actor.uasset"]
    ∧ ([⟨"a/Weapon.uasset", [], 1⟩, ⟨"b/Actor.uasset", [], 1⟩, ⟨"c/Weapon.uasset", [], 1⟩].foldl
        (fun g r => add_result sample_filename r g) (reset_view "WEAP")).filtered_result_lines_
      = ["Weapon.uasset"] :=
  ⟨(result_view_incremental_agrees sample_filename "WEAP"
      [⟨"a/Weapon.uasset", [], 1⟩, ⟨"b/Actor.uasset", [], 1⟩, ⟨"c/Weapon.uasset", [], 1⟩]).1.trans
      (by decide),
    (result_view_incremental_agrees sample_filename "WEAP"
      [⟨"a/Weapon.uasset", [], 1⟩, ⟨"b/Actor.uasset", [], 1⟩, ⟨"c/Weapon.uasset", [], 1⟩]).2.2.2.1.trans
      (by decide)⟩

/-! ## The shared counter under interleaving -/

/-- A batch task that runs its three steps per file without another task in
between counts as `count_and_report` does: after `k` files the counter is
`k` higher and the events are `processing_events`. -/
theorem run_schedule_alone (total_files : Nat) (f : String → Nat → Nat → Option Exn) (i : Nat) :
    ∀ (k : Nat) (c : CounterSys), c.tasks[i]? = some ⟨k, .read⟩ →
      run_schedule total_files (List.replicate (3 * k) i) c
        = ⟨c.processed_files + k, c.tasks.set i ⟨0, .read⟩,
            c.log ++ processing_events (some f) c.processed_files k total_files⟩ := by
  intro k
  induction k with
  | zero =>
    intro c hc
    have hset : c.tasks.set i ⟨0, .read⟩ = c.tasks := by
      apply List.ext_getElem?
      intro j
      by_cases hj : i = j
      · subst hj
        rw [hc]
        have hlt : i < c.tasks.length := by
          rcases Nat.lt_or_ge i c.tasks.length with h | h
          · exact h
          · rw [List.getElem?_eq_none h] at hc
            cases hc
        simp [List.getElem?_set_self, hlt]
      · rw [List.getElem?_set_ne hj]
    simp [run_schedule, processing_events_zero, hset]
  | succ k ih =>
    intro c hc
    have hlt : i < c.tasks.length := by
      rcases Nat.lt_or_ge i c.tasks.length with h | h
      · exact h
      · rw [List.getElem?_eq_none h] at hc
        cases hc
    have h3 : 3 * (k + 1) = (3 * k + 1 + 1) + 1 := by omega
    rw [h3]
    simp only [List.replicate_succ, run_schedule, List.foldl_cons]
    have e1 : c.step total_files i
        = ⟨c.processed_files, c.tasks.set i ⟨k + 1, .write c.processed_files⟩, c.log⟩ := by
      simp [CounterSys.step, hc, CounterTask.step]
    have e2 : (c.step total_files i).step total_files i
        = ⟨c.processed_files + 1, c.tasks.set i ⟨k + 1, .report⟩, c.log⟩ := by
      rw [e1]
      simp [CounterSys.step, CounterTask.step, List.getElem?_set_self, hlt]
    have e3 : ((c.step total_files i).step total_files i).step total_files i
        = ⟨c.processed_files + 1, c.tasks.set i ⟨k, .read⟩,
            c.log ++ (if (c.processed_files + 1) % 10 = 0 ∨ c.processed_files + 1 = total_files
              then [Event.progress "Processing files..." (c.processed_files + 1) total_files]
              else [])⟩ := by
      rw [e2]
      simp [CounterSys.step, CounterTask.step, List.getElem?_set_self, hlt]
    rw [e3]
    have := ih ⟨c.processed_files + 1, c.tasks.set i ⟨k, .read⟩,
      c.log ++ (if (c.processed_files + 1) % 10 = 0 ∨ c.processed_files + 1 = total_files
        then [Event.progress "Processing files..." (c.processed_files + 1) total_files]
        else [])⟩ (by simp [List.getElem?_set_self, hlt])
    simp only [run_schedule] at this
    rw [this, processing_events_succ]
    simp [Nat.add_assoc, Nat.add_comm 1 k]

/-- C16 (the code at the failing input).  Two collected files and two
workers give batch size 1 and two batch tasks of one file each.  In the
schedule in which both tasks read `processed_files` before either writes it,
both tasks finish, the counter ends at 1 although 2 files were processed, and
the event (2, 2) is never issued: an increment is lost.  The schedule that
runs the two tasks one after the other ends at 2 and issues (2, 2). -/
theorem processed_files_lost_update :
    (batch_ranges 2 (max 1 (2 / 2))).map (fun r => r.2 - r.1) = [1, 1]
    ∧ (run_schedule 2 [0, 1, 0, 1, 0, 1] (CounterSys.start [1, 1])).finished = true
    ∧ (run_schedule 2 [0, 1, 0, 1, 0, 1] (CounterSys.start [1, 1])).processed_files = 1
    ∧ (run_schedule 2 [0, 1, 0, 1, 0, 1] (CounterSys.start [1, 1])).log = []
    ∧ (run_schedule 2 [0, 0, 0, 1, 1, 1] (CounterSys.start [1, 1])).finished = true
    ∧ (run_schedule 2 [0, 0, 0, 1, 1, 1] (CounterSys.start [1, 1])).processed_files = 2
    ∧ (run_schedule 2 [0, 0, 0, 1, 1, 1] (CounterSys.start [1, 1])).log
        = [Event.progress "Processing files..." 2 2] := by
  decide

/-! ## The divisor of the batch size -/

theorem and_then_no_fault (a : Step ρ) (k : Sys ρ → Step ρ) (ha : a.out ≠ .fault)
    (hk : (k a.sys).out ≠ .fault) : (a.and_then k).out ≠ .fault := by
  unfold Step.and_then
  split
  · exact hk
  · exact ha

theorem try_catch_no_fault (a : Step ρ) (hd : Exn → Option (Sys ρ → Step ρ))
    (ha : a.out ≠ .fault) (hh : ∀ e k, hd e = some k → ∀ u : Sys ρ, (k u).out ≠ .fault) :
    (a.try_catch hd).out ≠ .fault := by
  cases hout : a.out with
  | returned => rw [try_catch_returned a hd hout, hout]; simp
  | fault => exact absurd hout ha
  | threw e =>
    cases hk : hd e with
    | none => rw [try_catch_uncaught a hd e hout hk, hout]; simp
    | some k =>
      rw [try_catch_caught a hd e k hout hk]
      exact hh e k hk a.sys

theorem search_file_no_fault (lib : RegexLib ρ) (fs : FileSystem) (p : Path)
    (rcb : ResultCallback) (s : Sys ρ) : (search_file lib fs p rcb s).out ≠ .fault := by
  obtain ⟨-, -, -, -, a5⟩ := search_file_char lib fs p rcb s
  rw [a5]
  split
  · split <;> simp
  · simp

theorem count_and_report_no_fault (pcb : ProgressCallback) (total : Nat) (s : Sys ρ) :
    (count_and_report pcb total s).out ≠ .fault := by
  unfold count_and_report
  simp only
  split
  · exact call_progress_no_fault _ _ _ _ _
  · simp [ret]

theorem batch_task_no_fault (lib : RegexLib ρ) (fs : FileSystem) (pcb : ProgressCallback)
    (rcb : ResultCallback) (total : Nat) (files : List Path) :
    ∀ s : Sys ρ, (batch_task lib fs pcb rcb total files s).out ≠ .fault := by
  induction files with
  | nil => intro s; simp [batch_task, ret]
  | cons f rest ih =>
    intro s
    unfold batch_task
    split
    · simp [ret]
    · exact and_then_no_fault _ _ (search_file_no_fault lib fs f rcb _)
        (and_then_no_fault _ _ (count_and_report_no_fault pcb total _) (ih _))

theorem spawn_loop_no_fault (lib : RegexLib ρ) (fs : FileSystem) (pcb : ProgressCallback)
    (rcb : ResultCallback) (files : List Path) (b total : Nat) (fuel : Nat) :
    ∀ (i : Nat) (s : Sys ρ), (spawn_loop lib fs pcb rcb files b total fuel i s).out ≠ .fault := by
  induction fuel with
  | zero => intro i s; simp [spawn_loop, ret]
  | succ fuel ih =>
    intro i s
    unfold spawn_loop
    split
    · split
      · simp [ret]
      · refine and_then_no_fault _ _ ?_ (ih _ _)
        rw [launch_out]
        simp [batch_task_no_fault]
    · simp [ret]

/-- With a worker count other than 0 the root task never takes the division
by zero, whatever the callbacks and the stop schedule do. -/
theorem worker_no_fault (lib : RegexLib ρ) (fs : FileSystem) (dir : Path)
    (pcb : ProgressCallback) (rcb : ResultCallback) (s : Sys ρ)
    (hw : s.eng.thread_count_ ≠ 0) :
    (search_directory_worker lib fs dir pcb rcb s).out ≠ .fault := by
  have htc : (collect_files fs dir (poll s).2).2.eng.thread_count_ = s.eng.thread_count_ := by
    have h1 := (poll_keeps s).1
    have h2 := (collect_loop_keeps (iterate (fs.root dir)) [] (poll s).2).1
    unfold collect_files
    rw [h2, h1]
  unfold search_directory_worker
  split
  · simp [ret]
  · apply try_catch_no_fault
    · refine and_then_no_fault _ _ (call_progress_no_fault _ _ _ _ _) ?_
      simp only [call_progress_sys, htc, hw, if_false]
      exact spawn_loop_no_fault lib fs pcb rcb _ _ _ _ _ _
    · intro e k hk u
      cases e <;> simp [catch_filesystem_error] at hk
      subst hk
      exact call_progress_no_fault _ _ _ _ _

/-- With worker count 0 every root task that gets past its first read of the
stop flag and whose progress callback returns takes the division by zero,
whatever the number of collected files. -/
theorem worker_faults_without_workers (lib : RegexLib ρ) (fs : FileSystem) (dir : Path)
    (pcb : ProgressCallback) (rcb : ResultCallback) (hp : quiet_progress pcb) (s : Sys ρ)
    (hstop : (poll s).1 = false) (hw : s.eng.thread_count_ = 0) :
    (search_directory_worker lib fs dir pcb rcb s).out = .fault := by
  have htc : (collect_files fs dir (poll s).2).2.eng.thread_count_ = s.eng.thread_count_ := by
    have h1 := (poll_keeps s).1
    have h2 := (collect_loop_keeps (iterate (fs.root dir)) [] (poll s).2).1
    unfold collect_files
    rw [h2, h1]
  unfold search_directory_worker
  rw [hstop]
  simp only [Bool.false_eq_true, if_false]
  rw [try_catch_fault]
  all_goals
    rw [and_then_returned _ _ (call_progress_quiet pcb hp _ _ _ _).1]
    simp [htc, hw]

/-- C21 (the code at the failing input).  The constructor never stores 0
(hardware parallelism, or 4 when that is 0), but `set_thread_count(0)` does:
it stores its argument unchecked.  A search on an existing root then takes
the division `files.size() / thread_count_` with divisor 0, for the root `d`
with three files as for a root `e` for which no file is collected, while the
same search on the engine as constructed returns. -/
theorem zero_thread_count_divides_by_zero :
    (∀ hc : Nat, 1 ≤ (initial_sys sample_lib hc none).eng.thread_count_)
    ∧ (∀ (threads : Nat) (s : Sys (Option (List Byte))),
        ((Op.set_thread_count threads).apply sample_lib sample_fs s).eng.thread_count_ = threads)
    ∧ (run_ops sample_lib sample_fs [Op.set_thread_count 0]
        (initial_sys sample_lib 8 none)).eng.thread_count_ = 0
    ∧ (search sample_lib sample_fs "foo" ["d"] sample_progress_cb sample_result_cb
        (run_ops sample_lib sample_fs [Op.set_thread_count 0]
          (initial_sys sample_lib 8 none))).out = .fault
    ∧ (search_directory_worker sample_lib sample_fs "d" sample_progress_cb sample_result_cb
        (sample_running [102, 111, 111] 0 10 0 none)).out = .fault
    ∧ listing sample_fs "e" = []
    ∧ (search_directory_worker sample_lib sample_fs "e" sample_progress_cb sample_result_cb
        (sample_running [102, 111, 111] 0 10 0 none)).out = .fault
    ∧ (search sample_lib sample_fs "foo" ["d"] sample_progress_cb sample_result_cb
        (initial_sys sample_lib 8 none)).out = .returned := by
  refine ⟨fun hc => ?_, fun _ _ => rfl, by decide, by decide, by decide, by decide, by decide,
    by decide⟩
  simp only [initial_sys, SearchEngine.new]
  split <;> omega

/-! ## The number of batch tasks -/

theorem ceil_div_le_iff (n b k : Nat) (hb : 0 < b) : ceil_div n b ≤ k ↔ n ≤ k * b := by
  unfold ceil_div
  rw [← Nat.lt_succ_iff, Nat.div_lt_iff_lt_mul hb, Nat.succ_mul]
  omega

theorem ceil_div_step (m b : Nat) (hb : 0 < b) (hm : 0 < m) :
    ceil_div m b = ceil_div (m - b) b + 1 := by
  apply Nat.le_antisymm
  · rw [ceil_div_le_iff _ _ _ hb, Nat.succ_mul]
    have := (ceil_div_le_iff (m - b) b (ceil_div (m - b) b) hb).mp (Nat.le_refl _)
    omega
  · rcases Nat.eq_zero_or_pos (ceil_div m b) with h0 | hpos
    · have := (ceil_div_le_iff m b 0 hb).mp (by omega)
      omega
    · obtain ⟨c, hc⟩ : ∃ c, ceil_div m b = c + 1 := ⟨ceil_div m b - 1, by omega⟩
      rw [hc]
      apply Nat.succ_le_succ
      rw [ceil_div_le_iff _ _ _ hb]
      have := (ceil_div_le_iff m b (c + 1) hb).mp (by omega)
      rw [Nat.succ_mul] at this
      omega

theorem ranges_loop_length_exact (n b : Nat) (hb : 0 < b) (fuel : Nat) :
    ∀ i : Nat, n - i ≤ fuel → (ranges_loop n b fuel i).length = ceil_div (n - i) b := by
  induction fuel with
  | zero =>
    intro i hf
    have h0 : n - i = 0 := by omega
    rw [h0]
    have : ceil_div 0 b = 0 := Nat.le_zero.mp ((ceil_div_le_iff 0 b 0 hb).mpr (by omega))
    simp [ranges_loop, this]
  | succ fuel ih =>
    intro i hf
    unfold ranges_loop
    by_cases hi : i < n
    · simp only [hi, if_true, List.length_cons]
      rw [ih (i + b) (by omega), ceil_div_step (n - i) b hb (by omega)]
      have : n - (i + b) = n - i - b := by omega
      rw [this]
    · have h0 : n - i = 0 := by omega
      rw [h0]
      have : ceil_div 0 b = 0 := Nat.le_zero.mp ((ceil_div_le_iff 0 b 0 hb).mpr (by omega))
      simp [hi, this]

/-- Without cancellation and with callbacks that return, the batch tasks a
root task launches are those of the index ranges for its files. -/
theorem worker_spawn_exact (lib : RegexLib ρ) (fs : FileSystem) (dir : Path)
    (pcb : ProgressCallback) (rcb : ResultCallback) (hp : quiet_progress pcb)
    (hr : quiet_result rcb) (s : Sys ρ) (hs : s.undisturbed) (ht : s.eng.thread_count_ ≠ 0) :
    (search_directory_worker lib fs dir pcb rcb s).log.filter Event.is_spawn_batch
      = (ranges_loop (listing fs dir).length
          (max 1 ((listing fs dir).length / s.eng.thread_count_))
          ((listing fs dir).length + 1) 0).map fun r => Event.spawn_batch r.1 r.2 := by
  have hu : ({ s with processed_files := 0 } : Sys ρ).undisturbed := hs
  obtain ⟨p1, p2⟩ := call_progress_quiet pcb hp ("Searching in: " ++ dir) 0
    (regular_files (iterate (fs.root dir))).length ({ s with processed_files := 0 } : Sys ρ)
  obtain ⟨c1, -⟩ := spawn_loop_undisturbed lib fs pcb rcb hp hr
    (regular_files (iterate (fs.root dir)))
    (max 1 ((regular_files (iterate (fs.root dir))).length / s.eng.thread_count_))
    (regular_files (iterate (fs.root dir))).length (by omega)
    ((regular_files (iterate (fs.root dir))).length + 1) 0
    ({ s with processed_files := 0 } : Sys ρ) (by omega) hu
  obtain ⟨-, d2⟩ := spawn_loop_eq_run_ranges lib fs pcb rcb hp hr
    (regular_files (iterate (fs.root dir)))
    (max 1 ((regular_files (iterate (fs.root dir))).length / s.eng.thread_count_))
    (regular_files (iterate (fs.root dir))).length
    ((regular_files (iterate (fs.root dir))).length + 1) 0
    ({ s with processed_files := 0 } : Sys ρ) hu
  unfold search_directory_worker listing
  rw [poll_undisturbed s hs]
  simp only [Bool.false_eq_true, if_false, collect_files]
  rw [collect_loop_undisturbed _ [] s hs]
  simp only [List.nil_append]
  rw [and_then_returned _ _ p1]
  simp only [call_progress_sys, ht, if_false]
  rw [try_catch_returned]
  · simp only [List.filter_append, d2, p2]
    split <;> simp [Event.is_spawn_batch]
  · exact c1

theorem full_load_batch_size (w : Nat) (hw : 1 ≤ w) : max 1 ((2 * w - 1) / w) = 1 := by
  have : (2 * w - 1) / w = 1 := by
    apply Nat.div_eq_of_lt_le
    · omega
    · rw [Nat.succ_mul]
      omega
  rw [this]
  rfl

/-- C22.  Oversubscription bound.  For a root with `n` collected files and
`w >= 1` workers, handled without cancellation (callbacks returning), the
number of batch tasks launched is `ceil(n / max(1, n / w))`; it is at most
`min(n, 2*w - 1)`, and it is `2*w - 1` when `n = 2*w - 1`.  The batch loop
launches that many tasks on every file list of length `n`.  (`ceil_div n b`
is the least `k` with `n <= k * b`.) -/
theorem oversubscription_bound (lib : RegexLib ρ) (fs : FileSystem) (dir : Path)
    (pcb : ProgressCallback) (rcb : ResultCallback) (hp : quiet_progress pcb)
    (hr : quiet_result rcb) (s : Sys ρ) (hs : s.undisturbed) (hw : 1 ≤ s.eng.thread_count_) :
    batch_tasks_launched (search_directory_worker lib fs dir pcb rcb s)
      = ceil_div (listing fs dir).length
          (max 1 ((listing fs dir).length / s.eng.thread_count_))
    ∧ batch_tasks_launched (search_directory_worker lib fs dir pcb rcb s)
      ≤ min (listing fs dir).length (2 * s.eng.thread_count_ - 1)
    ∧ ((listing fs dir).length = 2 * s.eng.thread_count_ - 1 →
        batch_tasks_launched (search_directory_worker lib fs dir pcb rcb s)
          = 2 * s.eng.thread_count_ - 1)
    ∧ (∀ (files : List Path) (total : Nat),
        batch_tasks_launched
            (spawn_loop lib fs pcb rcb files (max 1 (files.length / s.eng.thread_count_)) total
              (files.length + 1) 0 s)
          = ceil_div files.length (max 1 (files.length / s.eng.thread_count_))
        ∧ (files.length = 2 * s.eng.thread_count_ - 1 →
          batch_tasks_launched
              (spawn_loop lib fs pcb rcb files (max 1 (files.length / s.eng.thread_count_))
                total (files.length + 1) 0 s)
            = 2 * s.eng.thread_count_ - 1))
    ∧ (∀ n b k : Nat, 0 < b → (ceil_div n b ≤ k ↔ n ≤ k * b)) := by
  have hloop : ∀ (files : List Path) (total : Nat),
      batch_tasks_launched
          (spawn_loop lib fs pcb rcb files (max 1 (files.length / s.eng.thread_count_)) total
            (files.length + 1) 0 s)
        = ceil_div files.length (max 1 (files.length / s.eng.thread_count_)) := by
    intro files total
    unfold batch_tasks_launched
    rw [(spawn_loop_eq_run_ranges lib fs pcb rcb hp hr files _ total _ 0 s hs).2,
      List.length_map, ranges_loop_length_exact _ _ (by omega) _ 0 (by omega), Nat.sub_zero]
  have hb : 0 < max 1 ((listing fs dir).length / s.eng.thread_count_) := by omega
  have hcount : batch_tasks_launched (search_directory_worker lib fs dir pcb rcb s)
      = ceil_div (listing fs dir).length
          (max 1 ((listing fs dir).length / s.eng.thread_count_)) := by
    unfold batch_tasks_launched
    rw [worker_spawn_exact lib fs dir pcb rcb hp hr s hs (by omega), List.length_map,
      ranges_loop_length_exact _ _ hb _ 0 (by omega), Nat.sub_zero]
  refine ⟨hcount, ?_, ?_, fun files total => ⟨hloop files total, fun hn => ?_⟩,
    fun n b k hb => ceil_div_le_iff n b k hb⟩
  · rw [hcount]
    apply Nat.le_min.mpr
    constructor
    · rw [ceil_div_le_iff _ _ _ hb]
      exact Nat.le_mul_of_pos_right _ hb
    · have := (ranges_count_bound (listing fs dir).length s.eng.thread_count_ hw).1
      rw [ranges_loop_length_exact _ _ hb _ 0 (by omega), Nat.sub_zero] at this
      exact this
  · intro hn
    rw [hcount, hn, full_load_batch_size _ hw]
    simp [ceil_div]
  · rw [hloop files total, hn, full_load_batch_size _ hw]
    simp [ceil_div]

/-- C22 (witness).  Root `d` with its 3 files and 2 workers: `3 = 2*2 - 1`
batch tasks. -/
theorem oversubscription_bound_witness :
    batch_tasks_launched
        (search_directory_worker sample_lib sample_fs "d" sample_progress_cb sample_result_cb
          (sample_running [102, 111, 111] 0 10 2 none))
      = 2 * (sample_running [102, 111, 111] 0 10 2 none).eng.thread_count_ - 1 :=
  (oversubscription_bound sample_lib sample_fs "d" sample_progress_cb sample_result_cb
    sample_progress_cb_quiet sample_result_cb_quiet
    (sample_running [102, 111, 111] 0 10 2 none) ⟨by decide, by decide⟩ (by decide)).2.2.1
    (by decide)

/-! ## The result set of a session -/

theorem all_files_eq_tree_files (fs : FileSystem) (paths : List Path)
    (h : trees_readable fs paths = true) : all_files fs paths = tree_files fs paths := by
  unfold all_files tree_files
  unfold trees_readable at h
  generalize paths.filter (root_found fs) = roots at h
  induction roots with
  | nil => rfl
  | cons p rest ih =>
    simp only [List.all_cons, Bool.and_eq_true] at h
    simp only [List.flatMap_cons]
    rw [ih h.2]
    unfold listing
    rw [(iterate_reachable (fs.root p)).2 h.1]

/-- C1 (counterexample).  Root `t` holds `t/a`, then the directory
`t/locked` that cannot be opened, then `t/z`.  The file `t/z` belongs to the
file set under the root, it can be stat'ed, opened and mapped, its size 3 lies
within `[0, 10]` and the pattern `foo` matches in its bytes; no cancellation
is requested and the session returns.  Yet the session reports only `t/a`:
the traversal ends at the directory it cannot open, so `t/z` is never
visited. -/
theorem c1_unvisited_file_counterexample :
    tree_files sample_fs_locked_foo ["t"] = ["t/a", "t/z"]
    ∧ io_ok (sample_fs_locked_foo.file "t/z") = true
    ∧ size_in_bounds (sample_fs_locked_foo.file "t/z") 0 10 = true
    ∧ matches_in sample_lib (some [102, 111, 111]) (sample_fs_locked_foo.file "t/z").bytes = true
    ∧ (search sample_lib sample_fs_locked_foo "foo" ["t"] sample_progress_cb sample_result_cb
        (sample_sys 0 10 1 none)).out = .returned
    ∧ (search sample_lib sample_fs_locked_foo "foo" ["t"] sample_progress_cb sample_result_cb
        (sample_sys 0 10 1 none)).sys.eng.results_.map SearchResult.file_path = ["t/a"]
    ∧ ¬ ("t/z" ∈ (search sample_lib sample_fs_locked_foo "foo" ["t"] sample_progress_cb
            sample_result_cb (sample_sys 0 10 1 none)).sys.eng.results_.map SearchResult.file_path
        ↔ ("t/z" ∈ tree_files sample_fs_locked_foo ["t"]
            ∧ size_in_bounds (sample_fs_locked_foo.file "t/z") 0 10 = true
            ∧ matches_in sample_lib (some [102, 111, 111])
                (sample_fs_locked_foo.file "t/z").bytes = true)) := by
  decide

/-- C1 (amended).  A successful map has at least one byte.  When
cancellation is not requested and stat, open and map succeed, `search_file`
adds the file to the result store if and only if its size lies in
`[min, max]` (both inclusive) and the matcher matches somewhere in its bytes.
Hence in a session without cancellation, with callbacks that return, probes
that answer, a worker count of at least 1 and root trees whose directories can
all be opened, the set of reported paths is exactly the set of the files
under the root paths on which stat, open and map succeed, whose size lies in
`[min, max]` and whose bytes match, whatever the order of the files; when
stat, open and map succeed on every file under the roots, it is the set of
files with size in `[min, max]` and matching bytes. -/
theorem search_result_set_exact (lib : RegexLib ρ) (fs : FileSystem)
    (hmap : maps_have_bytes fs) :
    (∀ (p : Path) (rcb : ResultCallback) (s : Sys ρ) (size : Nat),
        (poll s).1 = false → (fs.file p).stat_size = some size →
        (fs.file p).open_ok = true → (fs.file p).fstat_ok = true → (fs.file p).mmap_ok = true →
        (search_file lib fs p rcb s).sys.eng.results_
          = s.eng.results_ ++
            (if s.eng.min_file_size_ ≤ size ∧ size ≤ s.eng.max_file_size_
                ∧ matches_in lib s.eng.compiled_pattern_ (fs.file p).bytes = true
              then [result_of fs p] else []))
    ∧ (∀ (pattern : String) (paths : List Path) (pcb : ProgressCallback) (rcb : ResultCallback)
        (re : ρ) (s : Sys ρ),
        quiet_progress pcb → quiet_result rcb → lib.compile pattern = .ok re →
        (∀ p ∈ paths, probe_throws fs p = false) →
        s.eng.searching_ = false → s.pending_stop = none → s.eng.thread_count_ ≠ 0 →
        trees_readable fs paths = true →
        (∀ f : Path,
          f ∈ (search lib fs pattern paths pcb rcb s).sys.eng.results_.map SearchResult.file_path
            ↔ (f ∈ tree_files fs paths
                ∧ io_ok (fs.file f) = true
                ∧ size_in_bounds (fs.file f) s.eng.min_file_size_ s.eng.max_file_size_ = true
                ∧ matches_in lib re (fs.file f).bytes = true))
        ∧ ((∀ f ∈ tree_files fs paths, io_ok (fs.file f) = true) →
          ∀ f : Path,
            f ∈ (search lib fs pattern paths pcb rcb s).sys.eng.results_.map
                SearchResult.file_path
              ↔ (f ∈ tree_files fs paths
                  ∧ size_in_bounds (fs.file f) s.eng.min_file_size_ s.eng.max_file_size_ = true
                  ∧ matches_in lib re (fs.file f).bytes = true))) := by
  constructor
  · intro p rcb s size hpoll hstat hopen hfstat hmmap
    rw [search_file_results lib fs p rcb s size hpoll hstat hopen hfstat hmmap]
    have hb := hmap p hmmap
    simp only [ne_eq, hb, not_false_eq_true, true_and]
  · intro pattern paths pcb rcb re s hp hr hre hprobe hidle hpend ht hread
    obtain ⟨-, c2, -⟩ := search_undisturbed lib fs pattern paths pcb rcb hp hr re hre hprobe s
      hidle hpend ht
    have hgen : ∀ f : Path,
        f ∈ (search lib fs pattern paths pcb rcb s).sys.eng.results_.map SearchResult.file_path
          ↔ (f ∈ tree_files fs paths
              ∧ io_ok (fs.file f) = true
              ∧ size_in_bounds (fs.file f) s.eng.min_file_size_ s.eng.max_file_size_ = true
              ∧ matches_in lib re (fs.file f).bytes = true) := by
      intro f
      rw [c2]
      simp only
      rw [mem_hits_path, all_files_eq_tree_files fs paths hread]
      simp only [accepts, Bool.and_eq_true, Bool.not_eq_true', List.isEmpty_eq_false, and_assoc,
        ne_eq]
      constructor
      · rintro ⟨h1, h2, h3, -, h5⟩
        exact ⟨h1, h2, h3, h5⟩
      · rintro ⟨h1, h2, h3, h5⟩
        refine ⟨h1, h2, h3, ?_, h5⟩
        have hm : (fs.file f).mmap_ok = true := by
          simp only [io_ok, Bool.and_eq_true] at h2
          exact h2.2
        exact hmap f hm
    refine ⟨hgen, fun hio f => ?_⟩
    rw [hgen f]
    constructor
    · rintro ⟨h1, -, h3, h4⟩
      exact ⟨h1, h3, h4⟩
    · rintro ⟨h1, h3, h4⟩
      exact ⟨h1, hio f h1, h3, h4⟩

theorem sample_fs_strict_maps_have_bytes : maps_have_bytes sample_fs_strict := by
  intro p hm
  simp only [sample_fs_strict, sample_fs] at hm ⊢
  split_ifs at hm ⊢ <;> simp_all

/-- C1 (witness).  On the sample file system where mapping the empty file
`d/c` fails: file `d/a` ("foo", 3 bytes) under the limits `[0, 10]` and the
literal `foo`, and a session over root `d`, whose files are `d/a`, `d/b` and
`d/c`. -/
theorem search_result_set_exact_witness :
    ((poll (sample_running [102, 111, 111] 0 10 1 none)).1 = false
      ∧ (search_file sample_lib sample_fs_strict "d/a" none
          (sample_running [102, 111, 111] 0 10 1 none)).sys.eng.results_
        = [result_of sample_fs_strict "d/a"])
    ∧ trees_readable sample_fs_strict ["d"] = true
    ∧ tree_files sample_fs_strict ["d"] = ["d/a", "d/b", "d/c"]
    ∧ ("d/a" ∈ (search sample_lib sample_fs_strict "foo" ["d"] sample_progress_cb
          sample_result_cb (sample_sys 0 10 1 none)).sys.eng.results_.map SearchResult.file_path
        ↔ ("d/a" ∈ tree_files sample_fs_strict ["d"]
            ∧ io_ok (sample_fs_strict.file "d/a") = true
            ∧ size_in_bounds (sample_fs_strict.file "d/a") 0 10 = true
            ∧ matches_in sample_lib (some [102, 111, 111])
                (sample_fs_strict.file "d/a").bytes = true)) :=
  ⟨⟨by decide,
    ((search_result_set_exact sample_lib sample_fs_strict sample_fs_strict_maps_have_bytes).1
      "d/a" none (sample_running [102, 111, 111] 0 10 1 none) 3 (by decide) (by decide)
      (by decide) (by decide) (by decide)).trans (by decide)⟩,
   by decide, by decide,
   ((search_result_set_exact sample_lib sample_fs_strict sample_fs_strict_maps_have_bytes).2
      "foo" ["d"] sample_progress_cb sample_result_cb (some [102, 111, 111])
      (sample_sys 0 10 1 none) sample_progress_cb_quiet sample_result_cb_quiet rfl (by decide)
      (by decide) (by decide) (by decide) (by decide)).1 "d/a"⟩

/-! ## A root path whose probe throws -/

/-- C5 (the code at the failing input).  In the path list `locked/x`,
`nowhere`, `d` the root `nowhere` does not exist and the root `d` does, but
the probe of `locked/x` throws a `filesystem_error`: `search` leaves by that
exception with an empty log and an empty store, so `nowhere` is never
reported and no task is launched for `d`.  On the list `nowhere`, `d` the
same session reports `nowhere` and searches `d`. -/
theorem probe_error_abandons_remaining_roots :
    root_missing sample_fs "nowhere" = true
    ∧ root_found sample_fs "d" = true
    ∧ (search sample_lib sample_fs "foo" ["locked/x", "nowhere", "d"] sample_progress_cb
        sample_result_cb (sample_sys 0 10 1 none)).out
      = .threw (.filesystem_error "Permission denied")
    ∧ (search sample_lib sample_fs "foo" ["locked/x", "nowhere", "d"] sample_progress_cb
        sample_result_cb (sample_sys 0 10 1 none)).log = []
    ∧ (search sample_lib sample_fs "foo" ["locked/x", "nowhere", "d"] sample_progress_cb
        sample_result_cb (sample_sys 0 10 1 none)).sys.eng.results_ = []
    ∧ (search sample_lib sample_fs "foo" ["nowhere", "d"] sample_progress_cb
        sample_result_cb (sample_sys 0 10 1 none)).log.filter Event.is_not_found
      = [Event.progress "Directory not found: nowhere" 0 0]
    ∧ (search sample_lib sample_fs "foo" ["nowhere", "d"] sample_progress_cb
        sample_result_cb (sample_sys 0 10 1 none)).log.filter Event.is_spawn_root
      = [Event.spawn_root "d"]
    ∧ (search sample_lib sample_fs "foo" ["nowhere", "d"] sample_progress_cb
        sample_result_cb (sample_sys 0 10 1 none)).sys.eng.results_.map SearchResult.file_path
      = ["d/a"] := by
  decide

end SearchAssets
